import Mathlib

/-!
Verification of the hterm ScrollPort specification against the source of
`hterm/js/hterm_scrollport.js` (the virtualized viewport renderer).

The development is a shallow embedding:
* JavaScript numbers are modelled as rationals (`ℚ`); row indices and row
  counts, which the source only ever produces and consumes as integers, are
  modelled as `ℤ`/`ℕ`.
* The ordered child list of the `rowNodes_` container is modelled as a
  `List Slot`, where a `Slot` is the top fold, the bottom fold, one of the
  two select bags, or an `x-row` node.  DOM node identity is modelled by a
  numeric id carried by each row node.  `insertBefore`/`appendChild` follow
  the DOM semantics: a node that is already in the list is moved, and an
  `insertBefore` whose reference node is not a child fails.
* Code that can throw (`removeChild` walks off the end of the list,
  `cacheRowNode_` dereferencing a missing node, calling a method that does
  not exist on a DOM element, ...) is modelled in `Except String`.
-/

namespace Hterm

/-! ## Basic numeric helpers -/

/-- Clamp a rational into the interval `[lo, hi]`. -/
def qclamp (x lo hi : ℚ) : ℚ := max lo (min x hi)

/-- Clamp an integer into `[lo, hi]`. -/
def iclamp (x lo hi : ℤ) : ℤ := max lo (min x hi)

/-! ## Redraw scheduler (`scheduleRedraw`, from hterm_scrollport.js)

`this.timeouts_.redraw` holds the pending timeout handle; the armed
callback deletes the handle and runs `redraw_()`.  The state machine below
records whether the handle is set and how many redraw passes have run. -/

structure SchedState where
  redrawArmed : Bool
  redrawCount : Nat
deriving DecidableEq, Repr

/-- `hterm.ScrollPort.prototype.scheduleRedraw`: a no-op while the timeout
handle is set, otherwise arms the deferred callback. -/
def scheduleRedraw (s : SchedState) : SchedState :=
  if s.redrawArmed then s else { s with redrawArmed := true }

/-- The deferred callback armed by `scheduleRedraw`: it deletes the timeout
handle and runs one `redraw_()` pass.  The host event loop only runs the
callback when it is armed. -/
def fireRedrawTimeout (s : SchedState) : SchedState :=
  if s.redrawArmed then { redrawArmed := false, redrawCount := s.redrawCount + 1 }
  else s

/-- `k` repeated `scheduleRedraw` calls. -/
def schedIter : Nat → SchedState → SchedState
  | 0, s => s
  | k + 1, s => schedIter k (scheduleRedraw s)

/-! ## Viewport geometry (`syncRowNodesDimensions_`)

`visibleRowCount` is computed by `lib.f.smartFloorDivide(screenHeight,
characterHeight)`; `visibleRowTopMargin` is set to `0` and
`visibleRowBottomMargin` to the leftover fractional height. -/

/-- Modelled from the spec: `lib.f.smartFloorDivide` lives in libdot
(`libdot/js/lib_f.js`), which is not part of the sources under
verification; the specification defines the computation as "the integer
floor of the division". -/
def smartFloorDivide (numerator denominator : ℚ) : ℤ :=
  ⌊numerator / denominator⌋

/-- The geometry fields of the ScrollPort state that
`syncRowNodesDimensions_`, `syncScrollHeight` and the scroll functions
touch. -/
structure ScrollState where
  characterHeight : ℚ
  screenHeight : ℚ
  visibleRowCount : ℤ
  visibleRowTopMargin : ℚ
  visibleRowBottomMargin : ℚ
  scrollTop : ℚ
  lastRowCount : ℤ
  scrollAreaHeight : ℚ
  isScrolledEnd : Bool
  redrawScheduled : Bool
deriving DecidableEq, Repr

/-- The geometry part of `hterm.ScrollPort.prototype.syncRowNodesDimensions_`:
row count, top margin, bottom margin.  (The remaining statements of the
source function only assign CSS dimensions to container nodes.) -/
def syncRowNodesDimensions (g : ScrollState) : ScrollState :=
  let visibleRowCount := smartFloorDivide g.screenHeight g.characterHeight
  let visibleRowsHeight : ℚ := (visibleRowCount : ℚ) * g.characterHeight
  { g with
    visibleRowCount := visibleRowCount
    visibleRowTopMargin := 0
    visibleRowBottomMargin := g.screenHeight - visibleRowsHeight }

/-- `hterm.ScrollPort.prototype.syncScrollHeight`: refresh `lastRowCount_`
from the row provider and resize the scroll area. -/
def syncScrollHeight (rowCount : ℤ) (g : ScrollState) : ScrollState :=
  { g with
    lastRowCount := rowCount
    scrollAreaHeight := g.characterHeight * (rowCount : ℚ) +
      g.visibleRowTopMargin + g.visibleRowBottomMargin }

/-- `hterm.ScrollPort.prototype.getScrollMax_`. -/
def getScrollMax (g : ScrollState) : ℚ :=
  g.scrollAreaHeight + g.visibleRowTopMargin + g.visibleRowBottomMargin -
    g.screenHeight

/-- The maximum value the DOM lets `screen_.scrollTop` take:
`scrollHeight - clientHeight`, where the scroll height of the screen
element is the height of the scroll area div (the only in-flow content). -/
def domScrollTopMax (g : ScrollState) : ℚ :=
  max 0 (g.scrollAreaHeight - g.screenHeight)

/-- Assigning `screen_.scrollTop = x`: the DOM clamps the stored value into
`[0, scrollHeight - clientHeight]`. -/
def domSetScrollTop (g : ScrollState) (x : ℚ) : ScrollState :=
  { g with scrollTop := qclamp x 0 (domScrollTopMax g) }

/-- `hterm.ScrollPort.prototype.scrollRowToTop`. -/
def scrollRowToTop (rowCount : ℤ) (rowIndex : ℤ) (g : ScrollState) : ScrollState :=
  let g := syncScrollHeight rowCount g
  let g := { g with isScrolledEnd := decide (rowIndex + g.visibleRowCount ≥ g.lastRowCount) }
  let scrollTop : ℚ := (rowIndex : ℚ) * g.characterHeight + g.visibleRowTopMargin
  let scrollMax := getScrollMax g
  let scrollTop := if scrollTop > scrollMax then scrollMax else scrollTop
  if g.scrollTop = scrollTop then g
  else { domSetScrollTop g scrollTop with redrawScheduled := true }

/-- `hterm.ScrollPort.prototype.getTopRowIndex`:
`Math.round(screen_.scrollTop / characterSize.height)`. -/
def getTopRowIndex (g : ScrollState) : ℤ :=
  round (g.scrollTop / g.characterHeight)

/-! ## Wheel delta normalization (`scrollWheelDelta`)

`screen_` is a plain `x-screen` DOM element created with
`doc.createElement`; it has no `getWidth`/`getHeight` methods, so the
`DOM_DELTA_PAGE` branch of the source, which evaluates
`this.screen_.getWidth()`, throws a `TypeError`. -/

inductive WheelDeltaMode where
  | pixel
  | line
  | page
deriving DecidableEq, Repr

structure WheelEvt where
  deltaMode : WheelDeltaMode
  deltaX : ℚ
  deltaY : ℚ
deriving DecidableEq, Repr

/-- `hterm.ScrollPort.prototype.scrollWheelDelta`. -/
def scrollWheelDelta (scrollWheelMultiplier characterWidth characterHeight : ℚ)
    (e : WheelEvt) : Except String (ℚ × ℚ) := do
  let d : ℚ × ℚ ←
    match e.deltaMode with
    | .pixel =>
      Except.ok (e.deltaX * scrollWheelMultiplier, e.deltaY * scrollWheelMultiplier)
    | .line =>
      Except.ok (e.deltaX * characterWidth, e.deltaY * characterHeight)
    | .page =>
      Except.error "TypeError: this.screen_.getWidth is not a function"
  Except.ok (d.1, d.2 * (-1))

/-! ## Touch scrolling (`onTouch_`) -/

structure TouchPoint where
  id : ℕ
  x : ℚ
  y : ℚ
deriving DecidableEq, Repr

inductive TouchEvtType where
  | start
  | cancel
  | touchEnd
  | move
deriving DecidableEq, Repr

structure TouchEvt where
  type : TouchEvtType
  changedTouches : List TouchPoint
  defaultPrevented : Bool
deriving DecidableEq, Repr

/-- `lastTouch_`: identifier to last seen `(x, y)`. -/
abbrev TouchMap := List (ℕ × ℚ × ℚ)

def touchLookup (m : TouchMap) (i : ℕ) : Option (ℚ × ℚ) :=
  (m.find? (fun p => p.1 = i)).map (·.2)

/-- `this.lastTouch_[id] = {x, y}` (JS object property assignment). -/
def touchStore (m : TouchMap) (i : ℕ) (v : ℚ × ℚ) : TouchMap :=
  (i, v) :: m.filter (fun p => ¬ p.1 = i)

/-- `delete this.lastTouch_[id]`. -/
def touchDelete (m : TouchMap) (i : ℕ) : TouchMap :=
  m.filter (fun p => ¬ p.1 = i)

/-- The `touchmove` accumulation loop of `onTouch_`:
`delta += (lastTouch_[t.id].y - t.y)` with `lastTouch_[t.id] = t` after each
touch.  Reading `.y` of a missing entry is a `TypeError`. -/
def touchMoveFold : List TouchPoint → TouchMap → ℚ → Except String (ℚ × TouchMap)
  | [], m, delta => Except.ok (delta, m)
  | t :: ts, m, delta =>
    match touchLookup m t.id with
    | none => Except.error "TypeError: lastTouch entry is undefined"
    | some last => touchMoveFold ts (touchStore m t.id (t.x, t.y)) (delta + (last.2 - t.y))

/-- `hterm.ScrollPort.prototype.onTouch_` (after the overridable `onTouch`
hook has run without calling `preventDefault`).  The CrOS focus workaround
in the `touchstart` branch only talks to the window manager and is omitted;
setting `screen_.scrollTop` fires a scroll event that triggers the redraw,
which is outside this function. -/
def onTouch (g : ScrollState) (m : TouchMap) (e : TouchEvt) :
    Except String (ScrollState × TouchMap) := do
  if e.defaultPrevented then
    Except.ok (g, m)
  else
    match e.type with
    | .start =>
      Except.ok (g, e.changedTouches.foldl (fun acc t => touchStore acc t.id (t.x, t.y)) m)
    | .cancel =>
      Except.ok (g, e.changedTouches.foldl (fun acc t => touchDelete acc t.id) m)
    | .touchEnd =>
      Except.ok (g, e.changedTouches.foldl (fun acc t => touchDelete acc t.id) m)
    | .move => do
      let (delta, m) ← touchMoveFold e.changedTouches m 0
      let delta := delta * (-1)
      let top := g.scrollTop - delta
      let top := if top < 0 then 0 else top
      let scrollMax := getScrollMax g
      let top := if top > scrollMax then scrollMax else top
      if top ≠ g.scrollTop then
        Except.ok ({ g with scrollTop := top }, m)
      else
        Except.ok (g, m)

/-! ## Row nodes and the `rowNodes_` child list

An `x-row` node is identified by a numeric id (`nid`, standing for the JS
reference identity) and carries the `rowIndex` property assigned by the row
provider.  The children of `rowNodes_` are the two folds, the two select
bags, and row nodes. -/

structure RowNode where
  nid : ℕ
  rowIndex : ℤ
deriving DecidableEq, Repr

inductive Slot where
  | topFold
  | bottomFold
  | topBag
  | bottomBag
  | row (n : RowNode)
deriving DecidableEq, Repr

/-- The `rowIndex` property read off a child: only `x-row` nodes have one
(reading it off a fold or a bag yields `undefined`, which is equal to no
number). -/
def slotRowIndex : Slot → Option ℤ
  | .row n => some n.rowIndex
  | _ => none

/-- `node.nextSibling` inside the `rowNodes_` child list: the element after
the first occurrence of `x`, or `none` when `x` is last or not a child. -/
def nextSibling (x : Slot) : List Slot → Option Slot
  | [] => none
  | s :: rest => if s = x then rest.head? else nextSibling x rest

/-- Insert `x` immediately before the first occurrence of `r`; used only on
lists from which `x` has already been detached.  If `r` does not occur the
node ends up at the end (this case is unreachable in the verified flows,
where the reference is checked for membership first). -/
def insertBeforeAux (x r : Slot) : List Slot → List Slot
  | [] => [x]
  | s :: rest => if s = r then x :: s :: rest else s :: insertBeforeAux x r rest

/-- `rowNodes_.insertBefore(x, ref)` with DOM semantics: a `none` reference
appends; a node already in the tree is moved; a reference node that is not
a child raises `NotFoundError`; inserting a node before itself leaves it in
place (the DOM pre-insertion step replaces such a reference with the node's
next sibling). -/
def domInsertBefore (x : Slot) (ref : Option Slot) (l : List Slot) :
    Except String (List Slot) :=
  match ref with
  | none => Except.ok (l.erase x ++ [x])
  | some r =>
    if r ∈ l then
      if r = x then
        match nextSibling x l with
        | none => Except.ok (l.erase x ++ [x])
        | some r2 => Except.ok (insertBeforeAux x r2 (l.erase x))
      else Except.ok (insertBeforeAux x r (l.erase x))
    else Except.error "NotFoundError: reference node is not a child"

/-- `rowNodes_.removeChild(x)`: removing a node that is not a child raises. -/
def domRemoveChild (x : Slot) (l : List Slot) : Except String (List Slot) :=
  if x ∈ l then Except.ok (l.erase x)
  else Except.error "NotFoundError: node to remove is not a child"

/-- `rowNodes_.appendChild(x)` (moves `x` if it is already a child). -/
def domAppendChild (x : Slot) (l : List Slot) : List Slot :=
  l.erase x ++ [x]

/-- `hterm.ScrollPort.prototype.resetSelectBags_` restricted to the child
list: both select bags are removed from the document (their text content is
also cleared, which the slot list does not record). -/
def resetSelectBags (l : List Slot) : List Slot :=
  (l.erase Slot.topBag).erase Slot.bottomBag

/-! ## The synced selection consumed by a reconciliation pass

`redraw_` and `onCopy_` begin with `this.selection.sync()`; the fields of
the resulting object that the reconciliation and copy code reads are
`startRow`, `endRow`, `isMultiline` and `isCollapsed`.  The sync algorithm
itself (walking the live DOM selection) is modelled separately below for
claim C5; here its output is taken as an input. -/

structure SelState where
  startRow : Option RowNode
  endRow : Option RowNode
  isMultiline : Bool
  isCollapsed : Bool
deriving DecidableEq, Repr

/-! ## Copy handling (`onCopy_`, `resetSelectBags_`)

The model records, for each select bag, whether it was inserted into the
document and with what text, together with the arguments of every
`rowProvider_.getRowsText` call. -/

structure CopyResult where
  topBagText : String
  topBagInDoc : Bool
  bottomBagText : String
  bottomBagInDoc : Bool
  getRowsTextCalls : List (ℤ × ℤ)
deriving DecidableEq, Repr

/-- Both select bags empty and removed from the document, no backfill
queries: the state right after `resetSelectBags_`. -/
def emptyCopyResult : CopyResult :=
  { topBagText := ""
    topBagInDoc := false
    bottomBagText := ""
    bottomBagInDoc := false
    getRowsTextCalls := [] }

/-- `hterm.ScrollPort.prototype.onCopy_` (after the overridable `onCopy`
hook has run without calling `preventDefault`), taking the synced selection
and the geometry as inputs.  `foldTopNextIndex` stands for
`topFold_.nextSibling.rowIndex` and `foldBottomPrevIndex` for
`bottomFold_.previousSibling.rowIndex`. -/
def onCopy (sel : SelState) (topRowIndex visibleRowCount : ℤ)
    (foldTopNextIndex foldBottomPrevIndex : ℤ)
    (getRowsText : ℤ → ℤ → String) : Except String CopyResult := do
  let r := emptyCopyResult
  if sel.isCollapsed then
    Except.ok r
  else
    match sel.endRow with
    | none => Except.error "TypeError: selection.endRow is null"
    | some endRow =>
      match sel.startRow with
      | none => Except.error "TypeError: selection.startRow is null"
      | some startRow =>
        if endRow.rowIndex - startRow.rowIndex < 2 then
          Except.ok r
        else
          let bottomRowIndex := topRowIndex + visibleRowCount - 1
          let r :=
            if startRow.rowIndex < topRowIndex then
              let endBackfillIndex :=
                if endRow.rowIndex < topRowIndex then endRow.rowIndex
                else foldTopNextIndex
              { r with
                topBagText := getRowsText (startRow.rowIndex + 1) endBackfillIndex
                topBagInDoc := true
                getRowsTextCalls :=
                  r.getRowsTextCalls ++ [(startRow.rowIndex + 1, endBackfillIndex)] }
            else r
          let r :=
            if endRow.rowIndex > bottomRowIndex then
              let startBackfillIndex :=
                if startRow.rowIndex > bottomRowIndex then startRow.rowIndex + 1
                else foldBottomPrevIndex + 1
              { r with
                bottomBagText := getRowsText startBackfillIndex endRow.rowIndex
                bottomBagInDoc := true
                getRowsTextCalls :=
                  r.getRowsTextCalls ++ [(startBackfillIndex, endRow.rowIndex)] }
            else r
          Except.ok r

/-! ## The document tree and `Selection.sync()`

For claim C5 the live DOM around the selection is modelled as a rose tree;
a node reference is the path (list of child positions) from the root.  Each
node carries its `nodeName` and, for `x-row` elements, the `rowIndex`
property the row provider assigned. -/

inductive DomNode where
  | mk (nodeName : String) (rowIndex : ℤ) (children : List DomNode)

def DomNode.nodeName : DomNode → String
  | .mk s _ _ => s

def DomNode.rowIndexProp : DomNode → ℤ
  | .mk _ i _ => i

def DomNode.children : DomNode → List DomNode
  | .mk _ _ cs => cs

abbrev DomPath := List ℕ

/-- Resolve a path to the node it denotes, if any. -/
def nodeAt : DomNode → DomPath → Option DomNode
  | n, [] => some n
  | n, i :: p =>
    match n.children.get? i with
    | some c => nodeAt c p
    | none => none

/-- The `while (row && row.nodeName != 'X-ROW') row = row.parentNode` walk
of `Selection.sync`: ascend from the referenced node to the closest
enclosing `X-ROW` element, returning its path and node.  Reaching the root
without finding one corresponds to `parentNode` becoming null. -/
def rowAncestor (root : DomNode) (p : DomPath) : Option (DomPath × DomNode) :=
  match nodeAt root p with
  | none => none
  | some n =>
    if n.nodeName = "X-ROW" then some (p, n)
    else
      match hp : p with
      | [] => none
      | _ :: _ => rowAncestor root p.dropLast
termination_by p.length
decreasing_by
  simp only [hp, List.length_dropLast, List.length_cons]
  omega

mutual

/-- `hterm.ScrollPort.Selection.prototype.findFirstChild(parent, childAry)`:
depth-first, document-order search of the descendants of `parent` (at path
`base`) for the first node among `childAry`. -/
def findFirstChild (childAry : List DomPath) (base : DomPath) :
    DomNode → Option DomPath
  | .mk _ _ cs => findFirstChildKids childAry base 0 cs

/-- The sibling walk of `findFirstChild`: check each child, descending
before moving to the next sibling. -/
def findFirstChildKids (childAry : List DomPath) (base : DomPath) :
    ℕ → List DomNode → Option DomPath
  | _, [] => none
  | i, c :: rest =>
    let p := base ++ [i]
    if p ∈ childAry then some p
    else
      match findFirstChild childAry p c with
      | some r => some r
      | none => findFirstChildKids childAry base (i + 1) rest

end

/-- The live DOM selection as read through `document.getSelection()`:
anchor and focus positions.  `isCollapsed` is not stored: per the DOM
specification it is true exactly when anchor and focus are the same
position. -/
structure DomSelection where
  anchorPath : DomPath
  focusPath : DomPath
  anchorOffset : ℕ
  focusOffset : ℕ
deriving DecidableEq, Repr

def DomSelection.isCollapsed (s : DomSelection) : Bool :=
  s.anchorPath = s.focusPath ∧ s.anchorOffset = s.focusOffset

/-- The output fields of `Selection.sync`. -/
structure SyncedSelection where
  startRowPath : Option DomPath
  endRowPath : Option DomPath
  startPath : Option DomPath
  endPath : Option DomPath
  startOffset : Option ℕ
  endOffset : Option ℕ
  isMultiline : Option Bool
  isCollapsed : Bool
deriving DecidableEq, Repr

/-- The state `sync` establishes before inspecting the selection shape. -/
def clearedSync (isCollapsed : Bool) : SyncedSelection :=
  { startRowPath := none
    endRowPath := none
    startPath := none
    endPath := none
    startOffset := none
    endOffset := none
    isMultiline := none
    isCollapsed := isCollapsed }

/-- `hterm.ScrollPort.Selection.prototype.sync`.  `accessibilityEnabled`
mirrors `scrollPort_.accessibilityReader_ &&
accessibilityReader_.accessibilityEnabled`; `sel = none` is a document
without a selection object. -/
def selectionSync (root : DomNode) (accessibilityEnabled : Bool)
    (sel : Option DomSelection) : Except String SyncedSelection :=
  let isCollapsed : Bool :=
    match sel with
    | none => true
    | some s => s.isCollapsed
  match sel with
  | none => Except.ok (clearedSync isCollapsed)
  | some s =>
    if isCollapsed ∧ ¬ accessibilityEnabled then Except.ok (clearedSync isCollapsed)
    else
      match rowAncestor root s.anchorPath with
      | none => Except.ok (clearedSync isCollapsed)
      | some (anchorRowPath, anchorRow) =>
        match rowAncestor root s.focusPath with
        | none => Except.ok (clearedSync isCollapsed)
        | some (focusRowPath, focusRow) =>
          let anchorFirst : SyncedSelection :=
            { startRowPath := some anchorRowPath
              endRowPath := some focusRowPath
              startPath := some s.anchorPath
              endPath := some s.focusPath
              startOffset := some s.anchorOffset
              endOffset := some s.focusOffset
              isMultiline := some (decide (anchorRow.rowIndexProp ≠ focusRow.rowIndexProp))
              isCollapsed := isCollapsed }
          let focusFirst : SyncedSelection :=
            { startRowPath := some focusRowPath
              endRowPath := some anchorRowPath
              startPath := some s.focusPath
              endPath := some s.anchorPath
              startOffset := some s.focusOffset
              endOffset := some s.anchorOffset
              isMultiline := some (decide (anchorRow.rowIndexProp ≠ focusRow.rowIndexProp))
              isCollapsed := isCollapsed }
          if anchorRow.rowIndexProp < focusRow.rowIndexProp then
            Except.ok anchorFirst
          else if anchorRow.rowIndexProp > focusRow.rowIndexProp then
            Except.ok focusFirst
          else if s.focusPath = s.anchorPath then
            if s.anchorOffset < s.focusOffset then Except.ok anchorFirst
            else Except.ok focusFirst
          else
            match findFirstChild [s.anchorPath, s.focusPath] anchorRowPath anchorRow with
            | none => Except.error "Unexpected error syncing selection."
            | some firstNode =>
              if firstNode = s.anchorPath then Except.ok anchorFirst
              else Except.ok focusFirst

/-! ## The reconciliation pass (`redraw_` and its helpers)

The while loops of the source are modelled as recursions that terminate
because every step removes a child from the finite child list; the cases in
which the JS loop would dereference null or walk past the end of the list
are the `Except.error` branches. -/

/-- The `while (firstChild != target) removeChild(firstChild)` loops of
`drawTopFold_` / (`selectAll`).  When the target is not a child the JS loop
empties the list and then calls `removeChild(null)`, a `TypeError`. -/
def dropUntilHead (target : Slot) : List Slot → Except String (List Slot)
  | [] => Except.error "TypeError: removeChild of null first child"
  | s :: rest =>
    if s = target then Except.ok (s :: rest) else dropUntilHead target rest

/-- The `while (lastChild != target) removeChild(lastChild)` loop of
`drawBottomFold_`. -/
def trimLastUntil (target : Slot) (l : List Slot) : Except String (List Slot) :=
  match hl : l.getLast? with
  | none => Except.error "TypeError: removeChild of null last child"
  | some s =>
    if s = target then Except.ok l else trimLastUntil target l.dropLast
termination_by l.length
decreasing_by
  have hne : l ≠ [] := by
    intro h
    rw [h] at hl
    simp [List.getLast?] at hl
  simp only [List.length_dropLast]
  have : 0 < l.length := List.length_pos.mpr hne
  omega

/-- The `while (startRow.nextSibling != endRow)
removeChild(startRow.nextSibling)` loops of `drawTopFold_` and
`drawBottomFold_`. -/
def trimAfterUntil (x target : Slot) (l : List Slot) : Except String (List Slot) :=
  match hs : nextSibling x l with
  | none => Except.error "TypeError: removeChild of null next sibling"
  | some s =>
    if s = target then Except.ok l else trimAfterUntil x target (l.erase s)
termination_by l.length
decreasing_by
  have hmem : s ∈ l := by
    clear * - hs
    induction l with
    | nil => simp [nextSibling] at hs
    | cons a rest ih =>
      simp only [nextSibling] at hs
      by_cases hax : a = x
      · simp only [hax, if_pos rfl] at hs
        right
        exact List.mem_of_mem_head? hs
      · simp only [if_neg hax] at hs
        right
        exact ih hs
  have := List.length_erase_add_one hmem
  omega

/-- The `if (firstChild != topFold) insertBefore(topFold, firstChild)` step
of `drawTopFold_`. -/
def placeTopFoldFirst (l : List Slot) : Except String (List Slot) :=
  if l.head? = some Slot.topFold then Except.ok l
  else domInsertBefore Slot.topFold l.head? l

/-- The `if (x.nextSibling != topFold) insertBefore(topFold, x.nextSibling)`
steps of `drawTopFold_`. -/
def placeTopFoldAfter (x : Slot) (l : List Slot) : Except String (List Slot) :=
  if nextSibling x l = some Slot.topFold then Except.ok l
  else domInsertBefore Slot.topFold (nextSibling x l) l

/-- `hterm.ScrollPort.prototype.drawTopFold_`. -/
def drawTopFold (sel : SelState) (topRowIndex : ℤ) (l : List Slot) :
    Except String (List Slot) :=
  match sel.startRow with
  | none =>
    -- Selection is entirely below the top fold.
    placeTopFoldFirst l
  | some startRow =>
    if startRow.rowIndex ≥ topRowIndex then
      placeTopFoldFirst l
    else do
      let l ←
        if sel.isMultiline = false then
          -- Only the startRow is above the fold.
          placeTopFoldAfter (Slot.row startRow) l
        else
          match sel.endRow with
          | none => Except.error "TypeError: selection.endRow is null"
          | some endRow =>
            if endRow.rowIndex ≥ topRowIndex then
              -- Only the startRow is above the fold.
              placeTopFoldAfter (Slot.row startRow) l
            else do
              -- Both rows are above the fold.
              let l ← placeTopFoldAfter (Slot.row endRow) l
              trimAfterUntil (Slot.row startRow) (Slot.row endRow) l
      dropUntilHead (Slot.row startRow) l

/-- The `if (lastChild != bottomFold) appendChild(bottomFold)` step of
`drawBottomFold_`. -/
def placeBottomFoldLast (l : List Slot) : Except String (List Slot) :=
  if l.getLast? = some Slot.bottomFold then Except.ok l
  else Except.ok (domAppendChild Slot.bottomFold l)

/-- The `if (bottomFold.nextSibling != y) insertBefore(bottomFold, y)` steps
of `drawBottomFold_`. -/
def placeBottomFoldBefore (y : Slot) (l : List Slot) : Except String (List Slot) :=
  if nextSibling Slot.bottomFold l = some y then Except.ok l
  else domInsertBefore Slot.bottomFold (some y) l

/-- `hterm.ScrollPort.prototype.drawBottomFold_`. -/
def drawBottomFold (sel : SelState) (bottomRowIndex : ℤ) (l : List Slot) :
    Except String (List Slot) :=
  match sel.endRow with
  | none =>
    -- Selection is entirely above the bottom fold.
    placeBottomFoldLast l
  | some endRow =>
    if endRow.rowIndex ≤ bottomRowIndex then
      placeBottomFoldLast l
    else do
      let l ←
        if sel.isMultiline = false then
          -- Only the endRow is below the fold.
          placeBottomFoldBefore (Slot.row endRow) l
        else
          match sel.startRow with
          | none => Except.error "TypeError: selection.startRow is null"
          | some startRow =>
            if startRow.rowIndex ≤ bottomRowIndex then
              -- Only the endRow is below the fold.
              placeBottomFoldBefore (Slot.row endRow) l
            else do
              -- Both rows are below the fold.
              let l ← placeBottomFoldBefore (Slot.row startRow) l
              trimAfterUntil (Slot.row startRow) (Slot.row endRow) l
      trimLastUntil (Slot.row endRow) l

/-! ## The row node caches and `fetchRowNode_` -/

/-- A row node cache generation: a JS object keyed by row index.  Later
assignments shadow earlier ones, so lookup takes the most recent entry. -/
abbrev RowCache := List (ℤ × RowNode)

def cacheLookup (c : RowCache) (i : ℤ) : Option RowNode :=
  (c.find? (fun p => p.1 = i)).map (·.2)

/-- The mutable per-pass state threaded through `drawVisibleRows_`: the
child list of `rowNodes_`, `previousRowNodeCache_` (null outside the
window between `invalidate()` and the next pass) and
`currentRowNodeCache_` (non-null exactly during a `redraw_`). -/
structure SPState where
  slots : List Slot
  prevCache : Option RowCache
  curCache : Option RowCache
deriving DecidableEq, Repr

/-- The pure lookup part of `fetchRowNode_`: the previous cache generation
if it exists and has the index, else the row provider. -/
def fetchSource (prevCache : Option RowCache) (provider : ℤ → Option RowNode)
    (rowIndex : ℤ) : Option RowNode :=
  match prevCache with
  | some cache =>
    match cacheLookup cache rowIndex with
    | some n => some n
    | none => provider rowIndex
  | none => provider rowIndex

/-- `hterm.ScrollPort.prototype.fetchRowNode_` (including the
`cacheRowNode_` call).  With a current cache generation active,
`cacheRowNode_(node)` evaluates `node.rowIndex`; when the provider returned
nothing this is a `TypeError` on an undefined value, thrown before
`drawVisibleRows_` can test the result. -/
def fetchRowNode (provider : ℤ → Option RowNode) (st : SPState) (rowIndex : ℤ) :
    Except String (Option RowNode × SPState) :=
  let node := fetchSource st.prevCache provider rowIndex
  match st.curCache with
  | some cur =>
    match node with
    | some n =>
      Except.ok (some n, { st with curCache := some ((n.rowIndex, n) :: cur) })
    | none =>
      Except.error "TypeError: cacheRowNode_ reads rowIndex of an undefined node"
  | none => Except.ok (node, st)

/-- The `removeUntilNode(currentNode, targetNode)` helper of
`drawVisibleRows_`: keep removing nodes starting at the cursor until the
target is met; running off the end of the list or meeting the bottom fold
before the target throws. -/
def removeUntilNode (target : Slot) (cur : Option Slot) (l : List Slot) :
    Except String (List Slot) :=
  if cur = some target then Except.ok l
  else
    match cur with
    | none => Except.error "Did not encounter target node"
    | some c =>
      if c = Slot.bottomFold then
        Except.error "Encountered bottom fold before target node"
      else
        if hc : c ∈ l then removeUntilNode target (nextSibling c l) (l.erase c)
        else Except.error "TypeError: parentNode of a detached node is null"
termination_by l.length
decreasing_by
  have := List.length_erase_add_one hc
  omega

/-- The `selectionStartRow && selectionStartRow.rowIndex == rowIndex`
guards of `drawVisibleRows_`. -/
def rowDue (r : Option RowNode) (rowIndex : ℤ) : Bool :=
  match r with
  | some n => n.rowIndex = rowIndex
  | none => false

/-- The `node == selectionStartRow || node == selectionEndRow` guard of
`drawVisibleRows_`. -/
def cursorIsSelection (sel : SelState) (c : Slot) : Bool :=
  (match sel.startRow with
   | some n => Slot.row n = c
   | none => false) ||
  (match sel.endRow with
   | some n => Slot.row n = c
   | none => false)

/-- One iteration block of the `for (drawCount < targetDrawCount)` loop of
`hterm.ScrollPort.prototype.drawVisibleRows_`, recursing over the number of
remaining iterations.  Returns the cursor (`node`) and the state when the
loop exits or breaks. -/
def drawVisibleRowsLoop (provider : ℤ → Option RowNode) (sel : SelState) :
    ℕ → ℤ → Option Slot → SPState → Except String (Option Slot × SPState)
  | 0, _, cursor, st => Except.ok (cursor, st)
  | remaining + 1, rowIndex, cursor, st => do
    match cursor with
    | none =>
      -- `node.rowIndex` with a null cursor.
      Except.error "TypeError: node is null"
    | some c =>
      if c = Slot.bottomFold then do
        -- We have hit the bottom fold, we need to insert a new row.
        let (n?, st) ← fetchRowNode provider st rowIndex
        match n? with
        | none => Except.ok (some c, st)  -- logged break
        | some n => do
          let slots ← domInsertBefore (Slot.row n) (some c) st.slots
          drawVisibleRowsLoop provider sel remaining (rowIndex + 1) (some c)
            { st with slots := slots }
      else if slotRowIndex c = some rowIndex then
        -- This node is in the right place, move along.
        drawVisibleRowsLoop provider sel remaining (rowIndex + 1)
          (nextSibling c st.slots) st
      else if hs : rowDue sel.startRow rowIndex then
        match hsr : sel.startRow with
        | none => absurd hs (by simp [rowDue, hsr])
        | some sr => do
          -- The selection start row is supposed to be here.
          let slots ← removeUntilNode (Slot.row sr) (some c) st.slots
          drawVisibleRowsLoop provider sel remaining (rowIndex + 1)
            (nextSibling (Slot.row sr) slots) { st with slots := slots }
      else if he : rowDue sel.endRow rowIndex then
        match her : sel.endRow with
        | none => absurd he (by simp [rowDue, her])
        | some er => do
          -- The selection end row is supposed to be here.
          let slots ← removeUntilNode (Slot.row er) (some c) st.slots
          drawVisibleRowsLoop provider sel remaining (rowIndex + 1)
            (nextSibling (Slot.row er) slots) { st with slots := slots }
      else if cursorIsSelection sel c then do
        -- The start/end of the selection is here, but we do not want it yet.
        let (n?, st) ← fetchRowNode provider st rowIndex
        match n? with
        | none => Except.ok (some c, st)  -- logged break
        | some n => do
          let slots ← domInsertBefore (Slot.row n) (some c) st.slots
          drawVisibleRowsLoop provider sel remaining (rowIndex + 1) (some c)
            { st with slots := slots }
      else do
        -- Nothing special about this node, but it is in our way.
        let (n?, st) ← fetchRowNode provider st rowIndex
        match n? with
        | none => Except.ok (some c, st)  -- logged break
        | some n =>
          if Slot.row n = c then
            drawVisibleRowsLoop provider sel remaining (rowIndex + 1)
              (nextSibling c st.slots) st
          else do
            let slots ← domInsertBefore (Slot.row n) (some c) st.slots
            let slots ← domRemoveChild c slots
            drawVisibleRowsLoop provider sel remaining (rowIndex + 1)
              (nextSibling (Slot.row n) slots) { st with slots := slots }

/-- `hterm.ScrollPort.prototype.drawVisibleRows_`.  The `bottomRowIndex`
parameter of the source function is unused by its body; the loop bound is
`Math.min(visibleRowCount, rowProvider_.getRowCount())`. -/
def drawVisibleRows (provider : ℤ → Option RowNode) (rowCount : ℕ)
    (visibleRowCount : ℕ) (sel : SelState) (topRowIndex : ℤ)
    (bottomRowIndex : ℤ) (st : SPState) : Except String SPState := do
  let _ := bottomRowIndex
  let targetDrawCount := min visibleRowCount rowCount
  let cursor := nextSibling Slot.topFold st.slots
  let (cursor, st) ← drawVisibleRowsLoop provider sel targetDrawCount topRowIndex cursor st
  if cursor = some Slot.bottomFold then Except.ok st
  else do
    let slots ← removeUntilNode Slot.bottomFold cursor st.slots
    Except.ok { st with slots := slots }

/-- `hterm.ScrollPort.prototype.redraw_` restricted to the structural state
(child list and caches).  The selection parameter is the result of the
`this.selection.sync()` call at the top of the function; `topRowIndex` is
`getTopRowIndex()` and `visibleRowCount`/`rowCount` come from the geometry
and the provider.  `ariaHideOffscreenSelectionRows_` toggles an attribute
and `syncRowNodesDimensions_`/`syncScrollHeight` assign dimensions and
scroll state, none of which changes the child list. -/
def redrawPass (provider : ℤ → Option RowNode) (rowCount : ℕ)
    (visibleRowCount : ℕ) (sel : SelState) (topRowIndex : ℤ)
    (slots : List Slot) (prevCache : Option RowCache) :
    Except String (List Slot × RowCache) := do
  let slots := resetSelectBags slots
  let bottomRowIndex := topRowIndex + (visibleRowCount : ℤ) - 1
  let slots ← drawTopFold sel topRowIndex slots
  let slots ← drawBottomFold sel bottomRowIndex slots
  let st : SPState := { slots := slots, prevCache := prevCache, curCache := some [] }
  let st ← drawVisibleRows provider rowCount visibleRowCount sel topRowIndex
    bottomRowIndex st
  -- previousRowNodeCache_ = currentRowNodeCache_; currentRowNodeCache_ = null
  Except.ok (st.slots, st.curCache.getD [])

/-- Consecutive `redraw_` passes with the cache generations threaded from
one pass to the next (the provider, selection and scroll position held
fixed, as in the selection-preservation scenario). -/
def iterRedraw (provider : ℤ → Option RowNode) (rowCount : ℕ)
    (visibleRowCount : ℕ) (sel : SelState) (topRowIndex : ℤ) :
    ℕ → List Slot × Option RowCache → Except String (List Slot × Option RowCache)
  | 0, s => Except.ok s
  | k + 1, s => do
    let (slots, cache) ← redrawPass provider rowCount visibleRowCount sel
      topRowIndex s.1 s.2
    iterRedraw provider rowCount visibleRowCount sel topRowIndex k
      (slots, some cache)

/-- The cursor walk of `invalidate()` that removes every node strictly
between the folds before redrawing. -/
def clearBetweenFolds (cur : Option Slot) (l : List Slot) :
    Except String (List Slot) :=
  if cur = some Slot.bottomFold then Except.ok l
  else
    match cur with
    | none => Except.error "TypeError: nextSibling of null"
    | some c =>
      if hc : c ∈ l then clearBetweenFolds (nextSibling c l) (l.erase c)
      else Except.error "TypeError: parentElement of a detached node is null"
termination_by l.length
decreasing_by
  have := List.length_erase_add_one hc
  omega

/-- `hterm.ScrollPort.prototype.invalidate`: remove the rows between the
folds, discard the previous cache generation, and redraw the visible rows
(no current cache generation is active outside of a `redraw_`). -/
def invalidatePass (provider : ℤ → Option RowNode) (rowCount : ℕ)
    (visibleRowCount : ℕ) (sel : SelState) (topRowIndex : ℤ)
    (slots : List Slot) : Except String (List Slot) := do
  let slots ← clearBetweenFolds (nextSibling Slot.topFold slots) slots
  let bottomRowIndex := topRowIndex + (visibleRowCount : ℤ) - 1
  let st : SPState := { slots := slots, prevCache := none, curCache := none }
  let st ← drawVisibleRows provider rowCount visibleRowCount sel topRowIndex
    bottomRowIndex st
  Except.ok st.slots

/-- The expected `rowIndex` column of a freshly drawn window: the indices
`i, i+1, ..., i+r-1`. -/
def windowIndices (i : ℤ) (r : ℕ) : List (Option ℤ) :=
  (List.range r).map (fun k : ℕ => some (i + (k : ℤ)))

/-- A cache generation is well formed when every entry is keyed by the
cached node's own `rowIndex` (which is how `cacheRowNode_` stores them). -/
def cacheWF (c : RowCache) : Prop :=
  ∀ j n, cacheLookup c j = some n → n.rowIndex = j

/-- The vertical change of one touch, read against a fixed touch map. -/
def touchDeltaAgainst (m : TouchMap) (t : TouchPoint) : ℚ :=
  ((touchLookup m t.id).getD (0, 0)).2 - t.y

/-- The slots strictly between the top fold and the bottom fold. -/
def betweenFolds (l : List Slot) : List Slot :=
  ((l.dropWhile (fun s => ¬ s = Slot.topFold)).drop 1).takeWhile
    (fun s => ¬ s = Slot.bottomFold)

/-! ## Facts about the redraw scheduler -/

theorem schedIter_of_armed (k : ℕ) (s : SchedState) (h : s.redrawArmed = true) :
    schedIter k s = s := by
  induction k with
  | zero => rfl
  | succ k ih =>
    simp only [schedIter, scheduleRedraw, h, if_true]
    exact ih

theorem schedIter_succ_idle (k : ℕ) (s : SchedState) (h : s.redrawArmed = false) :
    schedIter (k + 1) s = { s with redrawArmed := true } := by
  simp only [schedIter, scheduleRedraw, h, Bool.false_eq_true, if_false]
  exact schedIter_of_armed k _ rfl

/-- C8: `k ≥ 1` calls to `scheduleRedraw` from an idle scheduler arm a
single deferred callback (every call after the first is a no-op and no pass
runs yet); when the armed callback fires, exactly one redraw pass executes
and the scheduler is idle again, so that a further `scheduleRedraw` re-arms
it. -/
theorem scheduleRedraw_coalesces (k : ℕ) (s : SchedState) (hk : 1 ≤ k)
    (hidle : s.redrawArmed = false) :
    (schedIter k s).redrawArmed = true ∧
    (schedIter k s).redrawCount = s.redrawCount ∧
    (fireRedrawTimeout (schedIter k s)).redrawCount = s.redrawCount + 1 ∧
    (fireRedrawTimeout (schedIter k s)).redrawArmed = false ∧
    (scheduleRedraw (fireRedrawTimeout (schedIter k s))).redrawArmed = true := by
  obtain ⟨j, rfl⟩ : ∃ j, k = j + 1 := ⟨k - 1, by omega⟩
  rw [schedIter_succ_idle j s hidle]
  refine ⟨rfl, rfl, rfl, rfl, rfl⟩

/-- Witness for C8 at `k = 3` from a fresh idle scheduler. -/
theorem scheduleRedraw_coalesces_witness :
    (schedIter 3 ⟨false, 0⟩).redrawArmed = true ∧
    (schedIter 3 ⟨false, 0⟩).redrawCount = 0 ∧
    (fireRedrawTimeout (schedIter 3 ⟨false, 0⟩)).redrawCount = 0 + 1 ∧
    (fireRedrawTimeout (schedIter 3 ⟨false, 0⟩)).redrawArmed = false ∧
    (scheduleRedraw (fireRedrawTimeout (schedIter 3 ⟨false, 0⟩))).redrawArmed = true :=
  scheduleRedraw_coalesces 3 ⟨false, 0⟩ (by decide) rfl

/-! ## Facts about the viewport geometry -/

/-- C9: for a positive screen height and cell height, the geometry sync
sets `visibleRowCount` to the integer floor of their quotient and the
bottom margin to the leftover fractional height, which lies in
`[0, cellHeight)`. -/
theorem syncRowNodesDimensions_floor (g : ScrollState)
    (hH : 0 < g.screenHeight) (hh : 0 < g.characterHeight) :
    (syncRowNodesDimensions g).visibleRowCount =
      ⌊g.screenHeight / g.characterHeight⌋ ∧
    (syncRowNodesDimensions g).visibleRowBottomMargin =
      g.screenHeight - (⌊g.screenHeight / g.characterHeight⌋ : ℚ) * g.characterHeight ∧
    0 ≤ (syncRowNodesDimensions g).visibleRowBottomMargin ∧
    (syncRowNodesDimensions g).visibleRowBottomMargin < g.characterHeight := by
  have hne : g.characterHeight ≠ 0 := ne_of_gt hh
  have hfloor_le : (⌊g.screenHeight / g.characterHeight⌋ : ℚ) ≤
      g.screenHeight / g.characterHeight := Int.floor_le _
  have hlt : g.screenHeight / g.characterHeight <
      (⌊g.screenHeight / g.characterHeight⌋ : ℚ) + 1 := Int.lt_floor_add_one _
  refine ⟨rfl, rfl, ?_, ?_⟩
  · have h1 : (⌊g.screenHeight / g.characterHeight⌋ : ℚ) * g.characterHeight ≤
        (g.screenHeight / g.characterHeight) * g.characterHeight :=
      mul_le_mul_of_nonneg_right hfloor_le (le_of_lt hh)
    rw [div_mul_cancel₀ _ hne] at h1
    simp only [syncRowNodesDimensions, smartFloorDivide]
    linarith
  · have h2 : g.screenHeight / g.characterHeight * g.characterHeight <
        ((⌊g.screenHeight / g.characterHeight⌋ : ℚ) + 1) * g.characterHeight :=
      mul_lt_mul_of_pos_right hlt hh
    rw [div_mul_cancel₀ _ hne] at h2
    simp only [syncRowNodesDimensions, smartFloorDivide]
    linarith

/-- Witness for C9 at screen height 100 and cell height 16: six visible
rows and a 4 pixel bottom margin. -/
theorem syncRowNodesDimensions_floor_witness :
    0 < (100 : ℚ) ∧ 0 < (16 : ℚ) ∧
    (syncRowNodesDimensions
      { characterHeight := 16, screenHeight := 100, visibleRowCount := 0,
        visibleRowTopMargin := 0, visibleRowBottomMargin := 0, scrollTop := 0,
        lastRowCount := 0, scrollAreaHeight := 0, isScrolledEnd := false,
        redrawScheduled := false }).visibleRowCount = ⌊(100 : ℚ) / 16⌋ ∧
    0 ≤ (syncRowNodesDimensions
      { characterHeight := 16, screenHeight := 100, visibleRowCount := 0,
        visibleRowTopMargin := 0, visibleRowBottomMargin := 0, scrollTop := 0,
        lastRowCount := 0, scrollAreaHeight := 0, isScrolledEnd := false,
        redrawScheduled := false }).visibleRowBottomMargin ∧
    (syncRowNodesDimensions
      { characterHeight := 16, screenHeight := 100, visibleRowCount := 0,
        visibleRowTopMargin := 0, visibleRowBottomMargin := 0, scrollTop := 0,
        lastRowCount := 0, scrollAreaHeight := 0, isScrolledEnd := false,
        redrawScheduled := false }).visibleRowBottomMargin < 16 := by
  have h := syncRowNodesDimensions_floor
    { characterHeight := 16, screenHeight := 100, visibleRowCount := 0,
      visibleRowTopMargin := 0, visibleRowBottomMargin := 0, scrollTop := 0,
      lastRowCount := 0, scrollAreaHeight := 0, isScrolledEnd := false,
      redrawScheduled := false } (by norm_num) (by norm_num)
  exact ⟨by norm_num, by norm_num, h.1, h.2.2.1, h.2.2.2⟩

/-! ## Facts about wheel delta normalization -/

/-- C6: `scrollWheelDelta` scales raw-pixel deltas by the scroll-wheel
multiplier and line deltas by the cell size, inverting the vertical sign;
in particular a line-mode event with `deltaY = 3` and a 16 pixel cell
height yields `y = -48`.  The page branch of the source calls
`this.screen_.getWidth()`, a method that does not exist on the `x-screen`
DOM element, so every page-mode event throws instead of scaling by the
viewport size as the specification describes. -/
theorem scrollWheelDelta_modes :
    (∀ mult cw ch dx dy : ℚ,
      scrollWheelDelta mult cw ch ⟨WheelDeltaMode.pixel, dx, dy⟩ =
        Except.ok (dx * mult, -(dy * mult)) ∧
      scrollWheelDelta mult cw ch ⟨WheelDeltaMode.line, dx, dy⟩ =
        Except.ok (dx * cw, -(dy * ch)) ∧
      scrollWheelDelta mult cw ch ⟨WheelDeltaMode.page, dx, dy⟩ =
        Except.error "TypeError: this.screen_.getWidth is not a function") ∧
    scrollWheelDelta 1 8 16 ⟨WheelDeltaMode.line, 0, 3⟩ = Except.ok (0, -48) := by
  constructor
  · intro mult cw ch dx dy
    refine ⟨?_, ?_, rfl⟩
    · have h : scrollWheelDelta mult cw ch ⟨WheelDeltaMode.pixel, dx, dy⟩ =
          Except.ok (dx * mult, dy * mult * (-1)) := rfl
      rw [h]
      simp only [Except.ok.injEq, Prod.mk.injEq]
      refine ⟨trivial, by ring⟩
    · have h : scrollWheelDelta mult cw ch ⟨WheelDeltaMode.line, dx, dy⟩ =
          Except.ok (dx * cw, dy * ch * (-1)) := rfl
      rw [h]
      simp only [Except.ok.injEq, Prod.mk.injEq]
      refine ⟨trivial, by ring⟩
  · have h : scrollWheelDelta 1 8 16 ⟨WheelDeltaMode.line, 0, 3⟩ =
        Except.ok ((0 : ℚ) * 8, (3 : ℚ) * 16 * (-1)) := rfl
    rw [h]
    norm_num

/-! ## Facts about touch scrolling -/

theorem find_filter_out_ne (rest : TouchMap) (i j : ℕ) (hij : i ≠ j) :
    (rest.filter (fun p => ¬ p.1 = j)).find? (fun p => p.1 = i) =
      rest.find? (fun p => p.1 = i) := by
  induction rest with
  | nil => rfl
  | cons a rest ih =>
    by_cases ha : a.1 = j
    · rw [List.filter_cons_of_neg (by simp [ha])]
      rw [List.find?_cons_of_neg _ (by simp [ha, hij.symm])]
      exact ih
    · rw [List.filter_cons_of_pos (by simp [ha])]
      by_cases hai : a.1 = i
      · rw [List.find?_cons_of_pos _ (by simp [hai]),
          List.find?_cons_of_pos _ (by simp [hai])]
      · rw [List.find?_cons_of_neg _ (by simp [hai]),
          List.find?_cons_of_neg _ (by simp [hai])]
        exact ih

theorem touchLookup_store (m : TouchMap) (i j : ℕ) (v : ℚ × ℚ) :
    touchLookup (touchStore m j v) i = if i = j then some v else touchLookup m i := by
  by_cases hij : i = j
  · subst hij
    simp [touchLookup, touchStore, List.find?_cons_of_pos]
  · rw [if_neg hij]
    simp only [touchLookup, touchStore]
    rw [List.find?_cons_of_neg _ (by simp [Ne.symm hij])]
    rw [find_filter_out_ne m i j hij]

theorem touchMoveFold_sum (ts : List TouchPoint) (m : TouchMap) (d : ℚ)
    (hids : (ts.map (·.id)).Nodup)
    (hpresent : ∀ t ∈ ts, (touchLookup m t.id).isSome) :
    ∃ m', touchMoveFold ts m d =
      Except.ok (d + (ts.map (touchDeltaAgainst m)).sum, m') := by
  induction ts generalizing m d with
  | nil => exact ⟨m, by simp [touchMoveFold]⟩
  | cons t ts ih =>
    obtain ⟨p, hp⟩ := Option.isSome_iff_exists.mp (hpresent t (List.mem_cons_self t ts))
    have hids' : (ts.map (·.id)).Nodup := (List.nodup_cons.mp hids).2
    have hnotin : t.id ∉ ts.map (·.id) := (List.nodup_cons.mp hids).1
    have hpres' : ∀ u ∈ ts, (touchLookup (touchStore m t.id (t.x, t.y)) u.id).isSome := by
      intro u hu
      rw [touchLookup_store]
      have hne : u.id ≠ t.id := by
        intro h
        exact hnotin (h ▸ List.mem_map_of_mem (·.id) hu)
      rw [if_neg hne]
      exact hpresent u (List.mem_cons_of_mem t hu)
    obtain ⟨m', hm'⟩ := ih (touchStore m t.id (t.x, t.y)) (d + (p.2 - t.y)) hids' hpres'
    refine ⟨m', ?_⟩
    simp only [touchMoveFold, hp]
    rw [hm']
    have hsums : (ts.map (touchDeltaAgainst (touchStore m t.id (t.x, t.y)))).sum =
        (ts.map (touchDeltaAgainst m)).sum := by
      congr 1
      apply List.map_congr_left
      intro u hu
      have hne : u.id ≠ t.id := by
        intro h
        exact hnotin (h ▸ List.mem_map_of_mem (·.id) hu)
      simp [touchDeltaAgainst, touchLookup_store, hne]
    rw [hsums]
    simp only [List.map_cons, List.sum_cons, touchDeltaAgainst, hp, Option.getD_some]
    congr 2
    ring

theorem clamp_two_steps (t M : ℚ) (hM : 0 ≤ M) :
    (if (if t < 0 then 0 else t) > M then M else if t < 0 then 0 else t) =
      qclamp t 0 M := by
  simp only [qclamp]
  rcases lt_or_le t 0 with h0 | h0
  · rw [if_pos h0, if_neg (not_lt.mpr hM)]
    have hmin : min t M ≤ 0 := le_trans (min_le_left _ _) (le_of_lt h0)
    rw [max_eq_left hmin]
  · rw [if_neg (not_lt.mpr h0)]
    rcases le_or_lt t M with h1 | h1
    · rw [if_neg (not_lt.mpr h1), min_eq_left h1, max_eq_right h0]
    · rw [if_pos h1, min_eq_right (le_of_lt h1), max_eq_right hM]

/-- C7: a `touchmove` event applies to the scroll offset the sign-inverted
sum, over all touches of the event, of the change in the vertical
coordinate since that touch was last recorded (the offset moves by
`sum of (lastY - newY)`), and the resulting offset is clamped into
`[0, scrollMax]`. -/
theorem onTouch_move_delta (g : ScrollState) (m : TouchMap) (e : TouchEvt)
    (hmove : e.type = TouchEvtType.move)
    (hprev : e.defaultPrevented = false)
    (hids : (e.changedTouches.map (·.id)).Nodup)
    (hpresent : ∀ t ∈ e.changedTouches, (touchLookup m t.id).isSome)
    (hmax : 0 ≤ getScrollMax g) :
    ∃ m', onTouch g m e = Except.ok
      ({ g with
          scrollTop := qclamp
              (g.scrollTop + (e.changedTouches.map (touchDeltaAgainst m)).sum)
              0 (getScrollMax g) },
        m') := by
  obtain ⟨m', hm'⟩ := touchMoveFold_sum e.changedTouches m 0 hids hpresent
  refine ⟨m', ?_⟩
  set S := (e.changedTouches.map (touchDeltaAgainst m)).sum with hS
  show (if e.defaultPrevented = true then Except.ok (g, m) else _) = _
  rw [if_neg (by simp [hprev])]
  show (match e.type with
    | TouchEvtType.start => _
    | TouchEvtType.cancel => _
    | TouchEvtType.touchEnd => _
    | TouchEvtType.move => _) = _
  rw [hmove]
  show (touchMoveFold e.changedTouches m 0).bind _ = _
  rw [hm']
  simp only [Except.bind]
  have harg : g.scrollTop - (0 + S) * (-1) = g.scrollTop + S := by ring
  rw [harg]
  rw [clamp_two_steps (g.scrollTop + S) (getScrollMax g) hmax]
  by_cases hchg : qclamp (g.scrollTop + S) 0 (getScrollMax g) = g.scrollTop
  · rw [if_neg (by simp [hchg])]
    rw [hchg]
  · rw [if_pos (by simpa using hchg)]

/-- Witness for C7: two concurrent touches previously at vertical
coordinates 100 and 200 move to 90 and 180 (changes of -10 and -20); the
scroll offset grows by 30. -/
theorem onTouch_move_delta_witness :
    ∃ m', onTouch
        { characterHeight := 16, screenHeight := 80, visibleRowCount := 5,
          visibleRowTopMargin := 0, visibleRowBottomMargin := 0, scrollTop := 0,
          lastRowCount := 100, scrollAreaHeight := 1600, isScrolledEnd := false,
          redrawScheduled := false }
        [(1, (0, 100)), (2, (0, 200))]
        { type := TouchEvtType.move,
          changedTouches := [⟨1, 0, 90⟩, ⟨2, 0, 180⟩],
          defaultPrevented := false } =
      Except.ok
        ({ characterHeight := 16, screenHeight := 80, visibleRowCount := 5,
           visibleRowTopMargin := 0, visibleRowBottomMargin := 0, scrollTop := 30,
           lastRowCount := 100, scrollAreaHeight := 1600, isScrolledEnd := false,
           redrawScheduled := false }, m') := by
  obtain ⟨m', hm'⟩ := onTouch_move_delta
    { characterHeight := 16, screenHeight := 80, visibleRowCount := 5,
      visibleRowTopMargin := 0, visibleRowBottomMargin := 0, scrollTop := 0,
      lastRowCount := 100, scrollAreaHeight := 1600, isScrolledEnd := false,
      redrawScheduled := false }
    [(1, (0, 100)), (2, (0, 200))]
    { type := TouchEvtType.move,
      changedTouches := [⟨1, 0, 90⟩, ⟨2, 0, 180⟩],
      defaultPrevented := false }
    rfl rfl (by decide) (by decide) (by norm_num [getScrollMax])
  refine ⟨m', ?_⟩
  rw [hm']
  congr 2
  norm_num [touchDeltaAgainst, touchLookup, qclamp, getScrollMax, List.find?]

/-! ## Facts about `scrollRowToTop` -/

theorem round_clamp_div (h : ℚ) (hh : 0 < h) (i c : ℤ) (hc : 0 ≤ c) :
    round (max 0 (min ((i : ℚ) * h) (h * (c : ℚ))) / h) = max 0 (min i c) := by
  have hne : h ≠ 0 := ne_of_gt hh
  rcases le_or_lt i 0 with hi | hi
  · have h1 : (i : ℚ) * h ≤ h * (c : ℚ) := by
      have : (i : ℚ) ≤ (c : ℚ) := by exact_mod_cast le_trans hi hc
      calc (i : ℚ) * h ≤ (c : ℚ) * h := by
            exact mul_le_mul_of_nonneg_right this (le_of_lt hh)
        _ = h * (c : ℚ) := mul_comm _ _
    rw [min_eq_left h1]
    have h2 : (i : ℚ) * h ≤ 0 := by
      have : (i : ℚ) ≤ 0 := by exact_mod_cast hi
      exact mul_nonpos_of_nonpos_of_nonneg this (le_of_lt hh)
    rw [max_eq_left h2]
    have h3 : min i c = i := min_eq_left (le_trans hi hc)
    rw [h3, max_eq_left hi]
    simp
  · rcases le_or_lt i c with hic | hic
    · have h1 : (i : ℚ) * h ≤ h * (c : ℚ) := by
        have : (i : ℚ) ≤ (c : ℚ) := by exact_mod_cast hic
        calc (i : ℚ) * h ≤ (c : ℚ) * h :=
              mul_le_mul_of_nonneg_right this (le_of_lt hh)
          _ = h * (c : ℚ) := mul_comm _ _
      rw [min_eq_left h1]
      have h2 : 0 ≤ (i : ℚ) * h := by
        have : (0 : ℚ) ≤ (i : ℚ) := by exact_mod_cast le_of_lt hi
        exact mul_nonneg this (le_of_lt hh)
      rw [max_eq_right h2, mul_div_assoc, div_self hne, mul_one]
      rw [min_eq_left hic, max_eq_right (le_of_lt hi)]
      exact round_intCast i
    · have h1 : h * (c : ℚ) ≤ (i : ℚ) * h := by
        have : (c : ℚ) ≤ (i : ℚ) := by exact_mod_cast le_of_lt hic
        calc h * (c : ℚ) = (c : ℚ) * h := mul_comm _ _
          _ ≤ (i : ℚ) * h := mul_le_mul_of_nonneg_right this (le_of_lt hh)
      rw [min_eq_right h1]
      have h2 : 0 ≤ h * (c : ℚ) := by
        have : (0 : ℚ) ≤ (c : ℚ) := by exact_mod_cast hc
        exact mul_nonneg (le_of_lt hh) this
      rw [max_eq_right h2, mul_comm, mul_div_assoc, div_self hne, mul_one]
      rw [min_eq_right (le_of_lt hic), max_eq_right hc]
      exact round_intCast c

/-- C3 (amended): in a synced geometry with `V ≤ N`, `scrollRowToTop i`
leaves the offset at `clamp(i * cellHeight + topMargin, 0, M)` where `M`
is the real maximum scroll offset `cellHeight * (N - V)`, sets
`isScrolledEnd` to `i + V >= N`, skips scheduling a redraw exactly when the
computed offset `min(i * cellHeight + topMargin, getScrollMax_())` equals
the current offset (for `i * cellHeight + topMargin` inside `[0, M]` this
coincides with the resulting offset being unchanged, but a negative or
overlarge computed offset can schedule a redraw even though the clamped
offset did not move), and afterwards `topRowIndex()` is
`clamp(i, 0, N - V)`. -/
theorem scrollRowToTop_spec (g : ScrollState) (N i : ℤ)
    (hh : 0 < g.characterHeight)
    (hV : g.visibleRowCount = ⌊g.screenHeight / g.characterHeight⌋)
    (htm : g.visibleRowTopMargin = 0)
    (hbm : g.visibleRowBottomMargin =
      g.screenHeight - (g.visibleRowCount : ℚ) * g.characterHeight)
    (hVN : g.visibleRowCount ≤ N)
    (hs0 : 0 ≤ g.scrollTop)
    (hs1 : g.scrollTop ≤ g.characterHeight * ((N : ℚ) - (g.visibleRowCount : ℚ)))
    (hsched : g.redrawScheduled = false) :
    (scrollRowToTop N i g).scrollTop =
      qclamp ((i : ℚ) * g.characterHeight + g.visibleRowTopMargin) 0
        (g.characterHeight * ((N : ℚ) - (g.visibleRowCount : ℚ))) ∧
    (scrollRowToTop N i g).isScrolledEnd = decide (i + g.visibleRowCount ≥ N) ∧
    ((scrollRowToTop N i g).redrawScheduled = false ↔
      g.scrollTop = min ((i : ℚ) * g.characterHeight + g.visibleRowTopMargin)
        (getScrollMax (syncScrollHeight N g))) ∧
    getTopRowIndex (scrollRowToTop N i g) = iclamp i 0 (N - g.visibleRowCount) := by
  have hbm0 : 0 ≤ g.visibleRowBottomMargin := by
    rw [hbm, hV]
    have hfl : (⌊g.screenHeight / g.characterHeight⌋ : ℚ) ≤
        g.screenHeight / g.characterHeight := Int.floor_le _
    have := mul_le_mul_of_nonneg_right hfl (le_of_lt hh)
    rw [div_mul_cancel₀ _ (ne_of_gt hh)] at this
    linarith
  set h := g.characterHeight with hhdef
  set M : ℚ := h * ((N : ℚ) - (g.visibleRowCount : ℚ)) with hMdef
  have hM0 : 0 ≤ M := by
    rw [hMdef]
    have : (0 : ℚ) ≤ (N : ℚ) - (g.visibleRowCount : ℚ) := by
      have : (g.visibleRowCount : ℚ) ≤ (N : ℚ) := by exact_mod_cast hVN
      linarith
    exact mul_nonneg (le_of_lt hh) this
  have hm : getScrollMax (syncScrollHeight N g) = M + g.visibleRowBottomMargin := by
    simp only [getScrollMax, syncScrollHeight, hMdef]
    rw [htm, hbm]
    ring
  have hdm : domScrollTopMax
      ({ syncScrollHeight N g with
          isScrolledEnd := decide (i + g.visibleRowCount ≥ N) }) = M := by
    simp only [domScrollTopMax, syncScrollHeight, hMdef]
    rw [htm, hbm]
    have harea : g.characterHeight * (N : ℚ) + 0 +
        (g.screenHeight - (g.visibleRowCount : ℚ) * g.characterHeight) -
        g.screenHeight = h * ((N : ℚ) - (g.visibleRowCount : ℚ)) := by ring
    rw [harea]
    exact max_eq_right hM0
  set target0 : ℚ := (i : ℚ) * h + g.visibleRowTopMargin with htarget0
  set m : ℚ := getScrollMax (syncScrollHeight N g) with hmdef
  set target : ℚ := if target0 > m then m else target0 with htarget
  have hfun : scrollRowToTop N i g =
      if g.scrollTop = target then
        { syncScrollHeight N g with isScrolledEnd := decide (i + g.visibleRowCount ≥ N) }
      else
        { domSetScrollTop
            { syncScrollHeight N g with
              isScrolledEnd := decide (i + g.visibleRowCount ≥ N) } target with
          redrawScheduled := true } := by
    simp only [scrollRowToTop, htarget, htarget0, hmdef]
    rfl
  have hclamp : qclamp target 0 M = qclamp target0 0 M := by
    simp only [qclamp, htarget]
    by_cases hgt : target0 > m
    · rw [if_pos hgt]
      have h1 : min m M = M := by
        rw [min_eq_right]
        rw [hm]
        linarith
      have h2 : min target0 M = M := by
        rw [min_eq_right]
        rw [hm] at hgt
        linarith
      rw [h1, h2]
    · rw [if_neg hgt]
  have hscroll : (scrollRowToTop N i g).scrollTop = qclamp target0 0 M := by
    rw [hfun]
    by_cases hskip : g.scrollTop = target
    · rw [if_pos hskip]
      show g.scrollTop = qclamp target0 0 M
      rw [← hclamp]
      simp only [qclamp]
      by_cases hgt : target0 > m
      · have ht : target = m := by rw [htarget, if_pos hgt]
        rw [ht] at hskip
        have hbmz : g.visibleRowBottomMargin = 0 := by
          rw [hm] at hskip
          have h5 := hs1
          rw [hskip] at h5
          linarith
        rw [ht, hm, hbmz, add_zero]
        rw [min_self, max_eq_right hM0]
        rw [hskip, hm, hbmz, add_zero]
      · have ht : target = target0 := by rw [htarget, if_neg hgt]
        rw [ht] at hskip
        rw [ht]
        push_neg at hgt
        have htM : target0 ≤ M ∨ M < target0 := le_or_lt _ _
        rcases htM with h2 | h2
        · rw [min_eq_left h2, max_eq_right (hskip ▸ hs0)]
          exact hskip
        · -- target0 is above M yet equals the in-range current offset
          have h6 := hs1
          rw [hskip] at h6
          linarith
    · rw [if_neg hskip]
      show qclamp target 0 _ = qclamp target0 0 M
      rw [hdm]
      exact hclamp
  refine ⟨hscroll, ?_, ?_, ?_⟩
  · rw [hfun]
    by_cases hskip : g.scrollTop = target
    · rw [if_pos hskip]
    · rw [if_neg hskip]
      rfl
  · constructor
    · intro hnos
      by_contra hne
      have hskip : ¬ g.scrollTop = target := by
        intro habs
        apply hne
        rw [habs, htarget, hmdef]
        by_cases hgt : target0 > m
        · rw [if_pos hgt]
          rw [min_eq_right (le_of_lt hgt)]
        · rw [if_neg hgt]
          push_neg at hgt
          rw [min_eq_left hgt]
      rw [hfun, if_neg hskip] at hnos
      simp at hnos
    · intro heq
      have hskip : g.scrollTop = target := by
        rw [htarget]
        by_cases hgt : target0 > m
        · rw [if_pos hgt]
          rw [heq, min_eq_right (le_of_lt hgt)]
        · rw [if_neg hgt]
          push_neg at hgt
          rw [heq, min_eq_left hgt]
      rw [hfun, if_pos hskip]
      show g.redrawScheduled = false
      exact hsched
  · show round ((scrollRowToTop N i g).scrollTop / (scrollRowToTop N i g).characterHeight)
      = iclamp i 0 (N - g.visibleRowCount)
    have hch : (scrollRowToTop N i g).characterHeight = h := by
      rw [hfun]
      by_cases hskip : g.scrollTop = target
      · rw [if_pos hskip]
        rfl
      · rw [if_neg hskip]
        rfl
    rw [hch, hscroll]
    rw [htarget0, htm, add_zero]
    simp only [qclamp, hMdef]
    have := round_clamp_div h hh i (N - g.visibleRowCount) (by omega)
    rw [iclamp]
    rw [show ((N - g.visibleRowCount : ℤ) : ℚ) = (N : ℚ) - (g.visibleRowCount : ℚ) by
      push_cast
      ring] at this
    exact this

/-- C3 counterexample to the claim as stated: in a synced geometry
(`cellHeight = 16`, screen height 80, 5 visible rows, no margins, 10 rows,
offset 0), `scrollRowToTop(-1)` leaves the resulting scroll offset equal to
the current offset (the DOM clamps the negative computed offset back to 0),
yet a redraw pass is scheduled, because the source compares the current
offset against the computed offset before the DOM clamps it at 0. -/
theorem scrollRowToTop_skip_counterexample :
    (scrollRowToTop 10 (-1)
      { characterHeight := 16, screenHeight := 80, visibleRowCount := 5,
        visibleRowTopMargin := 0, visibleRowBottomMargin := 0, scrollTop := 0,
        lastRowCount := 10, scrollAreaHeight := 160, isScrolledEnd := false,
        redrawScheduled := false }).scrollTop = 0 ∧
    (scrollRowToTop 10 (-1)
      { characterHeight := 16, screenHeight := 80, visibleRowCount := 5,
        visibleRowTopMargin := 0, visibleRowBottomMargin := 0, scrollTop := 0,
        lastRowCount := 10, scrollAreaHeight := 160, isScrolledEnd := false,
        redrawScheduled := false }).redrawScheduled = true := by
  constructor
  · simp only [scrollRowToTop, syncScrollHeight, getScrollMax, domSetScrollTop,
      domScrollTopMax, qclamp]
    norm_num
  · simp only [scrollRowToTop, syncScrollHeight, getScrollMax, domSetScrollTop,
      domScrollTopMax, qclamp]
    norm_num

/-- Witness for C3 (amended) at `N = 1000`, `V = 25`, cell height 16,
screen height 400: `scrollRowToTop(990)` clamps the offset to 15600 and
`topRowIndex()` is 975. -/
theorem scrollRowToTop_spec_witness :
    getTopRowIndex (scrollRowToTop 1000 990
      { characterHeight := 16, screenHeight := 400, visibleRowCount := 25,
        visibleRowTopMargin := 0, visibleRowBottomMargin := 0, scrollTop := 0,
        lastRowCount := 1000, scrollAreaHeight := 16000, isScrolledEnd := false,
        redrawScheduled := false }) = 975 ∧
    (scrollRowToTop 1000 990
      { characterHeight := 16, screenHeight := 400, visibleRowCount := 25,
        visibleRowTopMargin := 0, visibleRowBottomMargin := 0, scrollTop := 0,
        lastRowCount := 1000, scrollAreaHeight := 16000, isScrolledEnd := false,
        redrawScheduled := false }).isScrolledEnd = true := by
  have h := scrollRowToTop_spec
    { characterHeight := 16, screenHeight := 400, visibleRowCount := 25,
      visibleRowTopMargin := 0, visibleRowBottomMargin := 0, scrollTop := 0,
      lastRowCount := 1000, scrollAreaHeight := 16000, isScrolledEnd := false,
      redrawScheduled := false } 1000 990
    (by norm_num)
    (by show (25 : ℤ) = ⌊(400 : ℚ) / 16⌋; norm_num)
    rfl
    (by show (0 : ℚ) = 400 - ((25 : ℤ) : ℚ) * 16; norm_num)
    (by norm_num)
    le_rfl
    (by show (0 : ℚ) ≤ 16 * (((1000 : ℤ) : ℚ) - ((25 : ℤ) : ℚ)); norm_num)
    rfl
  refine ⟨?_, ?_⟩
  · rw [h.2.2.2]
    decide
  · rw [h.2.1]
    decide

/-! ## Facts about `onCopy_` -/

/-- C10: the select bags are populated, and `getRowsText` consulted, only
when the synced selection is non-collapsed and spans at least two
intervening rows (`endRow.rowIndex - startRow.rowIndex >= 2`); for a
collapsed selection or one with `endRow.rowIndex - startRow.rowIndex < 2`
(single row or adjacent rows), `onCopy_` returns with both bags empty and
removed and never calls `getRowsText`. -/
theorem onCopy_select_bags (sel : SelState) (topRowIndex visibleRowCount : ℤ)
    (foldTopNextIndex foldBottomPrevIndex : ℤ) (getRowsText : ℤ → ℤ → String) :
    (∀ r, onCopy sel topRowIndex visibleRowCount foldTopNextIndex
        foldBottomPrevIndex getRowsText = Except.ok r →
      (r.topBagInDoc = true ∨ r.bottomBagInDoc = true ∨ r.getRowsTextCalls ≠ []) →
      sel.isCollapsed = false ∧
        ∃ sr er, sel.startRow = some sr ∧ sel.endRow = some er ∧
          2 ≤ er.rowIndex - sr.rowIndex) ∧
    ((sel.isCollapsed = true ∨
        ∃ sr er, sel.startRow = some sr ∧ sel.endRow = some er ∧
          er.rowIndex - sr.rowIndex < 2) →
      onCopy sel topRowIndex visibleRowCount foldTopNextIndex
        foldBottomPrevIndex getRowsText = Except.ok emptyCopyResult) := by
  constructor
  · intro r hok hpop
    by_cases hc : sel.isCollapsed
    · rw [onCopy, if_pos hc] at hok
      obtain rfl : emptyCopyResult = r := by
        simpa using hok
      simp [emptyCopyResult] at hpop
    · match her : sel.endRow with
      | none =>
        rw [onCopy, if_neg hc, her] at hok
        exact absurd hok (by simp)
      | some er =>
        match hsr : sel.startRow with
        | none =>
          rw [onCopy, if_neg hc, her, hsr] at hok
          exact absurd hok (by simp)
        | some sr =>
          rw [onCopy, if_neg hc, her, hsr] at hok
          simp only [] at hok
          by_cases hlt : er.rowIndex - sr.rowIndex < 2
          · rw [if_pos hlt] at hok
            obtain rfl : emptyCopyResult = r := by
              simpa using hok
            simp [emptyCopyResult] at hpop
          · exact ⟨by simpa using hc, sr, er, rfl, rfl, by omega⟩
  · intro hsmall
    by_cases hc : sel.isCollapsed
    · rw [onCopy, if_pos hc]
    · rcases hsmall with hcol | ⟨sr, er, hsr, her, hlt⟩
      · exact absurd hcol (by simpa using hc)
      · rw [onCopy, if_neg hc, her, hsr]
        simp only []
        rw [if_pos hlt]

/-- Witness for C10: a populated copy (selection rows 10 and 20, window
rows 12 to 16) satisfies the span condition, and an adjacent-row selection
(rows 10 and 11) produces the reset state without backfill queries. -/
theorem onCopy_select_bags_witness :
    ((⟨some ⟨1, 10⟩, some ⟨2, 20⟩, true, false⟩ : SelState).isCollapsed = false ∧
      ∃ sr er, (⟨some ⟨1, 10⟩, some ⟨2, 20⟩, true, false⟩ : SelState).startRow = some sr ∧
        (⟨some ⟨1, 10⟩, some ⟨2, 20⟩, true, false⟩ : SelState).endRow = some er ∧
        2 ≤ er.rowIndex - sr.rowIndex) ∧
    onCopy ⟨some ⟨1, 10⟩, some ⟨3, 11⟩, true, false⟩ 12 5 12 16
      (fun _ _ => "text") = Except.ok emptyCopyResult := by
  constructor
  · exact (onCopy_select_bags ⟨some ⟨1, 10⟩, some ⟨2, 20⟩, true, false⟩ 12 5 12 16
      (fun _ _ => "text")).1
      { topBagText := "text", topBagInDoc := true, bottomBagText := "text",
        bottomBagInDoc := true, getRowsTextCalls := [(11, 12), (17, 20)] }
      (by rfl) (by simp)
  · exact (onCopy_select_bags ⟨some ⟨1, 10⟩, some ⟨3, 11⟩, true, false⟩ 12 5 12 16
      (fun _ _ => "text")).2
      (Or.inr ⟨⟨1, 10⟩, ⟨3, 11⟩, rfl, rfl, by norm_num⟩)

/-! ## Facts about `Selection.sync` -/

/-- C5: `Selection.sync()` raises an error exactly when the anchor and
focus positions resolve (by ascending to the closest `X-ROW` ancestors) to
rows with the same row index, the anchor and focus nodes are distinct, and
the depth-first document-order search of the anchor row s descendants finds
neither node.  In every other case (no selection, a position that does not
resolve to a row, a collapsed selection, rows with different indices, a
shared node, or a successful tie-break search) `sync()` completes without
raising. -/
theorem selectionSync_error_iff (root : DomNode) (accessibilityEnabled : Bool)
    (sel : Option DomSelection) :
    (∃ msg, selectionSync root accessibilityEnabled sel = Except.error msg) ↔
    (∃ s anchorRowPath anchorRow focusRowPath focusRow,
      sel = some s ∧
      rowAncestor root s.anchorPath = some (anchorRowPath, anchorRow) ∧
      rowAncestor root s.focusPath = some (focusRowPath, focusRow) ∧
      anchorRow.rowIndexProp = focusRow.rowIndexProp ∧
      s.anchorPath ≠ s.focusPath ∧
      findFirstChild [s.anchorPath, s.focusPath] anchorRowPath anchorRow = none) := by
  constructor
  · rintro ⟨msg, hmsg⟩
    cases sel with
    | none => exact absurd hmsg (by simp [selectionSync])
    | some s =>
      simp only [selectionSync] at hmsg
      by_cases hcol : (s.isCollapsed = true ∧ ¬ accessibilityEnabled = true)
      · rw [if_pos hcol] at hmsg
        exact absurd hmsg (by simp)
      · rw [if_neg hcol] at hmsg
        match har : rowAncestor root s.anchorPath with
        | none =>
          rw [har] at hmsg
          exact absurd hmsg (by simp)
        | some (aPath, aNode) =>
          rw [har] at hmsg
          match hfr : rowAncestor root s.focusPath with
          | none =>
            rw [hfr] at hmsg
            exact absurd hmsg (by simp)
          | some (fPath, fNode) =>
            rw [hfr] at hmsg
            simp only [] at hmsg
            by_cases hlt : aNode.rowIndexProp < fNode.rowIndexProp
            · rw [if_pos hlt] at hmsg
              exact absurd hmsg (by simp)
            · rw [if_neg hlt] at hmsg
              by_cases hgt : aNode.rowIndexProp > fNode.rowIndexProp
              · rw [if_pos hgt] at hmsg
                exact absurd hmsg (by simp)
              · rw [if_neg hgt] at hmsg
                by_cases heq : s.focusPath = s.anchorPath
                · rw [if_pos heq] at hmsg
                  by_cases hoff : s.anchorOffset < s.focusOffset
                  · rw [if_pos hoff] at hmsg
                    exact absurd hmsg (by simp)
                  · rw [if_neg hoff] at hmsg
                    exact absurd hmsg (by simp)
                · rw [if_neg heq] at hmsg
                  match hff : findFirstChild [s.anchorPath, s.focusPath] aPath aNode with
                  | some p =>
                    rw [hff] at hmsg
                    simp only [] at hmsg
                    by_cases hfa : p = s.anchorPath
                    · rw [if_pos hfa] at hmsg
                      exact absurd hmsg (by simp)
                    · rw [if_neg hfa] at hmsg
                      exact absurd hmsg (by simp)
                  | none =>
                    exact ⟨s, aPath, aNode, fPath, fNode, rfl, har, hfr, by omega,
                      fun h => heq h.symm, hff⟩
  · rintro ⟨s, aPath, aNode, fPath, fNode, rfl, har, hfr, hidx, hne, hff⟩
    refine ⟨"Unexpected error syncing selection.", ?_⟩
    simp only [selectionSync]
    rw [if_neg (by simp [DomSelection.isCollapsed, hne])]
    rw [har, hfr]
    simp only []
    rw [if_neg (by omega), if_neg (by omega), if_neg (fun h => hne h.symm), hff]

/-! ## List facts about the DOM child-list primitives -/

theorem nextSibling_eq_of_mem (x : Slot) (A B : List Slot) (hx : x ∉ A) :
    nextSibling x (A ++ x :: B) = B.head? := by
  induction A with
  | nil => simp [nextSibling]
  | cons a A ih =>
    have hax : ¬ a = x := fun h => hx (h ▸ List.mem_cons_self a A)
    simp only [List.cons_append, nextSibling, if_neg hax]
    exact ih (fun h => hx (List.mem_cons_of_mem a h))

theorem nextSibling_not_mem (x : Slot) (l : List Slot) (hx : x ∉ l) :
    nextSibling x l = none := by
  induction l with
  | nil => rfl
  | cons a l ih =>
    have hax : ¬ a = x := fun h => hx (h ▸ List.mem_cons_self a l)
    simp only [nextSibling, if_neg hax]
    exact ih (fun h => hx (List.mem_cons_of_mem a h))

theorem nextSibling_mem (x s : Slot) (l : List Slot)
    (h : nextSibling x l = some s) : s ∈ l := by
  induction l with
  | nil => simp [nextSibling] at h
  | cons a l ih =>
    simp only [nextSibling] at h
    by_cases hax : a = x
    · rw [if_pos hax] at h
      exact List.mem_cons_of_mem a (List.mem_of_mem_head? h)
    · rw [if_neg hax] at h
      exact List.mem_cons_of_mem a (ih h)

theorem head?_append_cons (A : List Slot) (b : Slot) (C : List Slot) :
    (A ++ b :: C).head? = (A ++ [b]).head? := by
  cases A with
  | nil => rfl
  | cons a A => rfl

theorem insertBeforeAux_spec (x r : Slot) (A B : List Slot) (hr : r ∉ A) :
    insertBeforeAux x r (A ++ r :: B) = A ++ x :: r :: B := by
  induction A with
  | nil => simp [insertBeforeAux]
  | cons a A ih =>
    have har : ¬ a = r := fun h => hr (h ▸ List.mem_cons_self a A)
    simp only [List.cons_append, insertBeforeAux, if_neg har]
    exact congrArg (List.cons a) (ih (fun h => hr (List.mem_cons_of_mem a h)))

theorem insertBeforeAux_split (x r : Slot) (l : List Slot) :
    ∃ A B, l = A ++ B ∧ insertBeforeAux x r l = A ++ x :: B := by
  induction l with
  | nil => exact ⟨[], [], rfl, rfl⟩
  | cons a l ih =>
    by_cases har : a = r
    · exact ⟨[], a :: l, rfl, by simp [insertBeforeAux, har]⟩
    · obtain ⟨A, B, hl, hins⟩ := ih
      exact ⟨a :: A, B, by simp [hl], by simp [insertBeforeAux, har, hins]⟩

theorem insertBeforeAux_nodup (x r : Slot) (l : List Slot) (hx : x ∉ l)
    (hl : l.Nodup) : (insertBeforeAux x r l).Nodup := by
  obtain ⟨A, B, hsplit, hins⟩ := insertBeforeAux_split x r l
  rw [hins]
  rw [hsplit] at hx hl
  exact List.nodup_middle.mpr (List.nodup_cons.mpr ⟨hx, hl⟩)

/-- Erase distributes over an append when the whole list has no
duplicates. -/
theorem nodup_erase_append (x : Slot) (A B : List Slot)
    (h : (A ++ B).Nodup) : (A ++ B).erase x = A.erase x ++ B.erase x := by
  by_cases hxA : x ∈ A
  · rw [List.erase_append_left B hxA]
    have hxB : x ∉ B := by
      have hdis := (List.nodup_append.mp h).2.2
      exact fun hb => hdis hxA hb
    rw [List.erase_of_not_mem hxB]
  · rw [List.erase_append_right B hxA, List.erase_of_not_mem hxA]

theorem nodup_middle_not_mem (a : Slot) (A B : List Slot)
    (h : (A ++ a :: B).Nodup) : a ∉ A ∧ a ∉ B := by
  have h2 := List.nodup_middle.mp h
  have h3 := List.nodup_cons.mp h2
  constructor
  · exact fun ha => h3.1 (List.mem_append_left B ha)
  · exact fun hb => h3.1 (List.mem_append_right A hb)

/-- A no-duplicate list splits uniquely at an element. -/
theorem nodup_split_unique (a : Slot) (U V U2 V2 : List Slot)
    (h : (U ++ a :: V).Nodup) (heq : U ++ a :: V = U2 ++ a :: V2) :
    U = U2 ∧ V = V2 := by
  induction U generalizing U2 with
  | nil =>
    cases U2 with
    | nil => simpa using heq
    | cons b U2 =>
      simp only [List.nil_append, List.cons_append, List.cons.injEq] at heq
      obtain ⟨rfl, heq2⟩ := heq
      exfalso
      have := (nodup_middle_not_mem a [] _ (by simpa using h)).2
      rw [heq2] at this
      exact this (by simp)
  | cons u U ih =>
    cases U2 with
    | nil =>
      simp only [List.cons_append, List.nil_append, List.cons.injEq] at heq
      obtain ⟨rfl, heq2⟩ := heq
      exfalso
      rw [List.cons_append] at h
      have h3 := (List.nodup_cons.mp h).1
      exact h3 (List.mem_append_right U (List.mem_cons_self _ V))
    | cons b U2 =>
      simp only [List.cons_append, List.cons.injEq] at heq
      obtain ⟨rfl, heq2⟩ := heq
      have h2 : (U ++ a :: V).Nodup := (List.nodup_cons.mp h).2
      obtain ⟨rfl, rfl⟩ := ih U2 h2 heq2
      exact ⟨rfl, rfl⟩

theorem nextSibling_some_split (x s : Slot) (l : List Slot)
    (h : nextSibling x l = some s) :
    ∃ P R, l = P ++ x :: s :: R ∧ x ∉ P := by
  induction l with
  | nil => simp [nextSibling] at h
  | cons a l ih =>
    simp only [nextSibling] at h
    by_cases hax : a = x
    · rw [if_pos hax] at h
      subst hax
      cases l with
      | nil => simp at h
      | cons b l =>
        simp only [List.head?] at h
        obtain rfl : b = s := by simpa using h
        exact ⟨[], l, rfl, by simp⟩
    · rw [if_neg hax] at h
      obtain ⟨P, R, rfl, hxP⟩ := ih h
      exact ⟨a :: P, R, rfl, by
        intro hmem
        rcases List.mem_cons.mp hmem with h1 | h1
        · exact hax h1.symm
        · exact hxP h1⟩

theorem domInsertBefore_some (x r : Slot) (l : List Slot) (hr : r ∈ l)
    (hne : r ≠ x) :
    domInsertBefore x (some r) l = Except.ok (insertBeforeAux x r (l.erase x)) := by
  simp only [domInsertBefore, if_pos hr, if_neg hne]

theorem domInsertBefore_ref_not_mem (x r : Slot) (l : List Slot) (hr : r ∉ l) :
    ∀ l', domInsertBefore x (some r) l ≠ Except.ok l' := by
  intro l'
  simp [domInsertBefore, hr]

theorem dropUntilHead_spec (t : Slot) (A B : List Slot) (ht : t ∉ A) :
    dropUntilHead t (A ++ t :: B) = Except.ok (t :: B) := by
  induction A with
  | nil => simp [dropUntilHead]
  | cons a A ih =>
    have hat : ¬ a = t := fun h => ht (h ▸ List.mem_cons_self a A)
    simp only [List.cons_append, dropUntilHead, if_neg hat]
    exact ih (fun h => ht (List.mem_cons_of_mem a h))

theorem dropUntilHead_not_mem (t : Slot) (l : List Slot) (ht : t ∉ l) :
    ∀ l', dropUntilHead t l ≠ Except.ok l' := by
  induction l with
  | nil => intro l' h; simp [dropUntilHead] at h
  | cons a l ih =>
    intro l' h
    have hat : ¬ a = t := fun hh => ht (hh ▸ List.mem_cons_self a l)
    simp only [dropUntilHead, if_neg hat] at h
    exact ih (fun hh => ht (List.mem_cons_of_mem a hh)) l' h

theorem dropUntilHead_ok (t : Slot) (l l' : List Slot)
    (h : dropUntilHead t l = Except.ok l') :
    ∃ A B, l = A ++ t :: B ∧ t ∉ A ∧ l' = t :: B := by
  induction l with
  | nil => simp [dropUntilHead] at h
  | cons a l ih =>
    simp only [dropUntilHead] at h
    by_cases hat : a = t
    · rw [if_pos hat] at h
      subst hat
      exact ⟨[], l, rfl, by simp, by simpa using h.symm⟩
    · rw [if_neg hat] at h
      obtain ⟨A, B, rfl, htA, rfl⟩ := ih h
      exact ⟨a :: A, B, rfl, by
        intro hmem
        rcases List.mem_cons.mp hmem with h1 | h1
        · exact hat h1.symm
        · exact htA h1, rfl⟩

theorem trimLastUntil_spec (t : Slot) (A B : List Slot) (ht : t ∉ B) :
    trimLastUntil t (A ++ t :: B) = Except.ok (A ++ [t]) := by
  induction B using List.reverseRecOn with
  | nil =>
    rw [trimLastUntil]
    split
    next hl =>
      rw [List.getLast?_concat] at hl
      exact absurd hl (by simp)
    next s hl =>
      rw [List.getLast?_concat] at hl
      obtain rfl : t = s := by simpa using hl
      rw [if_pos rfl]
  | append_singleton B b ih =>
    have hbt : ¬ b = t := by
      intro h
      exact ht (h ▸ List.mem_append_right B (List.mem_cons_self b []))
    rw [trimLastUntil]
    have h1 : A ++ t :: (B ++ [b]) = (A ++ t :: B) ++ [b] :=
      (List.append_assoc A (t :: B) [b]).symm
    rw [h1]
    split
    next hl =>
      rw [List.getLast?_concat] at hl
      exact absurd hl (by simp)
    next s hl =>
      rw [List.getLast?_concat] at hl
      obtain rfl : b = s := by simpa using hl
      rw [if_neg hbt, List.dropLast_concat]
      exact ih (fun h => ht (List.mem_append_left _ h))

theorem trimAfterUntil_target_not_mem (x t : Slot) :
    ∀ n (l : List Slot), l.length ≤ n → t ∉ l →
    ∀ l', trimAfterUntil x t l ≠ Except.ok l' := by
  intro n
  induction n with
  | zero =>
    intro l hlen ht l' h
    have : l = [] := List.length_eq_zero.mp (Nat.le_zero.mp hlen)
    subst this
    rw [trimAfterUntil] at h
    simp [nextSibling] at h
  | succ n ih =>
    intro l hlen ht l' h
    rw [trimAfterUntil] at h
    split at h
    · simp at h
    · next s hs =>
      have hst : ¬ s = t := fun hh => ht (hh ▸ nextSibling_mem x s l hs)
      rw [if_neg hst] at h
      have hmem : s ∈ l := nextSibling_mem x s l hs
      have hlen2 : (l.erase s).length ≤ n := by
        have := List.length_erase_add_one hmem
        omega
      exact ih (l.erase s) hlen2
        (fun hh => ht (List.mem_of_mem_erase hh)) l' h

theorem trimAfterUntil_ok (x t : Slot) :
    ∀ n (l : List Slot) l', l.length ≤ n → l.Nodup →
    trimAfterUntil x t l = Except.ok l' →
    ∃ P M S, l = P ++ x :: (M ++ t :: S) ∧ x ∉ P ∧ l' = P ++ x :: t :: S := by
  intro n
  induction n with
  | zero =>
    intro l l' hlen hnd h
    have : l = [] := List.length_eq_zero.mp (Nat.le_zero.mp hlen)
    subst this
    rw [trimAfterUntil] at h
    simp [nextSibling] at h
  | succ n ih =>
    intro l l' hlen hnd h
    rw [trimAfterUntil] at h
    split at h
    · simp at h
    · next s hs =>
      obtain ⟨P0, R0, rfl, hxP0⟩ := nextSibling_some_split x s l hs
      by_cases hst : s = t
      · rw [if_pos hst] at h
        subst hst
        obtain rfl : l' = P0 ++ x :: s :: R0 := by simpa using h.symm
        exact ⟨P0, [], R0, rfl, hxP0, rfl⟩
      · rw [if_neg hst] at h
        have hform : P0 ++ x :: s :: R0 = (P0 ++ [x]) ++ s :: R0 := by simp
        have hsP : s ∉ P0 ++ [x] := by
          have := nodup_middle_not_mem s (P0 ++ [x]) R0 (hform ▸ hnd)
          exact this.1
        have herase : (P0 ++ x :: s :: R0).erase s = P0 ++ x :: R0 := by
          rw [hform, List.erase_append_right _ hsP, List.erase_cons_head]
          simp
        rw [herase] at h
        have hnd2 : (P0 ++ x :: R0).Nodup := by
          have := hnd.erase s
          rwa [herase] at this
        have hlen2 : (P0 ++ x :: R0).length ≤ n := by
          have h1 : (P0 ++ x :: s :: R0).length = P0.length + R0.length + 2 := by
            simp
            omega
          have h2 : (P0 ++ x :: R0).length = P0.length + R0.length + 1 := by
            simp
            omega
          omega
        obtain ⟨P, M, S, hdec, hxP, hl'⟩ := ih (P0 ++ x :: R0) l' hlen2 hnd2 h
        obtain ⟨rfl, hR0⟩ :=
          nodup_split_unique x P0 R0 P (M ++ t :: S) hnd2 (by simpa using hdec)
        refine ⟨P0, s :: M, S, ?_, hxP0, hl'⟩
        rw [hR0]
        rfl

theorem removeUntilNode_ok_spec (target : Slot) (htb : target ≠ Slot.bottomFold) :
    ∀ (rest P Q : List Slot) l',
    (P ++ rest ++ Slot.bottomFold :: Q).Nodup →
    (∀ s ∈ rest, s ≠ Slot.bottomFold) →
    removeUntilNode target ((rest ++ [Slot.bottomFold]).head?)
      (P ++ rest ++ Slot.bottomFold :: Q) = Except.ok l' →
    ∃ d r', rest = d ++ target :: r' ∧ target ∉ d ∧
      l' = P ++ (target :: r') ++ Slot.bottomFold :: Q := by
  intro rest
  induction rest with
  | nil =>
    intro P Q l' hnd hrows h
    rw [removeUntilNode.eq_def] at h
    rw [if_neg (by simpa using (fun hh => htb hh.symm))] at h
    simp at h
  | cons c r ih =>
    intro P Q l' hnd hrows h
    have hcur : ((c :: r) ++ [Slot.bottomFold]).head? = some c := rfl
    rw [hcur, removeUntilNode.eq_def] at h
    by_cases hct : c = target
    · subst hct
      rw [if_pos rfl] at h
      obtain rfl : l' = P ++ (c :: r) ++ Slot.bottomFold :: Q := by simpa using h.symm
      exact ⟨[], r, rfl, by simp, rfl⟩
    · rw [if_neg (by simpa using (fun hh => hct hh))] at h
      simp only [] at h
      have hcb : ¬ c = Slot.bottomFold := hrows c (List.mem_cons_self c r)
      rw [if_neg hcb] at h
      have hform : P ++ (c :: r) ++ Slot.bottomFold :: Q =
          P ++ c :: (r ++ Slot.bottomFold :: Q) := by simp
      have hcP : c ∉ P := by
        have := nodup_middle_not_mem c P (r ++ Slot.bottomFold :: Q) (hform ▸ hnd)
        exact this.1
      have hmem : c ∈ P ++ (c :: r) ++ Slot.bottomFold :: Q := by simp
      rw [dif_pos hmem] at h
      have hns : nextSibling c (P ++ (c :: r) ++ Slot.bottomFold :: Q) =
          ((r ++ [Slot.bottomFold]).head?) := by
        rw [hform, nextSibling_eq_of_mem c P _ hcP, head?_append_cons]
      have herase : (P ++ (c :: r) ++ Slot.bottomFold :: Q).erase c =
          P ++ r ++ Slot.bottomFold :: Q := by
        rw [hform, List.erase_append_right _ hcP, List.erase_cons_head]
        simp
      rw [hns, herase] at h
      have hnd2 : (P ++ r ++ Slot.bottomFold :: Q).Nodup := by
        have := hnd.erase c
        rwa [herase] at this
      obtain ⟨d, r', rfl, htd, hl'⟩ := ih P Q l' hnd2
        (fun s hsm => hrows s (List.mem_cons_of_mem c hsm)) h
      exact ⟨c :: d, r', rfl, by
        intro hmem2
        rcases List.mem_cons.mp hmem2 with h1 | h1
        · exact hct h1.symm
        · exact htd h1, hl'⟩

theorem removeUntilNode_to_bottomFold :
    ∀ (rest P Q : List Slot),
    (P ++ rest ++ Slot.bottomFold :: Q).Nodup →
    (∀ s ∈ rest, s ≠ Slot.bottomFold) →
    removeUntilNode Slot.bottomFold ((rest ++ [Slot.bottomFold]).head?)
      (P ++ rest ++ Slot.bottomFold :: Q) =
      Except.ok (P ++ Slot.bottomFold :: Q) := by
  intro rest
  induction rest with
  | nil =>
    intro P Q hnd hrows
    rw [removeUntilNode.eq_def]
    simp
  | cons c r ih =>
    intro P Q hnd hrows
    have hcur : ((c :: r) ++ [Slot.bottomFold]).head? = some c := rfl
    rw [hcur, removeUntilNode.eq_def]
    have hcb : ¬ c = Slot.bottomFold := hrows c (List.mem_cons_self c r)
    rw [if_neg (by simpa using hcb)]
    simp only []
    rw [if_neg hcb]
    have hform : P ++ (c :: r) ++ Slot.bottomFold :: Q =
        P ++ c :: (r ++ Slot.bottomFold :: Q) := by simp
    have hcP : c ∉ P := by
      have := nodup_middle_not_mem c P (r ++ Slot.bottomFold :: Q) (hform ▸ hnd)
      exact this.1
    have hmem : c ∈ P ++ (c :: r) ++ Slot.bottomFold :: Q := by simp
    rw [dif_pos hmem]
    have hns : nextSibling c (P ++ (c :: r) ++ Slot.bottomFold :: Q) =
        ((r ++ [Slot.bottomFold]).head?) := by
      rw [hform, nextSibling_eq_of_mem c P _ hcP, head?_append_cons]
    have herase : (P ++ (c :: r) ++ Slot.bottomFold :: Q).erase c =
        P ++ r ++ Slot.bottomFold :: Q := by
      rw [hform, List.erase_append_right _ hcP, List.erase_cons_head]
      simp
    rw [hns, herase]
    have hnd2 : (P ++ r ++ Slot.bottomFold :: Q).Nodup := by
      have := hnd.erase c
      rwa [herase] at this
    exact ih P Q hnd2 (fun s hsm => hrows s (List.mem_cons_of_mem c hsm))

theorem nodup_insert_middle (a : Slot) (U V : List Slot)
    (h : (U ++ V).Nodup) (ha : a ∉ U ++ V) : (U ++ a :: V).Nodup :=
  List.nodup_middle.mpr (List.nodup_cons.mpr ⟨ha, h⟩)

theorem trimAfterUntil_spec (x t : Slot) :
    ∀ (M P S : List Slot), (P ++ x :: (M ++ t :: S)).Nodup → x ∉ P →
    trimAfterUntil x t (P ++ x :: (M ++ t :: S)) =
      Except.ok (P ++ x :: t :: S) := by
  intro M
  induction M with
  | nil =>
    intro P S hnd hxP
    rw [trimAfterUntil]
    split
    next hnone =>
      rw [nextSibling_eq_of_mem x P _ hxP] at hnone
      simp at hnone
    next s hsome =>
      rw [nextSibling_eq_of_mem x P _ hxP] at hsome
      obtain rfl : t = s := by simpa using hsome
      rw [if_pos rfl]
      simp
  | cons m M ih =>
    intro P S hnd hxP
    rw [trimAfterUntil]
    split
    next hnone =>
      rw [nextSibling_eq_of_mem x P _ hxP] at hnone
      simp at hnone
    next s hsome =>
      rw [nextSibling_eq_of_mem x P _ hxP] at hsome
      obtain rfl : m = s := by simpa using hsome
      have hform : P ++ x :: (m :: M ++ t :: S) =
          (P ++ [x]) ++ m :: (M ++ t :: S) := by simp
      have hmm := nodup_middle_not_mem m (P ++ [x]) (M ++ t :: S) (hform ▸ hnd)
      have hmt : ¬ m = t := by
        intro hh
        apply hmm.2
        rw [hh]
        exact List.mem_append_right M (List.mem_cons_self t S)
      rw [if_neg hmt]
      have herase : (P ++ x :: (m :: M ++ t :: S)).erase m =
          P ++ x :: (M ++ t :: S) := by
        rw [hform, List.erase_append_right _ hmm.1, List.erase_cons_head]
        simp
      rw [herase]
      have hnd2 : (P ++ x :: (M ++ t :: S)).Nodup := by
        have := hnd.erase m
        rwa [herase] at this
      exact ih P S hnd2 hxP

/-- `if (firstChild != topFold) insertBefore(topFold, firstChild)` moves the
top fold to the front of the child list. -/
theorem placeTopFoldFirst_spec (l : List Slot) :
    placeTopFoldFirst l = Except.ok (Slot.topFold :: l.erase Slot.topFold) := by
  unfold placeTopFoldFirst
  cases l with
  | nil => rfl
  | cons a rest =>
    by_cases ha : a = Slot.topFold
    · subst ha
      rw [if_pos (show (Slot.topFold :: rest).head? = some Slot.topFold from rfl)]
      rw [List.erase_cons_head]
    · rw [if_neg (by simpa using ha)]
      have hmem : a ∈ a :: rest := List.mem_cons_self a rest
      rw [show (a :: rest).head? = some a from rfl]
      rw [domInsertBefore_some Slot.topFold a _ hmem ha]
      rw [List.erase_cons_tail (by simpa using ha)]
      rw [show insertBeforeAux Slot.topFold a (a :: rest.erase Slot.topFold) =
        [] ++ Slot.topFold :: a :: rest.erase Slot.topFold from
          insertBeforeAux_spec _ a [] _ (by simp)]
      rfl

/-- `if (x.nextSibling != topFold) insertBefore(topFold, x.nextSibling)`
moves the top fold to just after `x`. -/
theorem placeTopFoldAfter_spec (x : Slot) (A B : List Slot)
    (hx : x ≠ Slot.topFold) (hxA : x ∉ A) (hnd : (A ++ x :: B).Nodup) :
    placeTopFoldAfter x (A ++ x :: B) =
      Except.ok (A.erase Slot.topFold ++ x :: Slot.topFold :: B.erase Slot.topFold) := by
  unfold placeTopFoldAfter
  rw [nextSibling_eq_of_mem x A B hxA]
  cases B with
  | nil =>
    rw [if_neg (by simp)]
    show domInsertBefore Slot.topFold none _ = _
    unfold domInsertBefore
    rw [nodup_erase_append _ A _ hnd]
    rw [List.erase_cons_tail (by simpa using hx)]
    simp
  | cons b B =>
    by_cases hb : b = Slot.topFold
    · subst hb
      rw [if_pos (show (Slot.topFold :: B).head? = some Slot.topFold from rfl)]
      have htA : Slot.topFold ∉ A := by
        have hform : A ++ x :: Slot.topFold :: B =
            (A ++ [x]) ++ Slot.topFold :: B := by simp
        have := nodup_middle_not_mem Slot.topFold (A ++ [x]) B (hform ▸ hnd)
        exact fun hh => this.1 (List.mem_append_left [x] hh)
      have htB : Slot.topFold ∉ B := by
        have hform : A ++ x :: Slot.topFold :: B =
            (A ++ [x]) ++ Slot.topFold :: B := by simp
        exact (nodup_middle_not_mem Slot.topFold (A ++ [x]) B (hform ▸ hnd)).2
      rw [List.erase_of_not_mem htA, List.erase_cons_head]

    · rw [if_neg (by simpa using hb)]
      have hmem : b ∈ A ++ x :: b :: B := by simp
      rw [show (b :: B).head? = some b from rfl]
      rw [domInsertBefore_some _ b _ hmem hb]
      rw [nodup_erase_append _ A _ hnd]
      rw [List.erase_cons_tail (by simpa using hx)]
      rw [List.erase_cons_tail (by simpa using hb)]
      have hform2 : A.erase Slot.topFold ++ x :: b :: B.erase Slot.topFold =
          (A.erase Slot.topFold ++ [x]) ++ b :: B.erase Slot.topFold := by simp
      rw [hform2]
      have hbpre : b ∉ A.erase Slot.topFold ++ [x] := by
        intro hh
        rcases List.mem_append.mp hh with h1 | h1
        · have hbA : b ∈ A := List.mem_of_mem_erase h1
          have hform : A ++ x :: b :: B = (A ++ [x]) ++ b :: B := by simp
          exact (nodup_middle_not_mem b (A ++ [x]) B (hform ▸ hnd)).1
            (List.mem_append_left [x] hbA)
        · have hbx : b = x := by simpa using h1
          have := nodup_middle_not_mem x A (b :: B) hnd
          apply this.2
          rw [← hbx]
          exact List.mem_cons_self b B
      rw [insertBeforeAux_spec _ b _ _ hbpre]
      simp

/-- `placeTopFoldAfter` when the anchor node is not in the child list:
`x.nextSibling` is null and the fold is appended at the end. -/
theorem placeTopFoldAfter_not_mem (x : Slot) (l : List Slot) (hx : x ∉ l) :
    placeTopFoldAfter x l =
      Except.ok (l.erase Slot.topFold ++ [Slot.topFold]) := by
  unfold placeTopFoldAfter
  rw [nextSibling_not_mem x l hx]
  rw [if_neg (by simp)]
  rfl

theorem getLast?_eq_some_split (l : List Slot) (a : Slot)
    (h : l.getLast? = some a) : ∃ init, l = init ++ [a] := by
  induction l with
  | nil => simp at h
  | cons x xs ih =>
    cases xs with
    | nil =>
      obtain rfl : x = a := by simpa using h
      exact ⟨[], rfl⟩
    | cons y ys =>
      rw [List.getLast?_cons_cons] at h
      obtain ⟨init, hinit⟩ := ih h
      exact ⟨x :: init, by simp [hinit]⟩

/-- `if (lastChild != bottomFold) appendChild(bottomFold)` moves the bottom
fold to the end of the child list. -/
theorem placeBottomFoldLast_spec (l : List Slot) (hnd : l.Nodup) :
    placeBottomFoldLast l =
      Except.ok (l.erase Slot.bottomFold ++ [Slot.bottomFold]) := by
  unfold placeBottomFoldLast
  by_cases hl : l.getLast? = some Slot.bottomFold
  · rw [if_pos hl]
    obtain ⟨init, rfl⟩ := getLast?_eq_some_split l Slot.bottomFold hl
    have hbi : Slot.bottomFold ∉ init := by
      have := nodup_middle_not_mem Slot.bottomFold init [] (by simpa using hnd)
      exact this.1
    rw [List.erase_append_right _ hbi, List.erase_cons_head]
    simp
  · rw [if_neg hl]
    rfl

/-- `if (bottomFold.nextSibling != y) insertBefore(bottomFold, y)` moves the
bottom fold to just before `y`. -/
theorem placeBottomFoldBefore_spec (y : Slot) (A B : List Slot)
    (hy : y ≠ Slot.bottomFold) (hyA : y ∉ A) (hnd : (A ++ y :: B).Nodup) :
    placeBottomFoldBefore y (A ++ y :: B) =
      Except.ok (A.erase Slot.bottomFold ++
        Slot.bottomFold :: y :: B.erase Slot.bottomFold) := by
  unfold placeBottomFoldBefore
  by_cases hns : nextSibling Slot.bottomFold (A ++ y :: B) = some y
  · rw [if_pos hns]
    obtain ⟨X, Y, hXY, hbX⟩ := nextSibling_some_split Slot.bottomFold y _ hns
    have hXY2 : A ++ y :: B = (X ++ [Slot.bottomFold]) ++ y :: Y := by
      rw [hXY]
      simp
    obtain ⟨hA, hB⟩ := nodup_split_unique y A B (X ++ [Slot.bottomFold]) Y
      hnd hXY2
    have hbY : Slot.bottomFold ∉ Y := by
      have hnd2 : (X ++ Slot.bottomFold :: (y :: Y)).Nodup := by
        have hform : X ++ Slot.bottomFold :: (y :: Y) =
            (X ++ [Slot.bottomFold]) ++ y :: Y := by simp
        rw [hform, ← hXY2]
        exact hnd
      exact fun hh => (nodup_middle_not_mem Slot.bottomFold X (y :: Y)
        hnd2).2 (List.mem_cons_of_mem y hh)
    rw [hA, hB]
    rw [List.erase_append_right _ hbX, List.erase_cons_head,
      List.erase_of_not_mem hbY]
    simp
  · rw [if_neg hns]
    have hmem : y ∈ A ++ y :: B := by simp
    rw [domInsertBefore_some _ y _ hmem hy]
    rw [nodup_erase_append _ A _ hnd]
    rw [List.erase_cons_tail (by simpa using hy)]
    rw [insertBeforeAux_spec _ y _ _ (fun hh =>
      hyA (List.mem_of_mem_erase hh))]

theorem exceptBind_ok {α β : Type} (a : Except String α) (f : α → Except String β)
    (b : β) (h : (a >>= f) = Except.ok b) :
    ∃ x, a = Except.ok x ∧ f x = Except.ok b := by
  cases a with
  | error e => simp [Bind.bind, Except.bind] at h
  | ok x => exact ⟨x, rfl, by simpa [Bind.bind, Except.bind] using h⟩

theorem erase_append_of_not_mem_right (x : Slot) (L R : List Slot)
    (hx : x ∉ R) : (L ++ R).erase x = L.erase x ++ R := by
  by_cases hL : x ∈ L
  · exact List.erase_append_left R hL
  · rw [List.erase_of_not_mem hL, List.erase_of_not_mem (by
      simp [List.mem_append, hL, hx])]

/-- Moving a fold to sit right after `x`: the reshuffled list stays free of
duplicates. -/
theorem nodup_refold1 (f x : Slot) (A B : List Slot)
    (hnd : (A ++ x :: B).Nodup) (hxf : x ≠ f) :
    (A.erase f ++ x :: f :: B.erase f).Nodup := by
  have h1 : (A ++ x :: B).erase f = A.erase f ++ x :: B.erase f := by
    rw [nodup_erase_append _ _ _ hnd, List.erase_cons_tail (by simpa using hxf)]
  have h2 : (A.erase f ++ x :: B.erase f).Nodup := h1 ▸ hnd.erase f
  have h3 : f ∉ A.erase f ++ x :: B.erase f := by
    rw [← h1]
    exact hnd.not_mem_erase
  have h4 : ((A.erase f ++ [x]) ++ B.erase f).Nodup := by
    simpa using h2
  have h5 : f ∉ (A.erase f ++ [x]) ++ B.erase f := by
    simpa using h3
  have := nodup_insert_middle f (A.erase f ++ [x]) (B.erase f) h4 h5
  simpa using this

/-- Moving a fold to sit right before `y`: the reshuffled list stays free of
duplicates. -/
theorem nodup_refold2 (f y : Slot) (A B : List Slot)
    (hnd : (A ++ y :: B).Nodup) (hyf : y ≠ f) :
    (A.erase f ++ f :: y :: B.erase f).Nodup := by
  have h1 : (A ++ y :: B).erase f = A.erase f ++ y :: B.erase f := by
    rw [nodup_erase_append _ _ _ hnd, List.erase_cons_tail (by simpa using hyf)]
  have h2 : (A.erase f ++ y :: B.erase f).Nodup := h1 ▸ hnd.erase f
  have h3 : f ∉ A.erase f ++ y :: B.erase f := by
    rw [← h1]
    exact hnd.not_mem_erase
  exact nodup_insert_middle f (A.erase f) (y :: B.erase f) h2 h3

/-- `insertBefore(x, c)` on a duplicate-free list with `c ≠ x`: `x` is
detached from wherever it was and reinserted just before `c`. -/
theorem domInsertBefore_erase_spec (x c : Slot) (A B : List Slot)
    (hnd : (A ++ c :: B).Nodup) (hcx : c ≠ x) :
    domInsertBefore x (some c) (A ++ c :: B) =
      Except.ok (A.erase x ++ x :: c :: B.erase x) := by
  have hmem : c ∈ A ++ c :: B := by simp
  rw [domInsertBefore_some x c _ hmem hcx]
  rw [nodup_erase_append _ _ _ hnd, List.erase_cons_tail (by simpa using hcx)]
  have hcA : c ∉ A.erase x :=
    fun hh => (nodup_middle_not_mem c A B hnd).1 (List.mem_of_mem_erase hh)
  rw [insertBeforeAux_spec x c _ _ hcA]

theorem nodup_insert_erase (x c : Slot) (A B : List Slot)
    (hnd : (A ++ c :: B).Nodup) (hcx : c ≠ x) :
    (A.erase x ++ x :: c :: B.erase x).Nodup := by
  have h1 : (A ++ c :: B).erase x = A.erase x ++ c :: B.erase x := by
    rw [nodup_erase_append _ _ _ hnd, List.erase_cons_tail (by simpa using hcx)]
  have h2 : (A.erase x ++ c :: B.erase x).Nodup := h1 ▸ hnd.erase x
  have h3 : x ∉ A.erase x ++ c :: B.erase x := by
    rw [← h1]
    exact hnd.not_mem_erase
  exact nodup_insert_middle x (A.erase x) (c :: B.erase x) h2 h3

theorem domRemoveChild_mem (c : Slot) (l : List Slot) (hc : c ∈ l) :
    domRemoveChild c l = Except.ok (l.erase c) := by
  simp [domRemoveChild, hc]

/-- `placeTopFoldAfter` never errors on a duplicate-free list, never loses a
node other than by moving the top fold, and keeps the list duplicate
free. -/
theorem placeTopFoldAfter_ok (x : Slot) (l m : List Slot) (hnd : l.Nodup)
    (hx : x ≠ Slot.topFold) (h : placeTopFoldAfter x l = Except.ok m) :
    m.Nodup ∧ ∀ s ∈ m, s = Slot.topFold ∨ s ∈ l := by
  by_cases hmem : x ∈ l
  · obtain ⟨A, B, rfl⟩ := List.append_of_mem hmem
    have hxA : x ∉ A := (nodup_middle_not_mem x A B hnd).1
    rw [placeTopFoldAfter_spec x A B hx hxA hnd] at h
    obtain rfl : A.erase Slot.topFold ++ x :: Slot.topFold ::
        B.erase Slot.topFold = m := by simpa using h
    refine ⟨nodup_refold1 Slot.topFold x A B hnd hx, ?_⟩
    intro s hs
    rcases List.mem_append.mp hs with h1 | h1
    · exact Or.inr (List.mem_append_left _ (List.mem_of_mem_erase h1))
    · rcases List.mem_cons.mp h1 with rfl | h1
      · exact Or.inr (by simp)
      · rcases List.mem_cons.mp h1 with rfl | h1
        · exact Or.inl rfl
        · exact Or.inr (by
            have := List.mem_of_mem_erase h1
            simp [this])
  · rw [placeTopFoldAfter_not_mem x l hmem] at h
    obtain rfl : l.erase Slot.topFold ++ [Slot.topFold] = m := by simpa using h
    constructor
    · have h2 : (l.erase Slot.topFold ++ ([] : List Slot)).Nodup := by
        simpa using hnd.erase Slot.topFold
      have h3 : Slot.topFold ∉ l.erase Slot.topFold ++ ([] : List Slot) := by
        simpa using hnd.not_mem_erase
      exact nodup_insert_middle Slot.topFold (l.erase Slot.topFold) [] h2 h3
    · intro s hs
      rcases List.mem_append.mp hs with h1 | h1
      · exact Or.inr (List.mem_of_mem_erase h1)
      · exact Or.inl (by simpa using h1)

/-- `placeBottomFoldBefore` fails when the reference row is not a child. -/
theorem placeBottomFoldBefore_not_mem (y : Slot) (l : List Slot) (hy : y ∉ l) :
    ∀ l', placeBottomFoldBefore y l ≠ Except.ok l' := by
  intro l' h
  unfold placeBottomFoldBefore at h
  by_cases hns : nextSibling Slot.bottomFold l = some y
  · exact hy (nextSibling_mem _ y l hns)
  · rw [if_neg hns] at h
    exact domInsertBefore_ref_not_mem Slot.bottomFold y l hy l' h

/-- `placeBottomFoldBefore` succeeds exactly when the reference row is a
child, and then detaches the bottom fold and reinserts it before the
reference. -/
theorem placeBottomFoldBefore_ok_inv (y : Slot) (l m : List Slot)
    (hnd : l.Nodup) (hy : y ≠ Slot.bottomFold)
    (h : placeBottomFoldBefore y l = Except.ok m) :
    ∃ C B, l = C ++ y :: B ∧ y ∉ C ∧
      m = C.erase Slot.bottomFold ++
        Slot.bottomFold :: y :: B.erase Slot.bottomFold := by
  by_cases hmem : y ∈ l
  · obtain ⟨C, B, rfl⟩ := List.append_of_mem hmem
    have hyC : y ∉ C := (nodup_middle_not_mem y C B hnd).1
    rw [placeBottomFoldBefore_spec y C B hy hyC hnd] at h
    exact ⟨C, B, rfl, hyC, by simpa using h.symm⟩
  · exact absurd h (placeBottomFoldBefore_not_mem y l hmem m)

theorem placeTopFoldFirst_ok (l l1 : List Slot) (hnd : l.Nodup)
    (h : placeTopFoldFirst l = Except.ok l1) :
    l1.Nodup ∧ ∀ s ∈ l1, s = Slot.topFold ∨ s ∈ l := by
  rw [placeTopFoldFirst_spec] at h
  obtain rfl : Slot.topFold :: l.erase Slot.topFold = l1 := by simpa using h
  constructor
  · exact List.nodup_cons.mpr ⟨hnd.not_mem_erase, hnd.erase _⟩
  · intro s hs
    rcases List.mem_cons.mp hs with rfl | hs
    · exact Or.inl rfl
    · exact Or.inr (List.mem_of_mem_erase hs)

theorem dropUntilHead_ok_props (t : Slot) (l l1 : List Slot) (hnd : l.Nodup)
    (h : dropUntilHead t l = Except.ok l1) :
    l1.Nodup ∧ ∀ s ∈ l1, s ∈ l := by
  obtain ⟨A, B, rfl, htA, rfl⟩ := dropUntilHead_ok t l l1 h
  constructor
  · exact (List.nodup_append.mp hnd).2.1
  · intro s hs
    simp only [List.mem_append]
    exact Or.inr hs

theorem trimAfterUntil_ok_props (x t : Slot) (l l1 : List Slot)
    (hnd : l.Nodup) (h : trimAfterUntil x t l = Except.ok l1) :
    l1.Nodup ∧ ∀ s ∈ l1, s ∈ l := by
  obtain ⟨P, M, S, rfl, hxP, rfl⟩ :=
    trimAfterUntil_ok x t l.length l l1 le_rfl hnd h
  have hsub : (P ++ x :: t :: S).Sublist (P ++ x :: (M ++ t :: S)) :=
    (List.Sublist.refl P).append
      (List.Sublist.cons₂ x (List.sublist_append_right M (t :: S)))
  exact ⟨hnd.sublist hsub, fun s hs => hsub.subset hs⟩

/-- `drawTopFold_` never duplicates a node and never conjures one other
than the top fold. -/
theorem drawTopFold_ok (sel : SelState) (top : ℤ) (l l1 : List Slot)
    (hnd : l.Nodup) (h : drawTopFold sel top l = Except.ok l1) :
    l1.Nodup ∧ ∀ s ∈ l1, s = Slot.topFold ∨ s ∈ l := by
  unfold drawTopFold at h
  cases hsr : sel.startRow with
  | none =>
    rw [hsr] at h
    exact placeTopFoldFirst_ok l l1 hnd h
  | some sr =>
    rw [hsr] at h
    simp only [] at h
    have hstep : ∀ (m : List Slot),
        placeTopFoldAfter (Slot.row sr) l = Except.ok m →
        dropUntilHead (Slot.row sr) m = Except.ok l1 →
        l1.Nodup ∧ ∀ s ∈ l1, s = Slot.topFold ∨ s ∈ l := by
      intro m hm hdrop
      obtain ⟨hmnd, hmsub⟩ := placeTopFoldAfter_ok _ l m hnd (by simp) hm
      obtain ⟨hl1nd, hl1sub⟩ := dropUntilHead_ok_props _ m l1 hmnd hdrop
      exact ⟨hl1nd, fun s hs => hmsub s (hl1sub s hs)⟩
    by_cases hge : sr.rowIndex ≥ top
    · rw [if_pos hge] at h
      exact placeTopFoldFirst_ok l l1 hnd h
    · rw [if_neg hge] at h
      by_cases hml : sel.isMultiline = false
      · rw [if_pos hml] at h
        obtain ⟨m, hm, hdrop⟩ := exceptBind_ok _ _ _ h
        exact hstep m hm hdrop
      · rw [if_neg hml] at h
        cases her : sel.endRow with
        | none =>
          rw [her] at h
          simp only [] at h
          exact absurd h (by simp [Bind.bind, Except.bind])
        | some er =>
          rw [her] at h
          simp only [] at h
          by_cases hge2 : er.rowIndex ≥ top
          · rw [if_pos hge2] at h
            obtain ⟨m, hm, hdrop⟩ := exceptBind_ok _ _ _ h
            exact hstep m hm hdrop
          · rw [if_neg hge2] at h
            obtain ⟨m1, hm1, hrest⟩ := exceptBind_ok _ _ _ h
            obtain ⟨m, htrim, hdrop⟩ := exceptBind_ok _ _ _ hrest
            obtain ⟨hm1nd, hm1sub⟩ :=
              placeTopFoldAfter_ok _ l m1 hnd (by simp) hm1
            obtain ⟨hmnd, hmsub⟩ :=
              trimAfterUntil_ok_props _ _ m1 m hm1nd htrim
            obtain ⟨hl1nd, hl1sub⟩ := dropUntilHead_ok_props _ m l1 hmnd hdrop
            exact ⟨hl1nd, fun s hs => hm1sub s (hmsub s (hl1sub s hs))⟩

/-- If the top fold is not a child when `drawVisibleRows_` starts, the pass
cannot complete: the cursor starts out null and either the loop or the
final cleanup dereferences it. -/
theorem drawVisibleRows_no_topFold (provider : ℤ → Option RowNode)
    (rc vc : ℕ) (sel : SelState) (top bot : ℤ) (st : SPState)
    (htf : Slot.topFold ∉ st.slots) :
    ∀ st2, drawVisibleRows provider rc vc sel top bot st ≠ Except.ok st2 := by
  intro st2 h
  unfold drawVisibleRows at h
  rw [nextSibling_not_mem _ _ htf] at h
  cases htd : min vc rc with
  | zero =>
    rw [htd] at h
    simp [drawVisibleRowsLoop, removeUntilNode.eq_def, Bind.bind,
      Except.bind] at h
  | succ n =>
    rw [htd] at h
    simp [drawVisibleRowsLoop, Bind.bind, Except.bind] at h

theorem windowIndices_succ (i : ℤ) (r : ℕ) :
    windowIndices i (r+1) = some i :: windowIndices (i+1) r := by
  unfold windowIndices
  rw [List.range_succ_eq_map]
  simp only [List.map_cons, List.map_map]
  refine congrArg₂ _ (by simp) ?_
  apply List.map_congr_left
  intro k _
  have hcast : ((Nat.succ k : ℕ) : ℤ) = (k : ℤ) + 1 := by push_cast; ring
  simp only [Function.comp, hcast]
  congr 1
  ring

theorem rows_ne_bottomFold (rest : List Slot)
    (h : ∀ s ∈ rest, ∃ n, s = Slot.row n) :
    ∀ s ∈ rest, s ≠ Slot.bottomFold := by
  intro s hs
  obtain ⟨n, rfl⟩ := h s hs
  simp

/-- Repackaging step for the loop invariant: absorbing the slot just drawn
for index `i` into the drawn-window segment. -/
theorem loopShapeRepack (i : ℤ) (r : ℕ) (x : Slot) (acc : List Slot)
    (out : Option Slot × SPState) (hx : slotRowIndex x = some i)
    (h : ∃ P2 Q2 mid rest2 st2,
      out = ((rest2 ++ [Slot.bottomFold]).head?, st2) ∧
      SPState.slots st2 = P2 ++ Slot.topFold ::
        ((acc ++ [x]) ++ mid ++ rest2) ++ Slot.bottomFold :: Q2 ∧
      (SPState.slots st2).Nodup ∧
      mid.map slotRowIndex = windowIndices (i+1) r ∧
      (∀ s ∈ rest2, ∃ n, s = Slot.row n)) :
    ∃ P2 Q2 mid rest2 st2,
      out = ((rest2 ++ [Slot.bottomFold]).head?, st2) ∧
      SPState.slots st2 = P2 ++ Slot.topFold ::
        (acc ++ mid ++ rest2) ++ Slot.bottomFold :: Q2 ∧
      (SPState.slots st2).Nodup ∧
      mid.map slotRowIndex = windowIndices i (r+1) ∧
      (∀ s ∈ rest2, ∃ n, s = Slot.row n) := by
  obtain ⟨P2, Q2, mid, rest2, st2, hout, hsp, hnd, hmap, hrows⟩ := h
  refine ⟨P2, Q2, x :: mid, rest2, st2, hout, ?_, hnd, ?_, hrows⟩
  · rw [hsp]
    simp
  · rw [windowIndices_succ]
    simp only [List.map_cons]
    rw [hmap, hx]

/-- Shape invariant of a completed `drawVisibleRows_` loop run under an
active current cache generation. -/
theorem drawVisibleRowsLoop_ok_shape (provider : ℤ → Option RowNode)
    (sel : SelState) :
    ∀ (r : ℕ) (i : ℤ) (P acc rest Q : List Slot) (st : SPState)
      (out : Option Slot × SPState),
    st.slots = P ++ Slot.topFold :: (acc ++ rest) ++ Slot.bottomFold :: Q →
    st.slots.Nodup →
    (∀ s ∈ rest, ∃ n, s = Slot.row n) →
    (∀ n, Slot.row n ∈ acc → n.rowIndex < i) →
    st.curCache.isSome = true →
    (∀ j n, fetchSource st.prevCache provider j = some n → n.rowIndex = j) →
    drawVisibleRowsLoop provider sel r i ((rest ++ [Slot.bottomFold]).head?) st
      = Except.ok out →
    ∃ P2 Q2 mid rest2 st2,
      out = ((rest2 ++ [Slot.bottomFold]).head?, st2) ∧
      SPState.slots st2 = P2 ++ Slot.topFold :: (acc ++ mid ++ rest2) ++
        Slot.bottomFold :: Q2 ∧
      (SPState.slots st2).Nodup ∧
      mid.map slotRowIndex = windowIndices i r ∧
      (∀ s ∈ rest2, ∃ n, s = Slot.row n) := by
  intro r
  induction r with
  | zero =>
    intro i P acc rest Q st out hsp hnd hrest hacc hcc hwf h
    refine ⟨P, Q, [], rest, st, ?_, ?_, hnd, by simp [windowIndices], hrest⟩
    · have h0 : drawVisibleRowsLoop provider sel 0 i
          ((rest ++ [Slot.bottomFold]).head?) st =
          Except.ok ((rest ++ [Slot.bottomFold]).head?, st) := rfl
      rw [h0] at h
      exact (by simpa using h : _ = out).symm
    · rw [hsp]
      simp
  | succ r ih =>
    intro i P acc rest Q st out hsp hnd hrest hacc hcc hwf h
    obtain ⟨cur, hcur⟩ := Option.isSome_iff_exists.mp hcc
    cases rest with
    | nil =>
      rw [show ((([] : List Slot) ++ [Slot.bottomFold]).head?)
        = some Slot.bottomFold from rfl] at h
      simp only [drawVisibleRowsLoop] at h
      rw [if_true] at h
      obtain ⟨⟨n?, stU⟩, hfetch, hcont⟩ := exceptBind_ok _ _ _ h
      cases hnode : fetchSource st.prevCache provider i with
      | none => simp [fetchRowNode, hcur, hnode] at hfetch
      | some n =>
        simp only [fetchRowNode, hcur, hnode, Except.ok.injEq,
          Prod.mk.injEq] at hfetch
        obtain ⟨rfl, rfl⟩ := hfetch
        simp only [] at hcont
        obtain ⟨slots1, hins, hrec⟩ := exceptBind_ok _ _ _ hcont
        have hxrow : n.rowIndex = i := hwf i n hnode
        have hA : st.slots =
            (P ++ Slot.topFold :: acc) ++ Slot.bottomFold :: Q := by
          rw [hsp]; simp
        have hndA : ((P ++ Slot.topFold :: acc) ++
            Slot.bottomFold :: Q).Nodup := by
          rw [← hA]; exact hnd
        rw [hA, domInsertBefore_erase_spec (Slot.row n) Slot.bottomFold
          _ _ hndA (by simp)] at hins
        obtain rfl : slots1 = (P ++ Slot.topFold :: acc).erase (Slot.row n)
            ++ Slot.row n :: Slot.bottomFold :: Q.erase (Slot.row n) := by
          simpa using hins.symm
        have hxacc : Slot.row n ∉ acc := by
          intro hmem
          have := hacc n hmem
          omega
        have hmass : (P ++ Slot.topFold :: acc).erase (Slot.row n) =
            P.erase (Slot.row n) ++ Slot.topFold :: acc := by
          rw [nodup_erase_append _ _ _ (List.nodup_append.mp hndA).1]
          rw [List.erase_cons_tail (by simp)]
          rw [List.erase_of_not_mem hxacc]
        have hnd1 : ((P ++ Slot.topFold :: acc).erase (Slot.row n)
            ++ Slot.row n :: Slot.bottomFold :: Q.erase (Slot.row n)).Nodup :=
          nodup_insert_erase (Slot.row n) Slot.bottomFold _ _ hndA (by simp)
        have happly := ih (i + 1) (P.erase (Slot.row n)) (acc ++ [Slot.row n])
          [] (Q.erase (Slot.row n))
          { st with curCache := some ((n.rowIndex, n) :: cur),
                    slots := (P ++ Slot.topFold :: acc).erase (Slot.row n)
                      ++ Slot.row n :: Slot.bottomFold ::
                        Q.erase (Slot.row n) }
          out
          (by simp only []; rw [hmass]; simp)
          (by simp only []; exact hnd1)
          (by simp)
          (by intro m hmem
              rcases List.mem_append.mp hmem with h1 | h1
              · have := hacc m h1; omega
              · have : Slot.row m = Slot.row n := by simpa using h1
                have : m = n := by simpa using this
                subst this
                omega)
          (by simp)
          (by intro j m hj; exact hwf j m hj)
          hrec
        exact loopShapeRepack i r (Slot.row n) acc out
          (by simp [slotRowIndex, hxrow]) happly
    | cons c restT =>
      obtain ⟨cn, rfl⟩ := hrest c (List.mem_cons_self c restT)
      rw [show (((Slot.row cn :: restT) ++ [Slot.bottomFold]).head?)
        = some (Slot.row cn) from rfl] at h
      simp only [drawVisibleRowsLoop] at h
      have hflat : st.slots = (P ++ Slot.topFold :: acc) ++
          Slot.row cn :: (restT ++ Slot.bottomFold :: Q) := by
        rw [hsp]; simp
      have hflat2 : st.slots = (P ++ Slot.topFold :: acc) ++
          (Slot.row cn :: restT) ++ Slot.bottomFold :: Q := by
        rw [hsp]; simp
      have hndflat : ((P ++ Slot.topFold :: acc) ++
          Slot.row cn :: (restT ++ Slot.bottomFold :: Q)).Nodup := by
        rw [← hflat]; exact hnd
      have hcnpre : Slot.row cn ∉ P ++ Slot.topFold :: acc :=
        (nodup_middle_not_mem _ _ _ hndflat).1
      have hrestT : ∀ s ∈ restT, ∃ n, s = Slot.row n :=
        fun s hs => hrest s (List.mem_cons_of_mem _ hs)
      have hndA : (P ++ Slot.topFold :: acc).Nodup :=
        (List.nodup_append.mp hndflat).1
      have hndB : (restT ++ Slot.bottomFold :: Q).Nodup :=
        (List.nodup_append.mp hndflat).2.1.of_cons
      rw [if_neg (show ¬ (Slot.row cn = Slot.bottomFold) by simp)] at h
      by_cases hidx : slotRowIndex (Slot.row cn) = some i
      · -- the cursor row is already in the right place
        rw [if_pos hidx] at h
        have hcnidx : cn.rowIndex = i := by
          simpa [slotRowIndex] using hidx
        have hns : nextSibling (Slot.row cn) st.slots =
            ((restT ++ [Slot.bottomFold]).head?) := by
          rw [hflat, nextSibling_eq_of_mem _ _ _ hcnpre, head?_append_cons]
        rw [hns] at h
        have happly := ih (i+1) P (acc ++ [Slot.row cn]) restT Q st out
          (by rw [hsp]; simp)
          hnd hrestT
          (by intro m hmem
              rcases List.mem_append.mp hmem with h1 | h1
              · have := hacc m h1; omega
              · have h2 : m = cn := by simpa using h1
                subst h2; omega)
          hcc hwf h
        exact loopShapeRepack i r (Slot.row cn) acc out
          (by simp [slotRowIndex, hcnidx]) happly
      · rw [if_neg hidx] at h
        by_cases hsdue : rowDue sel.startRow i = true
        · -- the selection start row is due here
          rw [dif_pos hsdue] at h
          split at h
          next hsrx =>
            rw [hsrx] at hsdue
            simp [rowDue] at hsdue
          next sr hsrx =>
            have hsri : sr.rowIndex = i := by
              rw [hsrx] at hsdue
              simpa [rowDue] using hsdue
            obtain ⟨slots1, hrem, hrec⟩ := exceptBind_ok _ _ _ h
            have hremflat : removeUntilNode (Slot.row sr)
                (((Slot.row cn :: restT) ++ [Slot.bottomFold]).head?)
                ((P ++ Slot.topFold :: acc) ++ (Slot.row cn :: restT) ++
                  Slot.bottomFold :: Q) = Except.ok slots1 := by
              rw [← hflat2]
              exact hrem
            obtain ⟨d, r2, hrestEq, hsrD, hslots1⟩ :=
              removeUntilNode_ok_spec (Slot.row sr) (by simp)
                (Slot.row cn :: restT) (P ++ Slot.topFold :: acc) Q slots1
                (by rw [← hflat2]; exact hnd)
                (rows_ne_bottomFold _ hrest) hremflat
            have hndslots1 : slots1.Nodup := by
              rw [hslots1]
              refine List.Nodup.sublist ?_ (show ((P ++ Slot.topFold :: acc)
                ++ (Slot.row cn :: restT) ++ Slot.bottomFold :: Q).Nodup by
                  rw [← hflat2]; exact hnd)
              rw [hrestEq]
              exact ((List.Sublist.refl _).append
                (List.sublist_append_right d _)).append (List.Sublist.refl _)
            have hsl1b : slots1 = (P ++ Slot.topFold :: acc) ++
                Slot.row sr :: (r2 ++ Slot.bottomFold :: Q) := by
              rw [hslots1]; simp
            have hsrpre : Slot.row sr ∉ (P ++ Slot.topFold :: acc) := by
              have := nodup_middle_not_mem (Slot.row sr) _ _
                (by rw [← hsl1b]; exact hndslots1)
              exact this.1
            have hns2 : nextSibling (Slot.row sr) slots1 =
                ((r2 ++ [Slot.bottomFold]).head?) := by
              rw [hsl1b, nextSibling_eq_of_mem _ _ _ hsrpre, head?_append_cons]
            rw [hns2] at hrec
            have happly := ih (i+1) P (acc ++ [Slot.row sr]) r2 Q
              { slots := slots1, prevCache := st.prevCache,
                curCache := st.curCache } out
              (by simp only []; rw [hslots1]; simp)
              (by simp only []; exact hndslots1)
              (by intro s hs
                  apply hrest
                  rw [hrestEq]
                  exact List.mem_append_right d (List.mem_cons_of_mem _ hs))
              (by intro m hmem
                  rcases List.mem_append.mp hmem with h1 | h1
                  · have := hacc m h1; omega
                  · have h2 : m = sr := by simpa using h1
                    subst h2; omega)
              hcc hwf hrec
            exact loopShapeRepack i r (Slot.row sr) acc out
              (by simp [slotRowIndex, hsri]) happly
        · rw [dif_neg hsdue] at h
          by_cases hedue : rowDue sel.endRow i = true
          · -- the selection end row is due here
            rw [dif_pos hedue] at h
            split at h
            next herx =>
              rw [herx] at hedue
              simp [rowDue] at hedue
            next er herx =>
              have heri : er.rowIndex = i := by
                rw [herx] at hedue
                simpa [rowDue] using hedue
              obtain ⟨slots1, hrem, hrec⟩ := exceptBind_ok _ _ _ h
              have hremflat : removeUntilNode (Slot.row er)
                  (((Slot.row cn :: restT) ++ [Slot.bottomFold]).head?)
                  ((P ++ Slot.topFold :: acc) ++ (Slot.row cn :: restT) ++
                    Slot.bottomFold :: Q) = Except.ok slots1 := by
                rw [← hflat2]
                exact hrem
              obtain ⟨d, r2, hrestEq, herD, hslots1⟩ :=
                removeUntilNode_ok_spec (Slot.row er) (by simp)
                  (Slot.row cn :: restT) (P ++ Slot.topFold :: acc) Q slots1
                  (by rw [← hflat2]; exact hnd)
                  (rows_ne_bottomFold _ hrest) hremflat
              have hndslots1 : slots1.Nodup := by
                rw [hslots1]
                refine List.Nodup.sublist ?_ (show ((P ++ Slot.topFold :: acc)
                  ++ (Slot.row cn :: restT) ++ Slot.bottomFold :: Q).Nodup by
                    rw [← hflat2]; exact hnd)
                rw [hrestEq]
                exact ((List.Sublist.refl _).append
                  (List.sublist_append_right d _)).append
                    (List.Sublist.refl _)
              have hsl1b : slots1 = (P ++ Slot.topFold :: acc) ++
                  Slot.row er :: (r2 ++ Slot.bottomFold :: Q) := by
                rw [hslots1]; simp
              have herpre : Slot.row er ∉ (P ++ Slot.topFold :: acc) := by
                have := nodup_middle_not_mem (Slot.row er) _ _
                  (by rw [← hsl1b]; exact hndslots1)
                exact this.1
              have hns2 : nextSibling (Slot.row er) slots1 =
                  ((r2 ++ [Slot.bottomFold]).head?) := by
                rw [hsl1b, nextSibling_eq_of_mem _ _ _ herpre,
                  head?_append_cons]
              rw [hns2] at hrec
              have happly := ih (i+1) P (acc ++ [Slot.row er]) r2 Q
                { slots := slots1, prevCache := st.prevCache,
                  curCache := st.curCache } out
                (by simp only []; rw [hslots1]; simp)
                (by simp only []; exact hndslots1)
                (by intro s hs
                    apply hrest
                    rw [hrestEq]
                    exact List.mem_append_right d (List.mem_cons_of_mem _ hs))
                (by intro m hmem
                    rcases List.mem_append.mp hmem with h1 | h1
                    · have := hacc m h1; omega
                    · have h2 : m = er := by simpa using h1
                      subst h2; omega)
                hcc hwf hrec
              exact loopShapeRepack i r (Slot.row er) acc out
                (by simp [slotRowIndex, heri]) happly
          · rw [dif_neg hedue] at h
            by_cases hcis : cursorIsSelection sel (Slot.row cn) = true
            · -- the cursor is a selection endpoint not wanted yet
              rw [if_pos hcis] at h
              obtain ⟨⟨n?, stU⟩, hfetch, hcont⟩ := exceptBind_ok _ _ _ h
              cases hnode : fetchSource st.prevCache provider i with
              | none => simp [fetchRowNode, hcur, hnode] at hfetch
              | some n =>
                simp only [fetchRowNode, hcur, hnode, Except.ok.injEq,
                  Prod.mk.injEq] at hfetch
                obtain ⟨rfl, rfl⟩ := hfetch
                simp only [] at hcont
                obtain ⟨slots1, hins, hrec⟩ := exceptBind_ok _ _ _ hcont
                have hxrow : n.rowIndex = i := hwf i n hnode
                have hcn : Slot.row cn ≠ Slot.row n := by
                  intro hh
                  apply hidx
                  have h2 : cn = n := by simpa using hh
                  subst h2
                  simp [slotRowIndex, hxrow]
                rw [hflat, domInsertBefore_erase_spec (Slot.row n)
                  (Slot.row cn) _ _ (by rw [← hflat]; exact hnd) hcn] at hins
                obtain rfl : slots1 = (P ++ Slot.topFold :: acc).erase
                    (Slot.row n) ++ Slot.row n :: Slot.row cn ::
                    (restT ++ Slot.bottomFold :: Q).erase (Slot.row n) := by
                  simpa using hins.symm
                have hxacc : Slot.row n ∉ acc := by
                  intro hmem
                  have := hacc n hmem
                  omega
                have hmassA : (P ++ Slot.topFold :: acc).erase (Slot.row n) =
                    P.erase (Slot.row n) ++ Slot.topFold :: acc := by
                  rw [nodup_erase_append _ _ _ hndA,
                    List.erase_cons_tail (by simp),
                    List.erase_of_not_mem hxacc]
                have hmassB : (restT ++ Slot.bottomFold :: Q).erase
                    (Slot.row n) = restT.erase (Slot.row n) ++
                    Slot.bottomFold :: Q.erase (Slot.row n) := by
                  rw [nodup_erase_append _ _ _ hndB,
                    List.erase_cons_tail (by simp)]
                have hnd1 := nodup_insert_erase (Slot.row n) (Slot.row cn)
                  _ _ hndflat hcn
                have happly := ih (i+1) (P.erase (Slot.row n))
                  (acc ++ [Slot.row n])
                  (Slot.row cn :: restT.erase (Slot.row n))
                  (Q.erase (Slot.row n))
                  { slots := (P ++ Slot.topFold :: acc).erase (Slot.row n) ++
                      Slot.row n :: Slot.row cn ::
                      (restT ++ Slot.bottomFold :: Q).erase (Slot.row n),
                    prevCache := st.prevCache,
                    curCache := some ((n.rowIndex, n) :: cur) } out
                  (by simp only []; rw [hmassA, hmassB]; simp)
                  (by simp only []; exact hnd1)
                  (by intro s hs
                      rcases List.mem_cons.mp hs with rfl | hs
                      · exact ⟨cn, rfl⟩
                      · exact hrestT s (List.mem_of_mem_erase hs))
                  (by intro m hmem
                      rcases List.mem_append.mp hmem with h1 | h1
                      · have := hacc m h1; omega
                      · have h2 : m = n := by simpa using h1
                        subst h2; omega)
                  (by simp)
                  (by intro j m hj; exact hwf j m hj)
                  hrec
                exact loopShapeRepack i r (Slot.row n) acc out
                  (by simp [slotRowIndex, hxrow]) happly
            · -- an unremarkable stale row is in the way
              rw [if_neg hcis] at h
              obtain ⟨⟨n?, stU⟩, hfetch, hcont⟩ := exceptBind_ok _ _ _ h
              cases hnode : fetchSource st.prevCache provider i with
              | none => simp [fetchRowNode, hcur, hnode] at hfetch
              | some n =>
                simp only [fetchRowNode, hcur, hnode, Except.ok.injEq,
                  Prod.mk.injEq] at hfetch
                obtain ⟨rfl, rfl⟩ := hfetch
                simp only [] at hcont
                have hxrow : n.rowIndex = i := hwf i n hnode
                have hcn : Slot.row cn ≠ Slot.row n := by
                  intro hh
                  apply hidx
                  have h2 : cn = n := by simpa using hh
                  subst h2
                  simp [slotRowIndex, hxrow]
                rw [if_neg (show ¬ (Slot.row n = Slot.row cn) from
                  fun hh => hcn hh.symm)] at hcont
                obtain ⟨slots1, hins, hcont2⟩ := exceptBind_ok _ _ _ hcont
                obtain ⟨slots2, hremc, hrec⟩ := exceptBind_ok _ _ _ hcont2
                rw [hflat, domInsertBefore_erase_spec (Slot.row n)
                  (Slot.row cn) _ _ (by rw [← hflat]; exact hnd) hcn] at hins
                obtain rfl : slots1 = (P ++ Slot.topFold :: acc).erase
                    (Slot.row n) ++ Slot.row n :: Slot.row cn ::
                    (restT ++ Slot.bottomFold :: Q).erase (Slot.row n) := by
                  simpa using hins.symm
                have hxacc : Slot.row n ∉ acc := by
                  intro hmem
                  have := hacc n hmem
                  omega
                have hmassA : (P ++ Slot.topFold :: acc).erase (Slot.row n) =
                    P.erase (Slot.row n) ++ Slot.topFold :: acc := by
                  rw [nodup_erase_append _ _ _ hndA,
                    List.erase_cons_tail (by simp),
                    List.erase_of_not_mem hxacc]
                have hmassB : (restT ++ Slot.bottomFold :: Q).erase
                    (Slot.row n) = restT.erase (Slot.row n) ++
                    Slot.bottomFold :: Q.erase (Slot.row n) := by
                  rw [nodup_erase_append _ _ _ hndB,
                    List.erase_cons_tail (by simp)]
                have hnd1 := nodup_insert_erase (Slot.row n) (Slot.row cn)
                  _ _ hndflat hcn
                have hcmem : Slot.row cn ∈ (P ++ Slot.topFold :: acc).erase
                    (Slot.row n) ++ Slot.row n :: Slot.row cn ::
                    (restT ++ Slot.bottomFold :: Q).erase (Slot.row n) := by
                  simp
                rw [domRemoveChild_mem _ _ hcmem] at hremc
                have hcnpre2 : Slot.row cn ∉
                    (P ++ Slot.topFold :: acc).erase (Slot.row n) ++
                    [Slot.row n] := by
                  intro hh
                  rcases List.mem_append.mp hh with h1 | h1
                  · exact hcnpre (List.mem_of_mem_erase h1)
                  · exact hcn (by simpa using h1)
                have herase : ((P ++ Slot.topFold :: acc).erase (Slot.row n)
                    ++ Slot.row n :: Slot.row cn ::
                    (restT ++ Slot.bottomFold :: Q).erase
                      (Slot.row n)).erase (Slot.row cn) =
                    (P ++ Slot.topFold :: acc).erase (Slot.row n) ++
                    Slot.row n :: (restT ++ Slot.bottomFold :: Q).erase
                      (Slot.row n) := by
                  rw [show (P ++ Slot.topFold :: acc).erase (Slot.row n)
                      ++ Slot.row n :: Slot.row cn ::
                      (restT ++ Slot.bottomFold :: Q).erase (Slot.row n) =
                      ((P ++ Slot.topFold :: acc).erase (Slot.row n) ++
                      [Slot.row n]) ++ Slot.row cn ::
                      (restT ++ Slot.bottomFold :: Q).erase (Slot.row n)
                    from by simp]
                  rw [List.erase_append_right _ hcnpre2,
                    List.erase_cons_head]
                  simp
                rw [herase] at hremc
                obtain rfl : slots2 =
                    (P ++ Slot.topFold :: acc).erase (Slot.row n) ++
                    Slot.row n :: (restT ++ Slot.bottomFold :: Q).erase
                      (Slot.row n) := by
                  simpa using hremc.symm
                have hnd2 : ((P ++ Slot.topFold :: acc).erase (Slot.row n) ++
                    Slot.row n :: (restT ++ Slot.bottomFold :: Q).erase
                      (Slot.row n)).Nodup := by
                  rw [← herase]
                  exact hnd1.erase _
                have hxpre : Slot.row n ∉
                    P.erase (Slot.row n) ++ Slot.topFold :: acc := by
                  intro hh
                  rcases List.mem_append.mp hh with h1 | h1
                  · exact ((List.nodup_append.mp hndA).1).not_mem_erase h1
                  · rcases List.mem_cons.mp h1 with h2 | h2
                    · exact absurd h2 (by simp)
                    · exact hxacc h2
                have hns3 : nextSibling (Slot.row n)
                    ((P ++ Slot.topFold :: acc).erase (Slot.row n) ++
                    Slot.row n :: (restT ++ Slot.bottomFold :: Q).erase
                      (Slot.row n)) =
                    ((restT.erase (Slot.row n) ++ [Slot.bottomFold]).head?)
                    := by
                  rw [hmassA, hmassB, show (P.erase (Slot.row n) ++
                    Slot.topFold :: acc) ++ Slot.row n ::
                    (restT.erase (Slot.row n) ++ Slot.bottomFold ::
                    Q.erase (Slot.row n)) = (P.erase (Slot.row n) ++
                    Slot.topFold :: acc) ++ Slot.row n ::
                    (restT.erase (Slot.row n) ++ Slot.bottomFold ::
                    Q.erase (Slot.row n)) from rfl]
                  rw [nextSibling_eq_of_mem _ _ _ hxpre, head?_append_cons]
                rw [hns3] at hrec
                have happly := ih (i+1) (P.erase (Slot.row n))
                  (acc ++ [Slot.row n]) (restT.erase (Slot.row n))
                  (Q.erase (Slot.row n))
                  { slots := (P ++ Slot.topFold :: acc).erase (Slot.row n) ++
                      Slot.row n :: (restT ++ Slot.bottomFold :: Q).erase
                        (Slot.row n),
                    prevCache := st.prevCache,
                    curCache := some ((n.rowIndex, n) :: cur) } out
                  (by simp only []; rw [hmassA, hmassB]; simp)
                  (by simp only []; exact hnd2)
                  (by intro s hs
                      exact hrestT s (List.mem_of_mem_erase hs))
                  (by intro m hmem
                      rcases List.mem_append.mp hmem with h1 | h1
                      · have := hacc m h1; omega
                      · have h2 : m = n := by simpa using h1
                        subst h2; omega)
                  (by simp)
                  (by intro j m hj; exact hwf j m hj)
                  hrec
                exact loopShapeRepack i r (Slot.row n) acc out
                  (by simp [slotRowIndex, hxrow]) happly

theorem dropWhile_append_all (p : Slot → Bool) (P l : List Slot)
    (hP : ∀ x ∈ P, p x = true) : (P ++ l).dropWhile p = l.dropWhile p := by
  induction P with
  | nil => rfl
  | cons a A ih =>
    rw [List.cons_append, List.dropWhile_cons,
      if_pos (hP a (List.mem_cons_self a A))]
    exact ih (fun x hx => hP x (List.mem_cons_of_mem a hx))

theorem takeWhile_append_stop (p : Slot → Bool) (M : List Slot) (x : Slot)
    (R : List Slot) (hM : ∀ s ∈ M, p s = true) (hx : p x = false) :
    (M ++ x :: R).takeWhile p = M := by
  induction M with
  | nil =>
    simp [List.takeWhile_cons, hx]
  | cons a A ih =>
    rw [List.cons_append, List.takeWhile_cons,
      hM a (List.mem_cons_self a A)]
    rw [ih (fun s hs => hM s (List.mem_cons_of_mem a hs))]
    simp

theorem betweenFolds_spec (P mid Q : List Slot)
    (htfP : Slot.topFold ∉ P) (hbfM : Slot.bottomFold ∉ mid) :
    betweenFolds (P ++ Slot.topFold :: mid ++ Slot.bottomFold :: Q) = mid := by
  unfold betweenFolds
  rw [show P ++ Slot.topFold :: mid ++ Slot.bottomFold :: Q =
    P ++ (Slot.topFold :: (mid ++ Slot.bottomFold :: Q)) from by simp]
  rw [dropWhile_append_all _ P _ (by
    intro x hx
    simp only [decide_eq_true_eq]
    exact fun hh => htfP (hh ▸ hx))]
  rw [List.dropWhile_cons, if_neg (by simp)]
  rw [show (Slot.topFold :: (mid ++ Slot.bottomFold :: Q)).drop 1 =
    mid ++ Slot.bottomFold :: Q from rfl]
  exact takeWhile_append_stop _ mid Slot.bottomFold Q (by
    intro s hs
    simp only [decide_eq_true_eq]
    exact fun hh => hbfM (hh ▸ hs)) (by simp)

/-- A completed `drawVisibleRows_` call on a duplicate-free child list of
the form `pre ++ topFold :: staleRows ++ bottomFold :: post`, with the
current cache generation active, leaves exactly the rows with indices
`topRowIndex .. topRowIndex + min(visibleRowCount, rowCount) - 1`, in
order, between the folds. -/
theorem drawVisibleRows_ok_shape (provider : ℤ → Option RowNode)
    (rc vc : ℕ) (sel : SelState) (top bot : ℤ)
    (P rest Q : List Slot) (st st2 : SPState)
    (hsp : st.slots = P ++ Slot.topFold :: rest ++ Slot.bottomFold :: Q)
    (hnd : st.slots.Nodup)
    (hrest : ∀ s ∈ rest, ∃ n, s = Slot.row n)
    (hcc : st.curCache.isSome = true)
    (hwf : ∀ j n, fetchSource st.prevCache provider j = some n →
      n.rowIndex = j)
    (h : drawVisibleRows provider rc vc sel top bot st = Except.ok st2) :
    (betweenFolds st2.slots).map slotRowIndex =
      windowIndices top (min vc rc) := by
  unfold drawVisibleRows at h
  obtain ⟨⟨cursor2, st1⟩, hloop, hcont⟩ := exceptBind_ok _ _ _ h
  have hcur0 : nextSibling Slot.topFold st.slots =
      ((rest ++ [Slot.bottomFold]).head?) := by
    have hsp2 : st.slots =
        P ++ Slot.topFold :: (rest ++ Slot.bottomFold :: Q) := by
      rw [hsp]; simp
    have htfP : Slot.topFold ∉ P := by
      have := nodup_middle_not_mem Slot.topFold P _
        (by rw [← hsp2]; exact hnd)
      exact this.1
    rw [hsp2, nextSibling_eq_of_mem _ _ _ htfP, head?_append_cons]
  rw [hcur0] at hloop
  obtain ⟨P2, Q2, mid, rest2, st1, hout, hsp2, hnd2, hmap, hrows2⟩ :=
    drawVisibleRowsLoop_ok_shape provider sel (min vc rc) top P [] rest Q st
      (cursor2, st1) (by rw [hsp]; simp) hnd hrest (by simp) hcc hwf hloop
  injection hout with hc1 hc2
  subst hc1
  subst hc2
  simp only [List.nil_append] at hsp2
  cases rest2 with
  | nil =>
    rw [show ((([] : List Slot) ++ [Slot.bottomFold]).head?) =
      some Slot.bottomFold from rfl] at hcont
    simp only [] at hcont
    rw [if_true] at hcont
    obtain rfl : st1 = st2 := by simpa using hcont
    have hform : st1.slots =
        P2 ++ Slot.topFold :: mid ++ Slot.bottomFold :: Q2 := by
      rw [hsp2]; simp
    have hndF : (P2 ++ Slot.topFold :: mid ++ Slot.bottomFold :: Q2).Nodup :=
      by rw [← hform]; exact hnd2
    have htfP2 : Slot.topFold ∉ P2 := by
      have := nodup_middle_not_mem Slot.topFold P2
        (mid ++ Slot.bottomFold :: Q2) (by
          rw [show P2 ++ Slot.topFold :: (mid ++ Slot.bottomFold :: Q2) =
            P2 ++ Slot.topFold :: mid ++ Slot.bottomFold :: Q2 from by simp]
          exact hndF)
      exact this.1
    have hbfM : Slot.bottomFold ∉ mid := by
      have := nodup_middle_not_mem Slot.bottomFold (P2 ++ Slot.topFold :: mid)
        Q2 (by
          rw [show (P2 ++ Slot.topFold :: mid) ++ Slot.bottomFold :: Q2 =
            P2 ++ Slot.topFold :: mid ++ Slot.bottomFold :: Q2 from by simp]
          exact hndF)
      exact fun hh => this.1 (List.mem_append_right P2
        (List.mem_cons_of_mem _ hh))
    rw [hform, betweenFolds_spec P2 mid Q2 htfP2 hbfM, hmap]
  | cons s rest2T =>
    obtain ⟨sn, rfl⟩ := hrows2 s (List.mem_cons_self s rest2T)
    rw [show (((Slot.row sn :: rest2T) ++ [Slot.bottomFold]).head?) =
      some (Slot.row sn) from rfl] at hcont
    simp only [] at hcont
    rw [if_neg (by simp)] at hcont
    obtain ⟨slots3, hremb, hfin⟩ := exceptBind_ok _ _ _ hcont
    have hflat3 : st1.slots = (P2 ++ Slot.topFold :: mid) ++
        (Slot.row sn :: rest2T) ++ Slot.bottomFold :: Q2 := by
      rw [hsp2]; simp
    have hrem2 : removeUntilNode Slot.bottomFold (some (Slot.row sn))
        ((P2 ++ Slot.topFold :: mid) ++ (Slot.row sn :: rest2T) ++
          Slot.bottomFold :: Q2) =
        Except.ok ((P2 ++ Slot.topFold :: mid) ++ Slot.bottomFold :: Q2) :=
      removeUntilNode_to_bottomFold _ _ _
        (by rw [← hflat3]; exact hnd2) (rows_ne_bottomFold _ hrows2)
    rw [hflat3, hrem2] at hremb
    obtain rfl : slots3 =
        (P2 ++ Slot.topFold :: mid) ++ Slot.bottomFold :: Q2 := by
      simpa using hremb.symm
    obtain rfl : st2 = { st1 with
        slots := (P2 ++ Slot.topFold :: mid) ++ Slot.bottomFold :: Q2 } := by
      simpa using hfin.symm
    have hndF : ((P2 ++ Slot.topFold :: mid) ++
        Slot.bottomFold :: Q2).Nodup := by
      refine List.Nodup.sublist ?_ (show ((P2 ++ Slot.topFold :: mid) ++
        ((Slot.row sn :: rest2T) ++ Slot.bottomFold :: Q2)).Nodup from by
          rw [show (P2 ++ Slot.topFold :: mid) ++
            ((Slot.row sn :: rest2T) ++ Slot.bottomFold :: Q2) =
            st1.slots from by rw [hsp2]; simp]
          exact hnd2)
      exact (List.Sublist.refl _).append (List.sublist_append_right _ _)
    have htfP2 : Slot.topFold ∉ P2 := by
      have := nodup_middle_not_mem Slot.topFold P2
        (mid ++ Slot.bottomFold :: Q2) (by
          rw [show P2 ++ Slot.topFold :: (mid ++ Slot.bottomFold :: Q2) =
            (P2 ++ Slot.topFold :: mid) ++ Slot.bottomFold :: Q2 from by
              simp]
          exact hndF)
      exact this.1
    have hbfM : Slot.bottomFold ∉ mid := by
      have := nodup_middle_not_mem Slot.bottomFold (P2 ++ Slot.topFold :: mid)
        Q2 hndF
      exact fun hh => this.1 (List.mem_append_right P2
        (List.mem_cons_of_mem _ hh))
    rw [show SPState.slots { st1 with
        slots := (P2 ++ Slot.topFold :: mid) ++ Slot.bottomFold :: Q2 } =
      (P2 ++ Slot.topFold :: mid) ++ Slot.bottomFold :: Q2 from rfl]
    rw [show (P2 ++ Slot.topFold :: mid) ++ Slot.bottomFold :: Q2 =
      P2 ++ Slot.topFold :: mid ++ Slot.bottomFold :: Q2 from by simp]
    rw [betweenFolds_spec P2 mid Q2 htfP2 hbfM, hmap]

/-- `drawBottomFold_` on a duplicate-free list: it keeps the list duplicate
free, conjures no node other than the bottom fold, and leaves the bottom
fold positioned so that the top fold (if still present) is before it. -/
theorem drawBottomFold_ok_spine (sel : SelState) (bot : ℤ) (l1 l2 : List Slot)
    (hnd : l1.Nodup) (h : drawBottomFold sel bot l1 = Except.ok l2) :
    l2.Nodup ∧ (∀ s ∈ l2, s = Slot.bottomFold ∨ s ∈ l1) ∧
    ∃ C D, l2 = C ++ Slot.bottomFold :: D ∧ Slot.topFold ∉ D := by
  have hlast : ∀ (hh : placeBottomFoldLast l1 = Except.ok l2),
      l2.Nodup ∧ (∀ s ∈ l2, s = Slot.bottomFold ∨ s ∈ l1) ∧
      ∃ C D, l2 = C ++ Slot.bottomFold :: D ∧ Slot.topFold ∉ D := by
    intro hh
    rw [placeBottomFoldLast_spec l1 hnd] at hh
    obtain rfl : l1.erase Slot.bottomFold ++ [Slot.bottomFold] = l2 := by
      simpa using hh
    refine ⟨?_, ?_, l1.erase Slot.bottomFold, [], by simp, by simp⟩
    · have h2 : (l1.erase Slot.bottomFold ++ ([] : List Slot)).Nodup := by
        simpa using hnd.erase Slot.bottomFold
      have h3 : Slot.bottomFold ∉ l1.erase Slot.bottomFold ++
          ([] : List Slot) := by
        simpa using hnd.not_mem_erase
      exact nodup_insert_middle Slot.bottomFold _ [] h2 h3
    · intro s hs
      rcases List.mem_append.mp hs with h1 | h1
      · exact Or.inr (List.mem_of_mem_erase h1)
      · exact Or.inl (by simpa using h1)
  have hbefore : ∀ (m : List Slot) (y : RowNode),
      placeBottomFoldBefore (Slot.row y) l1 = Except.ok m →
      trimLastUntil (Slot.row y) m = Except.ok l2 →
      l2.Nodup ∧ (∀ s ∈ l2, s = Slot.bottomFold ∨ s ∈ l1) ∧
      ∃ C D, l2 = C ++ Slot.bottomFold :: D ∧ Slot.topFold ∉ D := by
    intro m y hm htrim
    obtain ⟨C, B, rfl, hyC, rfl⟩ :=
      placeBottomFoldBefore_ok_inv (Slot.row y) l1 m hnd (by simp) hm
    have hyB : Slot.row y ∉ B :=
      (nodup_middle_not_mem (Slot.row y) C B hnd).2
    have hndm : (C.erase Slot.bottomFold ++ Slot.bottomFold :: Slot.row y ::
        B.erase Slot.bottomFold).Nodup :=
      nodup_refold2 Slot.bottomFold (Slot.row y) C B hnd (by simp)
    have hform : C.erase Slot.bottomFold ++ Slot.bottomFold :: Slot.row y ::
        B.erase Slot.bottomFold =
        (C.erase Slot.bottomFold ++ [Slot.bottomFold]) ++ Slot.row y ::
        B.erase Slot.bottomFold := by simp
    rw [hform, trimLastUntil_spec (Slot.row y) _ _
      (fun hh => hyB (List.mem_of_mem_erase hh))] at htrim
    obtain rfl : (C.erase Slot.bottomFold ++ [Slot.bottomFold]) ++
        [Slot.row y] = l2 := by simpa using htrim
    refine ⟨?_, ?_, C.erase Slot.bottomFold, [Slot.row y], by simp, by simp⟩
    · refine List.Nodup.sublist ?_ (hform ▸ hndm)
      exact (List.Sublist.refl _).append
        (List.Sublist.cons₂ _ (List.nil_sublist _))
    · intro s hs
      simp only [List.append_assoc, List.mem_append] at hs
      rcases hs with h1 | h1 | h1
      · exact Or.inr (List.mem_append_left _ (List.mem_of_mem_erase h1))
      · exact Or.inl (by simpa using h1)
      · have h3 : s = Slot.row y := by simpa using h1
        subst h3
        exact Or.inr (by simp)
  unfold drawBottomFold at h
  cases her : sel.endRow with
  | none =>
    rw [her] at h
    exact hlast h
  | some er =>
    rw [her] at h
    simp only [] at h
    by_cases hle : er.rowIndex ≤ bot
    · rw [if_pos hle] at h
      exact hlast h
    · rw [if_neg hle] at h
      by_cases hml : sel.isMultiline = false
      · rw [if_pos hml] at h
        obtain ⟨m, hm, htrim⟩ := exceptBind_ok _ _ _ h
        exact hbefore m er hm htrim
      · rw [if_neg hml] at h
        cases hsr : sel.startRow with
        | none =>
          rw [hsr] at h
          simp only [] at h
          exact absurd h (by simp [Bind.bind, Except.bind])
        | some sr =>
          rw [hsr] at h
          simp only [] at h
          by_cases hle2 : sr.rowIndex ≤ bot
          · rw [if_pos hle2] at h
            obtain ⟨m, hm, htrim⟩ := exceptBind_ok _ _ _ h
            exact hbefore m er hm htrim
          · rw [if_neg hle2] at h
            obtain ⟨m1, hm1, hrest1⟩ := exceptBind_ok _ _ _ h
            obtain ⟨m2, htrimA, htrimL⟩ := exceptBind_ok _ _ _ hrest1
            obtain ⟨C, B, rfl, hsrC, rfl⟩ :=
              placeBottomFoldBefore_ok_inv (Slot.row sr) l1 m1 hnd
                (by simp) hm1
            have hsrB : Slot.row sr ∉ B :=
              (nodup_middle_not_mem (Slot.row sr) C B hnd).2
            have hndm1 : (C.erase Slot.bottomFold ++ Slot.bottomFold ::
                Slot.row sr :: B.erase Slot.bottomFold).Nodup :=
              nodup_refold2 Slot.bottomFold (Slot.row sr) C B hnd (by simp)
            obtain ⟨Pp, M, S, hm1eq, hsrPp, hm2⟩ :=
              trimAfterUntil_ok (Slot.row sr) (Slot.row er) _ _ m2
                le_rfl hndm1 htrimA
            have hm1eq2 : (C.erase Slot.bottomFold ++ [Slot.bottomFold]) ++
                Slot.row sr :: B.erase Slot.bottomFold =
                Pp ++ Slot.row sr :: (M ++ Slot.row er :: S) := by
              rw [← hm1eq]; simp
            have hndm1b : ((C.erase Slot.bottomFold ++ [Slot.bottomFold]) ++
                Slot.row sr :: B.erase Slot.bottomFold).Nodup := by
              simpa using hndm1
            obtain ⟨hPp, hB⟩ := nodup_split_unique (Slot.row sr)
              (C.erase Slot.bottomFold ++ [Slot.bottomFold])
              (B.erase Slot.bottomFold) Pp (M ++ Slot.row er :: S)
              hndm1b hm1eq2
            have hndm2 : m2.Nodup := by
              rw [hm2]
              refine List.Nodup.sublist ?_ (hm1eq ▸ hndm1)
              exact (List.Sublist.refl Pp).append
                (List.Sublist.cons₂ _ (List.sublist_append_right M _))
            have herS : Slot.row er ∉ S := by
              have := nodup_middle_not_mem (Slot.row er)
                (Pp ++ [Slot.row sr]) S (by
                  rw [show (Pp ++ [Slot.row sr]) ++ Slot.row er :: S =
                    Pp ++ Slot.row sr :: Slot.row er :: S from by simp,
                    ← hm2]
                  exact hndm2)
              exact this.2
            rw [hm2, show Pp ++ Slot.row sr :: Slot.row er :: S =
              (Pp ++ [Slot.row sr]) ++ Slot.row er :: S from by simp,
              trimLastUntil_spec (Slot.row er) _ _ herS] at htrimL
            obtain rfl : (Pp ++ [Slot.row sr]) ++ [Slot.row er] = l2 := by
              simpa using htrimL
            subst hPp
            refine ⟨?_, ?_, C.erase Slot.bottomFold,
              [Slot.row sr, Slot.row er], by simp, by simp⟩
            · rw [show ((C.erase Slot.bottomFold ++ [Slot.bottomFold]) ++
                [Slot.row sr]) ++ [Slot.row er] =
                (C.erase Slot.bottomFold ++ [Slot.bottomFold]) ++
                Slot.row sr :: [Slot.row er] from by simp]
              refine List.Nodup.sublist ?_ (hm1eq ▸ hndm1)
              refine (List.Sublist.refl _).append ?_
              refine List.Sublist.cons₂ _ ?_
              exact (List.Sublist.cons₂ _ (List.nil_sublist _)).trans
                (List.sublist_append_right M _)
            · intro s hs
              simp only [List.append_assoc, List.mem_append] at hs
              rcases hs with h1 | h1 | h1 | h1
              · exact Or.inr (List.mem_append_left _
                  (List.mem_of_mem_erase h1))
              · exact Or.inl (by simpa using h1)
              · have h3 : s = Slot.row sr := by simpa using h1
                subst h3
                exact Or.inr (by simp)
              · have h3 : s = Slot.row er := by simpa using h1
                subst h3
                have h5 : Slot.row er ∈ B.erase Slot.bottomFold := by
                  rw [hB]
                  simp
                exact Or.inr (List.mem_append_right C (List.mem_cons_of_mem _
                  (List.mem_of_mem_erase h5)))

/-- C1: after every completed `redraw_` reconciliation pass on a
duplicate-free child list — with the current row-node cache generation
active, completion entails that the row provider supplied a node for every
requested index, since a missing node throws — the slots strictly between
the top fold and the bottom fold are exactly the rows with indices
`topRowIndex, topRowIndex + 1, ..., topRowIndex + min(visibleRowCount,
rowCount) - 1`, in ascending index order with no duplicated index. -/
theorem redrawPass_window (provider : ℤ → Option RowNode)
    (rowCount visibleRowCount : ℕ) (sel : SelState) (topRowIndex : ℤ)
    (slots : List Slot) (prevCache : Option RowCache)
    (out : List Slot × RowCache)
    (hnd : slots.Nodup)
    (hwf : ∀ j n, fetchSource prevCache provider j = some n → n.rowIndex = j)
    (h : redrawPass provider rowCount visibleRowCount sel topRowIndex slots
      prevCache = Except.ok out) :
    (betweenFolds out.1).map slotRowIndex =
      windowIndices topRowIndex (min visibleRowCount rowCount) := by
  unfold redrawPass at h
  obtain ⟨l1, hTF, hrest1⟩ := exceptBind_ok _ _ _ h
  obtain ⟨l2, hBF, hrest2⟩ := exceptBind_ok _ _ _ hrest1
  obtain ⟨stF, hDV, hfin⟩ := exceptBind_ok _ _ _ hrest2
  have hnd0 : (resetSelectBags slots).Nodup := (hnd.erase _).erase _
  have htb : Slot.topBag ∉ resetSelectBags slots := by
    intro hmem
    exact hnd.not_mem_erase (List.mem_of_mem_erase hmem)
  have hbb : Slot.bottomBag ∉ resetSelectBags slots :=
    (hnd.erase _).not_mem_erase
  obtain ⟨hnd1, hsub1⟩ := drawTopFold_ok sel topRowIndex _ l1 hnd0 hTF
  obtain ⟨hnd2, hsub2, C, D, rfl, htfD⟩ :=
    drawBottomFold_ok_spine sel _ l1 _ hnd1 hBF
  obtain rfl : out = (stF.slots, stF.curCache.getD []) := by
    simpa using hfin.symm
  by_cases htfC : Slot.topFold ∈ C
  · obtain ⟨Pp, restp, rfl⟩ := List.append_of_mem htfC
    have hndflatA : (Pp ++ Slot.topFold ::
        (restp ++ Slot.bottomFold :: D)).Nodup := by
      rw [show Pp ++ Slot.topFold :: (restp ++ Slot.bottomFold :: D) =
        (Pp ++ Slot.topFold :: restp) ++ Slot.bottomFold :: D from by simp]
      exact hnd2
    have hrows : ∀ s ∈ restp, ∃ n, s = Slot.row n := by
      intro s hs
      have hne_tf : s ≠ Slot.topFold := by
        intro hh
        subst hh
        exact (nodup_middle_not_mem Slot.topFold Pp _ hndflatA).2
          (List.mem_append_left _ hs)
      have hne_bf : s ≠ Slot.bottomFold := by
        intro hh
        subst hh
        exact (nodup_middle_not_mem Slot.bottomFold
          (Pp ++ Slot.topFold :: restp) D hnd2).1
          (List.mem_append_right _ (List.mem_cons_of_mem _ hs))
      have hmem2 : s ∈ (Pp ++ Slot.topFold :: restp) ++
          Slot.bottomFold :: D := by
        simp [hs]
      have hmem1 : s ∈ l1 := by
        rcases hsub2 s hmem2 with h1 | h1
        · exact absurd h1 hne_bf
        · exact h1
      have hmem0 : s ∈ resetSelectBags slots := by
        rcases hsub1 s hmem1 with h1 | h1
        · exact absurd h1 hne_tf
        · exact h1
      cases s with
      | topFold => exact absurd rfl hne_tf
      | bottomFold => exact absurd rfl hne_bf
      | topBag => exact absurd hmem0 htb
      | bottomBag => exact absurd hmem0 hbb
      | row n => exact ⟨n, rfl⟩
    have hres := drawVisibleRows_ok_shape provider rowCount visibleRowCount
      sel topRowIndex (topRowIndex + (visibleRowCount : ℤ) - 1)
      Pp restp D
      { slots := (Pp ++ Slot.topFold :: restp) ++ Slot.bottomFold :: D,
        prevCache := prevCache, curCache := some [] } stF
      (by simp only [])
      (by simp only []; exact hnd2)
      hrows
      (by simp)
      (by intro j n hj; exact hwf j n hj)
      hDV
    simpa using hres
  · have htf2 : Slot.topFold ∉ C ++ Slot.bottomFold :: D := by
      intro hmem
      rcases List.mem_append.mp hmem with h1 | h1
      · exact htfC h1
      · rcases List.mem_cons.mp h1 with h2 | h2
        · exact absurd h2 (by simp)
        · exact htfD h2
    exact absurd hDV (drawVisibleRows_no_topFold provider rowCount
      visibleRowCount sel topRowIndex (topRowIndex + (visibleRowCount : ℤ) - 1)
      { slots := C ++ Slot.bottomFold :: D,
        prevCache := prevCache, curCache := some [] }
      (by simp only []; exact htf2) stF)

/-- Witness for C1: a pass over an initially empty window with a
two-row provider fills the window with rows 0 and 1. -/
theorem redrawPass_window_witness :
    (betweenFolds (([Slot.topFold, Slot.row ⟨10, 0⟩, Slot.row ⟨11, 1⟩,
        Slot.bottomFold],
      ([(1, ⟨11, 1⟩), (0, ⟨10, 0⟩)] : RowCache)) :
        List Slot × RowCache).1).map slotRowIndex =
      windowIndices 0 (min 2 2) :=
  redrawPass_window
    (fun j => if j = 0 then some ⟨10, 0⟩ else
      if j = 1 then some ⟨11, 1⟩ else none)
    2 2 ⟨none, none, false, true⟩ 0 [Slot.topFold, Slot.bottomFold] none
    ([Slot.topFold, Slot.row ⟨10, 0⟩, Slot.row ⟨11, 1⟩, Slot.bottomFold],
      ([(1, ⟨11, 1⟩), (0, ⟨10, 0⟩)] : RowCache))
    (by decide)
    (by
      intro j n hj
      simp only [fetchSource] at hj
      by_cases h0 : j = 0
      · subst h0
        rw [if_pos rfl] at hj
        obtain rfl : (⟨10, 0⟩ : RowNode) = n := by simpa using hj
        rfl
      · rw [if_neg h0] at hj
        by_cases h1 : j = 1
        · subst h1
          rw [if_pos rfl] at hj
          obtain rfl : (⟨11, 1⟩ : RowNode) = n := by simpa using hj
          rfl
        · rw [if_neg h1] at hj
          simp at hj)
    (by rfl)

theorem cacheWF_nil : cacheWF [] := by
  intro j n h
  simp [cacheLookup] at h

theorem cacheWF_cons (cur : RowCache) (n : RowNode) (h : cacheWF cur) :
    cacheWF ((n.rowIndex, n) :: cur) := by
  intro j m hj
  unfold cacheLookup at hj
  by_cases hk : n.rowIndex = j
  · rw [List.find?_cons_of_pos _ (by simpa using hk)] at hj
    obtain rfl : n = m := by simpa using hj
    exact hk
  · rw [List.find?_cons_of_neg _ (by simpa using hk)] at hj
    exact h j m hj

theorem rows_of_map_windowIndices (mid : List Slot) (i : ℤ) (r : ℕ)
    (h : mid.map slotRowIndex = windowIndices i r) :
    ∀ s ∈ mid, ∃ n, s = Slot.row n := by
  intro s hs
  have h1 : slotRowIndex s ∈ windowIndices i r :=
    h ▸ List.mem_map_of_mem slotRowIndex hs
  unfold windowIndices at h1
  obtain ⟨k, _, hkeq⟩ := List.mem_map.mp h1
  cases s with
  | row n => exact ⟨n, rfl⟩
  | topFold => simp [slotRowIndex] at hkeq
  | bottomFold => simp [slotRowIndex] at hkeq
  | topBag => simp [slotRowIndex] at hkeq
  | bottomBag => simp [slotRowIndex] at hkeq

/-- Constructive run of the `drawVisibleRows_` loop when the synced
selection lies outside the requested index range: the loop cannot fail,
fills the window with the fetched rows, and leaves the segments before the
top fold and after the bottom fold untouched. -/
theorem drawVisibleRowsLoop_total (provider : ℤ → Option RowNode)
    (sel : SelState) (sr er : RowNode)
    (hselS : sel.startRow = some sr) (hselE : sel.endRow = some er) :
    ∀ (r : ℕ) (i : ℤ) (P acc rest Q : List Slot) (st : SPState)
      (cur : RowCache),
    st.slots = P ++ Slot.topFold :: (acc ++ rest) ++ Slot.bottomFold :: Q →
    st.slots.Nodup →
    (∀ s ∈ rest, ∃ n, s = Slot.row n) →
    (∀ n, Slot.row n ∈ acc → n.rowIndex < i) →
    (∀ n, Slot.row n ∈ P → n.rowIndex < i) →
    (∀ n, Slot.row n ∈ Q → i + (r : ℤ) ≤ n.rowIndex) →
    st.curCache = some cur →
    cacheWF cur →
    (∀ j n, fetchSource st.prevCache provider j = some n → n.rowIndex = j) →
    (∀ k : ℕ, k < r →
      (fetchSource st.prevCache provider (i + (k : ℤ))).isSome = true) →
    sr.rowIndex < i →
    i + (r : ℤ) ≤ er.rowIndex →
    ∃ mid rest2 st2 cur2,
      drawVisibleRowsLoop provider sel r i
        ((rest ++ [Slot.bottomFold]).head?) st =
        Except.ok ((rest2 ++ [Slot.bottomFold]).head?, st2) ∧
      st2.slots = P ++ Slot.topFold :: (acc ++ mid ++ rest2) ++
        Slot.bottomFold :: Q ∧
      st2.slots.Nodup ∧
      mid.map slotRowIndex = windowIndices i r ∧
      (∀ s ∈ rest2, ∃ n, s = Slot.row n) ∧
      st2.prevCache = st.prevCache ∧
      st2.curCache = some cur2 ∧ cacheWF cur2 := by
  intro r
  induction r with
  | zero =>
    intro i P acc rest Q st cur hsp hnd hrest hacc hP hQ hcur hcwf hwf htot
      hsrlt herge
    exact ⟨[], rest, st, cur, rfl, by rw [hsp]; simp, hnd,
      by simp [windowIndices], hrest, rfl, hcur, hcwf⟩
  | succ r ih =>
    intro i P acc rest Q st cur hsp hnd hrest hacc hP hQ hcur hcwf hwf htot
      hsrlt herge
    have hsdue : ¬ (rowDue sel.startRow i = true) := by
      rw [hselS]
      simp only [rowDue, decide_eq_true_eq]
      omega
    have hedue : ¬ (rowDue sel.endRow i = true) := by
      rw [hselE]
      simp only [rowDue, decide_eq_true_eq]
      have : (((r : ℕ) + 1 : ℕ) : ℤ) = (r : ℤ) + 1 := by push_cast; ring
      omega
    obtain ⟨n, hnode⟩ : ∃ n, fetchSource st.prevCache provider i = some n := by
      have := htot 0 (by omega)
      simp only [Nat.cast_zero, add_zero] at this
      exact Option.isSome_iff_exists.mp this
    have hxrow : n.rowIndex = i := hwf i n hnode
    have hfetchok : fetchRowNode provider st i = Except.ok (some n,
        { st with curCache := some ((n.rowIndex, n) :: cur) }) := by
      simp [fetchRowNode, hcur, hnode]
    have hxacc : Slot.row n ∉ acc := by
      intro hmem
      have := hacc n hmem
      omega
    have hxP : Slot.row n ∉ P := by
      intro hmem
      have := hP n hmem
      omega
    have hxQ : Slot.row n ∉ Q := by
      intro hmem
      have := hQ n hmem
      have hc : (((r : ℕ) + 1 : ℕ) : ℤ) = (r : ℤ) + 1 := by push_cast; ring
      omega
    have hxA : Slot.row n ∉ P ++ Slot.topFold :: acc := by
      intro hmem
      rcases List.mem_append.mp hmem with h1 | h1
      · exact hxP h1
      · rcases List.mem_cons.mp h1 with h2 | h2
        · exact absurd h2 (by simp)
        · exact hxacc h2
    have htot1 : ∀ k : ℕ, k < r →
        (fetchSource st.prevCache provider ((i + 1) + (k : ℤ))).isSome
          = true := by
      intro k hk
      have hcast : (i + 1) + (k : ℤ) = i + (((k + 1 : ℕ) : ℤ)) := by
        push_cast; ring
      rw [hcast]
      exact htot (k + 1) (by omega)
    have herge1 : (i + 1) + (r : ℤ) ≤ er.rowIndex := by
      have hc : (((r : ℕ) + 1 : ℕ) : ℤ) = (r : ℤ) + 1 := by push_cast; ring
      omega
    cases rest with
    | nil =>
      rw [show ((([] : List Slot) ++ [Slot.bottomFold]).head?)
        = some Slot.bottomFold from rfl]
      simp only [drawVisibleRowsLoop]
      rw [if_true, hfetchok]
      simp only [Bind.bind, Except.bind]
      have hA : st.slots =
          (P ++ Slot.topFold :: acc) ++ Slot.bottomFold :: Q := by
        rw [hsp]; simp
      have hndA : ((P ++ Slot.topFold :: acc) ++
          Slot.bottomFold :: Q).Nodup := by
        rw [← hA]; exact hnd
      have hins2 : domInsertBefore (Slot.row n) (some Slot.bottomFold)
          st.slots = Except.ok ((P ++ Slot.topFold :: acc) ++
            Slot.row n :: Slot.bottomFold :: Q) := by
        rw [hA, domInsertBefore_erase_spec (Slot.row n) Slot.bottomFold
          _ _ hndA (by simp)]
        rw [List.erase_of_not_mem hxA, List.erase_of_not_mem hxQ]
      have hstU : SPState.slots
          { st with curCache := some ((n.rowIndex, n) :: cur) } =
          st.slots := rfl
      rw [hstU, hins2]
      simp only [Bind.bind, Except.bind]
      have hnd1 : ((P ++ Slot.topFold :: acc) ++
          Slot.row n :: Slot.bottomFold :: Q).Nodup := by
        refine nodup_insert_middle _ _ _ hndA ?_
        intro hmem
        rcases List.mem_append.mp hmem with h1 | h1
        · exact hxA h1
        · rcases List.mem_cons.mp h1 with h2 | h2
          · exact absurd h2 (by simp)
          · exact hxQ h2
      obtain ⟨mid, rest2, st2, cur2, hloopEq, hsp2, hnd2, hmap, hrows2,
          hprev2, hcur2, hcwf2⟩ := ih (i + 1) P (acc ++ [Slot.row n]) [] Q
        { slots := (P ++ Slot.topFold :: acc) ++
            Slot.row n :: Slot.bottomFold :: Q,
          prevCache := st.prevCache,
          curCache := some ((n.rowIndex, n) :: cur) }
        ((n.rowIndex, n) :: cur)
        (by simp only []; simp)
        (by simp only []; exact hnd1)
        (by simp)
        (by intro m hmem
            rcases List.mem_append.mp hmem with h1 | h1
            · have := hacc m h1; omega
            · have h2 : m = n := by simpa using h1
              subst h2; omega)
        (by intro m hmem; have := hP m hmem; omega)
        (by intro m hmem; have := hQ m hmem
            have hc : (((r : ℕ) + 1 : ℕ) : ℤ) = (r : ℤ) + 1 := by
              push_cast; ring
            omega)
        rfl (cacheWF_cons cur n hcwf)
        (by intro j m hj; exact hwf j m hj)
        htot1 (by omega) herge1
      refine ⟨Slot.row n :: mid, rest2, st2, cur2, hloopEq, ?_, hnd2, ?_,
        hrows2, hprev2, hcur2, hcwf2⟩
      · rw [hsp2]; simp
      · rw [windowIndices_succ]
        simp only [List.map_cons]
        rw [hmap, slotRowIndex, hxrow]
    | cons c restT =>
      obtain ⟨cn, rfl⟩ := hrest c (List.mem_cons_self c restT)
      have hflat : st.slots = (P ++ Slot.topFold :: acc) ++
          Slot.row cn :: (restT ++ Slot.bottomFold :: Q) := by
        rw [hsp]; simp
      have hndflat : ((P ++ Slot.topFold :: acc) ++
          Slot.row cn :: (restT ++ Slot.bottomFold :: Q)).Nodup := by
        rw [← hflat]; exact hnd
      have hcnpre : Slot.row cn ∉ P ++ Slot.topFold :: acc :=
        (nodup_middle_not_mem _ _ _ hndflat).1
      have hrestT : ∀ s ∈ restT, ∃ n, s = Slot.row n :=
        fun s hs => hrest s (List.mem_cons_of_mem _ hs)
      rw [show (((Slot.row cn :: restT) ++ [Slot.bottomFold]).head?)
        = some (Slot.row cn) from rfl]
      simp only [drawVisibleRowsLoop]
      rw [if_neg (show ¬ (Slot.row cn = Slot.bottomFold) by simp)]
      by_cases hidx : slotRowIndex (Slot.row cn) = some i
      · rw [if_pos hidx]
        have hcnidx : cn.rowIndex = i := by
          simpa [slotRowIndex] using hidx
        have hns : nextSibling (Slot.row cn) st.slots =
            ((restT ++ [Slot.bottomFold]).head?) := by
          rw [hflat, nextSibling_eq_of_mem _ _ _ hcnpre, head?_append_cons]
        rw [hns]
        obtain ⟨mid, rest2, st2, cur2, hloopEq, hsp2, hnd2, hmap, hrows2,
            hprev2, hcur2, hcwf2⟩ := ih (i + 1) P (acc ++ [Slot.row cn])
          restT Q st cur
          (by rw [hsp]; simp)
          hnd hrestT
          (by intro m hmem
              rcases List.mem_append.mp hmem with h1 | h1
              · have := hacc m h1; omega
              · have h2 : m = cn := by simpa using h1
                subst h2; omega)
          (by intro m hmem; have := hP m hmem; omega)
          (by intro m hmem; have := hQ m hmem
              have hc : (((r : ℕ) + 1 : ℕ) : ℤ) = (r : ℤ) + 1 := by
                push_cast; ring
              omega)
          hcur hcwf
          (by intro j m hj; exact hwf j m hj)
          htot1 (by omega) herge1
        refine ⟨Slot.row cn :: mid, rest2, st2, cur2, hloopEq, ?_, hnd2, ?_,
          hrows2, hprev2, hcur2, hcwf2⟩
        · rw [hsp2]; simp
        · rw [windowIndices_succ]
          simp only [List.map_cons]
          rw [hmap, slotRowIndex, hcnidx]
      · rw [if_neg hidx]
        rw [dif_neg hsdue, dif_neg hedue]
        have hcn : Slot.row cn ≠ Slot.row n := by
          intro hh
          apply hidx
          have h2 : cn = n := by simpa using hh
          subst h2
          simp [slotRowIndex, hxrow]
        have hinsOK : domInsertBefore (Slot.row n) (some (Slot.row cn))
            st.slots = Except.ok ((P ++ Slot.topFold :: acc) ++
              Slot.row n :: Slot.row cn ::
              (restT.erase (Slot.row n) ++ Slot.bottomFold :: Q)) := by
          rw [hflat, domInsertBefore_erase_spec (Slot.row n) (Slot.row cn)
            _ _ hndflat hcn]
          rw [List.erase_of_not_mem hxA]
          rw [erase_append_of_not_mem_right (Slot.row n) restT _ (by
            intro hmem
            rcases List.mem_cons.mp hmem with h2 | h2
            · exact absurd h2 (by simp)
            · exact hxQ h2)]
        have hnd1 : ((P ++ Slot.topFold :: acc) ++ Slot.row n ::
            Slot.row cn :: (restT.erase (Slot.row n) ++
              Slot.bottomFold :: Q)).Nodup := by
          have := nodup_insert_erase (Slot.row n) (Slot.row cn) _ _
            hndflat hcn
          rw [List.erase_of_not_mem hxA,
            erase_append_of_not_mem_right (Slot.row n) restT _ (by
              intro hmem
              rcases List.mem_cons.mp hmem with h2 | h2
              · exact absurd h2 (by simp)
              · exact hxQ h2)] at this
          exact this
        by_cases hcis : cursorIsSelection sel (Slot.row cn) = true
        · rw [if_pos hcis, hfetchok]
          simp only [Bind.bind, Except.bind]
          have hstU : SPState.slots
              { st with curCache := some ((n.rowIndex, n) :: cur) } =
              st.slots := rfl
          rw [hstU, hinsOK]
          simp only [Bind.bind, Except.bind]
          obtain ⟨mid, rest2, st2, cur2, hloopEq, hsp2, hnd2, hmap, hrows2,
              hprev2, hcur2, hcwf2⟩ := ih (i + 1) P (acc ++ [Slot.row n])
            (Slot.row cn :: restT.erase (Slot.row n)) Q
            { slots := (P ++ Slot.topFold :: acc) ++ Slot.row n ::
                Slot.row cn :: (restT.erase (Slot.row n) ++
                  Slot.bottomFold :: Q),
              prevCache := st.prevCache,
              curCache := some ((n.rowIndex, n) :: cur) }
            ((n.rowIndex, n) :: cur)
            (by simp only []; simp)
            (by simp only []; exact hnd1)
            (by intro s hs
                rcases List.mem_cons.mp hs with rfl | hs
                · exact ⟨cn, rfl⟩
                · exact hrestT s (List.mem_of_mem_erase hs))
            (by intro m hmem
                rcases List.mem_append.mp hmem with h1 | h1
                · have := hacc m h1; omega
                · have h2 : m = n := by simpa using h1
                  subst h2; omega)
            (by intro m hmem; have := hP m hmem; omega)
            (by intro m hmem; have := hQ m hmem
                have hc : (((r : ℕ) + 1 : ℕ) : ℤ) = (r : ℤ) + 1 := by
                  push_cast; ring
                omega)
            rfl (cacheWF_cons cur n hcwf)
            (by intro j m hj; exact hwf j m hj)
            htot1 (by omega) herge1
          refine ⟨Slot.row n :: mid, rest2, st2, cur2, hloopEq, ?_, hnd2,
            ?_, hrows2, hprev2, hcur2, hcwf2⟩
          · rw [hsp2]; simp
          · rw [windowIndices_succ]
            simp only [List.map_cons]
            rw [hmap, slotRowIndex, hxrow]
        · rw [if_neg hcis, hfetchok]
          simp only [Bind.bind, Except.bind]
          have hstU : SPState.slots
              { st with curCache := some ((n.rowIndex, n) :: cur) } =
              st.slots := rfl
          rw [hstU]
          rw [if_neg (show ¬ (Slot.row n = Slot.row cn) from
            fun hh => hcn hh.symm)]
          rw [hinsOK]
          simp only [Bind.bind, Except.bind]
          have hcmem : Slot.row cn ∈ (P ++ Slot.topFold :: acc) ++
              Slot.row n :: Slot.row cn :: (restT.erase (Slot.row n) ++
                Slot.bottomFold :: Q) := by simp
          rw [domRemoveChild_mem _ _ hcmem]
          have herase : ((P ++ Slot.topFold :: acc) ++ Slot.row n ::
              Slot.row cn :: (restT.erase (Slot.row n) ++
                Slot.bottomFold :: Q)).erase (Slot.row cn) =
              (P ++ Slot.topFold :: acc) ++ Slot.row n ::
              (restT.erase (Slot.row n) ++ Slot.bottomFold :: Q) := by
            rw [show (P ++ Slot.topFold :: acc) ++ Slot.row n ::
                Slot.row cn :: (restT.erase (Slot.row n) ++
                  Slot.bottomFold :: Q) =
                ((P ++ Slot.topFold :: acc) ++ [Slot.row n]) ++
                Slot.row cn :: (restT.erase (Slot.row n) ++
                  Slot.bottomFold :: Q) from by simp]
            rw [List.erase_append_right _ (by
              intro hmem
              rcases List.mem_append.mp hmem with h1 | h1
              · exact hcnpre h1
              · exact hcn (by simpa using h1)),
              List.erase_cons_head]
            simp
          rw [herase]
          simp only [Bind.bind, Except.bind]
          have hnd2x : ((P ++ Slot.topFold :: acc) ++ Slot.row n ::
              (restT.erase (Slot.row n) ++ Slot.bottomFold :: Q)).Nodup := by
            rw [← herase]
            exact hnd1.erase _
          have hns3 : nextSibling (Slot.row n)
              ((P ++ Slot.topFold :: acc) ++ Slot.row n ::
                (restT.erase (Slot.row n) ++ Slot.bottomFold :: Q)) =
              ((restT.erase (Slot.row n) ++ [Slot.bottomFold]).head?) := by
            rw [nextSibling_eq_of_mem _ _ _ hxA, head?_append_cons]
          rw [hns3]
          obtain ⟨mid, rest2, st2, cur2, hloopEq, hsp2, hnd2, hmap, hrows2,
              hprev2, hcur2, hcwf2⟩ := ih (i + 1) P (acc ++ [Slot.row n])
            (restT.erase (Slot.row n)) Q
            { slots := (P ++ Slot.topFold :: acc) ++ Slot.row n ::
                (restT.erase (Slot.row n) ++ Slot.bottomFold :: Q),
              prevCache := st.prevCache,
              curCache := some ((n.rowIndex, n) :: cur) }
            ((n.rowIndex, n) :: cur)
            (by simp only []; simp)
            (by simp only []; exact hnd2x)
            (by intro s hs
                exact hrestT s (List.mem_of_mem_erase hs))
            (by intro m hmem
                rcases List.mem_append.mp hmem with h1 | h1
                · have := hacc m h1; omega
                · have h2 : m = n := by simpa using h1
                  subst h2; omega)
            (by intro m hmem; have := hP m hmem; omega)
            (by intro m hmem; have := hQ m hmem
                have hc : (((r : ℕ) + 1 : ℕ) : ℤ) = (r : ℤ) + 1 := by
                  push_cast; ring
                omega)
            rfl (cacheWF_cons cur n hcwf)
            (by intro j m hj; exact hwf j m hj)
            htot1 (by omega) herge1
          refine ⟨Slot.row n :: mid, rest2, st2, cur2, hloopEq, ?_, hnd2,
            ?_, hrows2, hprev2, hcur2, hcwf2⟩
          · rw [hsp2]; simp
          · rw [windowIndices_succ]
            simp only [List.map_cons]
            rw [hmap, slotRowIndex, hxrow]

/-- Constructive run of `drawVisibleRows_` when the synced selection lies
outside the requested index range and the row source can supply every
requested index: the call succeeds and replaces the whole segment between
the folds with the freshly drawn window. -/
theorem drawVisibleRows_total (provider : ℤ → Option RowNode)
    (rc vc : ℕ) (sel : SelState) (sr er : RowNode) (top bot : ℤ)
    (hselS : sel.startRow = some sr) (hselE : sel.endRow = some er)
    (P rest Q : List Slot) (st : SPState) (cur : RowCache)
    (hsp : st.slots = P ++ Slot.topFold :: rest ++ Slot.bottomFold :: Q)
    (hnd : st.slots.Nodup)
    (hrest : ∀ s ∈ rest, ∃ n, s = Slot.row n)
    (hP : ∀ n, Slot.row n ∈ P → n.rowIndex < top)
    (hQ : ∀ n, Slot.row n ∈ Q → top + ((min vc rc : ℕ) : ℤ) ≤ n.rowIndex)
    (hcur : st.curCache = some cur) (hcwf : cacheWF cur)
    (hwf : ∀ j n, fetchSource st.prevCache provider j = some n →
      n.rowIndex = j)
    (htot : ∀ k : ℕ, k < min vc rc →
      (fetchSource st.prevCache provider (top + (k : ℤ))).isSome = true)
    (hsrlt : sr.rowIndex < top)
    (herge : top + ((min vc rc : ℕ) : ℤ) ≤ er.rowIndex) :
    ∃ mid st2 cur2,
      drawVisibleRows provider rc vc sel top bot st = Except.ok st2 ∧
      st2.slots = P ++ Slot.topFold :: mid ++ Slot.bottomFold :: Q ∧
      st2.slots.Nodup ∧
      mid.map slotRowIndex = windowIndices top (min vc rc) ∧
      (∀ s ∈ mid, ∃ n, s = Slot.row n) ∧
      st2.prevCache = st.prevCache ∧
      st2.curCache = some cur2 ∧ cacheWF cur2 := by
  have hcur0 : nextSibling Slot.topFold st.slots =
      ((rest ++ [Slot.bottomFold]).head?) := by
    have hsp2 : st.slots =
        P ++ Slot.topFold :: (rest ++ Slot.bottomFold :: Q) := by
      rw [hsp]; simp
    have htfP : Slot.topFold ∉ P := by
      have := nodup_middle_not_mem Slot.topFold P _
        (by rw [← hsp2]; exact hnd)
      exact this.1
    rw [hsp2, nextSibling_eq_of_mem _ _ _ htfP, head?_append_cons]
  obtain ⟨mid, rest2, st2x, cur2, hloopEq, hsp2, hnd2, hmap, hrows2,
      hprev2, hcur2, hcwf2⟩ :=
    drawVisibleRowsLoop_total provider sel sr er hselS hselE (min vc rc)
      top P [] rest Q st cur (by rw [hsp]; simp) hnd hrest (by simp)
      hP hQ hcur hcwf hwf htot hsrlt herge
  simp only [List.nil_append] at hsp2
  have hmidrows : ∀ s ∈ mid, ∃ n, s = Slot.row n :=
    rows_of_map_windowIndices mid top (min vc rc) hmap
  cases rest2 with
  | nil =>
    refine ⟨mid, st2x, cur2, ?_, by rw [hsp2]; simp, hnd2, hmap, hmidrows,
      hprev2, hcur2, hcwf2⟩
    unfold drawVisibleRows
    rw [hcur0]
    simp only []
    rw [hloopEq]
    simp only [Bind.bind, Except.bind]
    rw [show ((([] : List Slot) ++ [Slot.bottomFold]).head?) =
      some Slot.bottomFold from rfl]
    simp only []
    rw [if_true]
  | cons s rest2T =>
    obtain ⟨sn, rfl⟩ := hrows2 s (List.mem_cons_self s rest2T)
    have hflat3 : st2x.slots = (P ++ Slot.topFold :: mid) ++
        (Slot.row sn :: rest2T) ++ Slot.bottomFold :: Q := by
      rw [hsp2]; simp
    have hrem2 : removeUntilNode Slot.bottomFold (some (Slot.row sn))
        ((P ++ Slot.topFold :: mid) ++ (Slot.row sn :: rest2T) ++
          Slot.bottomFold :: Q) =
        Except.ok ((P ++ Slot.topFold :: mid) ++ Slot.bottomFold :: Q) :=
      removeUntilNode_to_bottomFold _ _ _
        (by rw [← hflat3]; exact hnd2) (rows_ne_bottomFold _ hrows2)
    have hndF : ((P ++ Slot.topFold :: mid) ++
        Slot.bottomFold :: Q).Nodup := by
      refine List.Nodup.sublist ?_ (show ((P ++ Slot.topFold :: mid) ++
        ((Slot.row sn :: rest2T) ++ Slot.bottomFold :: Q)).Nodup from by
          rw [show (P ++ Slot.topFold :: mid) ++
            ((Slot.row sn :: rest2T) ++ Slot.bottomFold :: Q) =
            st2x.slots from by rw [hsp2]; simp]
          exact hnd2)
      exact (List.Sublist.refl _).append (List.sublist_append_right _ _)
    refine ⟨mid, { st2x with
        slots := (P ++ Slot.topFold :: mid) ++ Slot.bottomFold :: Q },
      cur2, ?_, by simp, (by simp only []; exact hndF), hmap, hmidrows,
      (by simp only []; exact hprev2), (by simp only []; exact hcur2),
      hcwf2⟩
    unfold drawVisibleRows
    rw [hcur0]
    simp only []
    rw [hloopEq]
    simp only [Bind.bind, Except.bind]
    rw [show (((Slot.row sn :: rest2T) ++ [Slot.bottomFold]).head?) =
      some (Slot.row sn) from rfl]
    rw [if_neg (by simp), hflat3, hrem2]

/-- Constructive `redraw_` pass for a selection pinned outside the visible
window: with the start row above the fold and the end row below it, the
pass completes, keeps the start row as the slot before the top fold and
the end row as the slot after the bottom fold, and replaces only the
slots between the folds. -/
theorem redrawPass_preserves (provider : ℤ → Option RowNode)
    (rowCount visibleRowCount : ℕ) (sr er : RowNode) (topRowIndex : ℤ)
    (X Y : List Slot) (prevCache : Option RowCache)
    (hV : 1 ≤ visibleRowCount)
    (hsrlt : sr.rowIndex < topRowIndex)
    (herge : topRowIndex + (visibleRowCount : ℤ) ≤ er.rowIndex)
    (hnd : (X ++ Slot.row sr :: (Y ++ [Slot.row er])).Nodup)
    (hwf : ∀ j n, fetchSource prevCache provider j = some n →
      n.rowIndex = j)
    (htot : ∀ k : ℕ, k < min visibleRowCount rowCount →
      (fetchSource prevCache provider (topRowIndex + (k : ℤ))).isSome
        = true) :
    ∃ mid cache2,
      redrawPass provider rowCount visibleRowCount
        ⟨some sr, some er, true, false⟩ topRowIndex
        (X ++ Slot.row sr :: (Y ++ [Slot.row er])) prevCache =
        Except.ok (Slot.row sr :: Slot.topFold ::
          (mid ++ Slot.bottomFold :: [Slot.row er]), cache2) ∧
      (Slot.row sr :: Slot.topFold ::
        (mid ++ Slot.bottomFold :: [Slot.row er])).Nodup ∧
      mid.map slotRowIndex =
        windowIndices topRowIndex (min visibleRowCount rowCount) ∧
      (∀ s ∈ mid, ∃ n, s = Slot.row n) ∧
      cacheWF cache2 := by
  have hminle : ((min visibleRowCount rowCount : ℕ) : ℤ) ≤
      (visibleRowCount : ℤ) := by
    have := Nat.min_le_left visibleRowCount rowCount
    exact_mod_cast this
  -- Step 1: resetSelectBags.
  have hndY : Y.Nodup := by
    have h1 := (List.nodup_append.mp hnd).2.1
    have h2 := h1.of_cons
    exact (List.nodup_append.mp h2).1
  have hl0 : resetSelectBags (X ++ Slot.row sr :: (Y ++ [Slot.row er])) =
      ((X.erase Slot.topBag).erase Slot.bottomBag) ++ Slot.row sr ::
        (((Y.erase Slot.topBag).erase Slot.bottomBag) ++
          [Slot.row er]) := by
    unfold resetSelectBags
    rw [nodup_erase_append _ _ _ hnd,
      List.erase_cons_tail (by simp),
      erase_append_of_not_mem_right Slot.topBag Y _ (by simp)]
    have hnd2 : ((X.erase Slot.topBag) ++ Slot.row sr ::
        ((Y.erase Slot.topBag) ++ [Slot.row er])).Nodup := by
      have := hnd.erase Slot.topBag
      rwa [nodup_erase_append _ _ _ hnd,
        List.erase_cons_tail (by simp),
        erase_append_of_not_mem_right Slot.topBag Y _ (by simp)] at this
    rw [nodup_erase_append _ _ _ hnd2,
      List.erase_cons_tail (by simp),
      erase_append_of_not_mem_right Slot.bottomBag _ _ (by simp)]
  set X0 := (X.erase Slot.topBag).erase Slot.bottomBag with hX0def
  set Y0 := (Y.erase Slot.topBag).erase Slot.bottomBag with hY0def
  have hnd0 : (X0 ++ Slot.row sr :: (Y0 ++ [Slot.row er])).Nodup := by
    rw [← hl0]
    exact (hnd.erase _).erase _
  -- Step 2: drawTopFold.
  have hsrX0 : Slot.row sr ∉ X0 :=
    (nodup_middle_not_mem _ _ _ hnd0).1
  have hTFeq : drawTopFold ⟨some sr, some er, true, false⟩ topRowIndex
      (X0 ++ Slot.row sr :: (Y0 ++ [Slot.row er])) =
      Except.ok (Slot.row sr :: Slot.topFold ::
        (Y0 ++ [Slot.row er]).erase Slot.topFold) := by
    unfold drawTopFold
    simp only []
    rw [if_neg (by omega)]
    rw [if_neg (by simp)]
    rw [if_pos (by omega)]
    rw [placeTopFoldAfter_spec (Slot.row sr) X0 _ (by simp) hsrX0 hnd0]
    simp only [Bind.bind, Except.bind]
    exact dropUntilHead_spec _ _ _
      (fun hh => hsrX0 (List.mem_of_mem_erase hh))
  have hndTF : (X0.erase Slot.topFold ++ Slot.row sr :: Slot.topFold ::
      (Y0 ++ [Slot.row er]).erase Slot.topFold).Nodup :=
    nodup_refold1 Slot.topFold (Slot.row sr) X0 _ hnd0 (by simp)
  have hndl1 : (Slot.row sr :: Slot.topFold ::
      (Y0 ++ [Slot.row er]).erase Slot.topFold).Nodup :=
    (List.nodup_append.mp hndTF).2.1
  -- Step 3: drawBottomFold.
  have hB0erase : (Y0 ++ [Slot.row er]).erase Slot.topFold =
      Y0.erase Slot.topFold ++ [Slot.row er] :=
    erase_append_of_not_mem_right Slot.topFold Y0 _ (by simp)
  have hl1group : Slot.row sr :: Slot.topFold ::
      (Y0 ++ [Slot.row er]).erase Slot.topFold =
      (Slot.row sr :: Slot.topFold :: Y0.erase Slot.topFold) ++
        Slot.row er :: [] := by
    rw [hB0erase]; simp
  have hndl1g : ((Slot.row sr :: Slot.topFold :: Y0.erase Slot.topFold) ++
      Slot.row er :: []).Nodup := by
    rw [← hl1group]; exact hndl1
  have herA : Slot.row er ∉
      Slot.row sr :: Slot.topFold :: Y0.erase Slot.topFold :=
    (nodup_middle_not_mem _ _ _ hndl1g).1
  have hAerase : (Slot.row sr :: Slot.topFold ::
      Y0.erase Slot.topFold).erase Slot.bottomFold =
      Slot.row sr :: Slot.topFold ::
        (Y0.erase Slot.topFold).erase Slot.bottomFold := by
    rw [List.erase_cons_tail (by simp), List.erase_cons_tail (by simp)]
  have hBFeq : drawBottomFold ⟨some sr, some er, true, false⟩
      (topRowIndex + (visibleRowCount : ℤ) - 1)
      (Slot.row sr :: Slot.topFold ::
        (Y0 ++ [Slot.row er]).erase Slot.topFold) =
      Except.ok ((Slot.row sr :: Slot.topFold ::
        (Y0.erase Slot.topFold).erase Slot.bottomFold ++
          [Slot.bottomFold]) ++ [Slot.row er]) := by
    unfold drawBottomFold
    simp only []
    rw [if_neg (by omega)]
    rw [if_neg (by simp)]
    rw [if_pos (by omega)]
    rw [hl1group, placeBottomFoldBefore_spec (Slot.row er) _ []
      (by simp) herA hndl1g]
    simp only [Bind.bind, Except.bind]
    rw [hAerase]
    rw [show Slot.row sr :: Slot.topFold ::
        (Y0.erase Slot.topFold).erase Slot.bottomFold ++
        Slot.bottomFold :: Slot.row er :: ([] : List Slot).erase
          Slot.bottomFold =
      (Slot.row sr :: Slot.topFold ::
        (Y0.erase Slot.topFold).erase Slot.bottomFold ++
        [Slot.bottomFold]) ++ Slot.row er :: [] from by simp]
    exact trimLastUntil_spec _ _ _ (by simp)
  have hndBF : ((Slot.row sr :: Slot.topFold ::
      Y0.erase Slot.topFold).erase Slot.bottomFold ++
      Slot.bottomFold :: Slot.row er ::
        ([] : List Slot).erase Slot.bottomFold).Nodup :=
    nodup_refold2 Slot.bottomFold (Slot.row er) _ [] hndl1g (by simp)
  have hndl2 : ((Slot.row sr :: Slot.topFold ::
      (Y0.erase Slot.topFold).erase Slot.bottomFold ++
      [Slot.bottomFold]) ++ [Slot.row er]).Nodup := by
    have heq : (Slot.row sr :: Slot.topFold ::
        (Y0.erase Slot.topFold).erase Slot.bottomFold ++
        [Slot.bottomFold]) ++ [Slot.row er] =
        (Slot.row sr :: Slot.topFold ::
          Y0.erase Slot.topFold).erase Slot.bottomFold ++
        Slot.bottomFold :: Slot.row er ::
          ([] : List Slot).erase Slot.bottomFold := by
      rw [hAerase]; simp
    rw [heq]
    exact hndBF
  -- rows between the folds before the fill
  have hndY0 : Y0.Nodup := (hndY.erase _).erase _
  have hrestrows : ∀ s ∈ (Y0.erase Slot.topFold).erase Slot.bottomFold,
      ∃ n, s = Slot.row n := by
    intro s hs
    have hsY0 : s ∈ Y0 :=
      List.mem_of_mem_erase (List.mem_of_mem_erase hs)
    cases s with
    | row n => exact ⟨n, rfl⟩
    | topFold =>
      exact absurd (List.mem_of_mem_erase hs) hndY0.not_mem_erase
    | bottomFold =>
      exact absurd hs (hndY0.erase Slot.topFold).not_mem_erase
    | topBag =>
      exact absurd (List.mem_of_mem_erase hsY0) hndY.not_mem_erase
    | bottomBag =>
      exact absurd hsY0 (hndY.erase Slot.topBag).not_mem_erase
  -- Step 4: drawVisibleRows.
  obtain ⟨mid, st2, cur2, hDVeq, hshape, hnd2, hmap, hmidrows, hprev2,
      hcur2, hcwf2⟩ :=
    drawVisibleRows_total provider rowCount visibleRowCount
      ⟨some sr, some er, true, false⟩ sr er topRowIndex
      (topRowIndex + (visibleRowCount : ℤ) - 1) rfl rfl
      [Slot.row sr] ((Y0.erase Slot.topFold).erase Slot.bottomFold)
      [Slot.row er]
      { slots := (Slot.row sr :: Slot.topFold ::
          (Y0.erase Slot.topFold).erase Slot.bottomFold ++
          [Slot.bottomFold]) ++ [Slot.row er],
        prevCache := prevCache, curCache := some [] } []
      (by simp only []; simp)
      (by simp only []; exact hndl2)
      hrestrows
      (by intro m hmem
          have h2 : m = sr := by simpa using hmem
          subst h2
          exact hsrlt)
      (by intro m hmem
          have h2 : m = er := by simpa using hmem
          subst h2
          omega)
      rfl cacheWF_nil
      (by intro j m hj; exact hwf j m hj)
      (by intro k hk; exact htot k hk)
      hsrlt
      (by omega)
  refine ⟨mid, cur2, ?_, ?_, hmap, hmidrows, hcwf2⟩
  · unfold redrawPass
    simp only []
    rw [hl0, hTFeq]
    simp only [Bind.bind, Except.bind]
    rw [hBFeq]
    simp only [Bind.bind, Except.bind]
    rw [hDVeq]
    simp only [Bind.bind, Except.bind]
    rw [hshape, hcur2]
    simp
  · have := hnd2
    rw [hshape] at this
    simpa using this

theorem fetchSource_wf (copt : Option RowCache)
    (provider : ℤ → Option RowNode)
    (hprovWF : ∀ j n, provider j = some n → n.rowIndex = j)
    (hcwf : ∀ c, copt = some c → cacheWF c) :
    ∀ j n, fetchSource copt provider j = some n → n.rowIndex = j := by
  intro j n hj
  unfold fetchSource at hj
  cases hcopt : copt with
  | none =>
    rw [hcopt] at hj
    exact hprovWF j n hj
  | some c =>
    rw [hcopt] at hj
    simp only [] at hj
    cases hl : cacheLookup c j with
    | none =>
      rw [hl] at hj
      exact hprovWF j n hj
    | some m =>
      rw [hl] at hj
      obtain rfl : m = n := by simpa using hj
      exact hcwf c hcopt j m hl

theorem fetchSource_total (copt : Option RowCache)
    (provider : ℤ → Option RowNode) (x : ℤ)
    (h : (provider x).isSome = true) :
    (fetchSource copt provider x).isSome = true := by
  unfold fetchSource
  cases copt with
  | none => exact h
  | some c =>
    simp only []
    cases cacheLookup c x with
    | none => exact h
    | some m => simp

theorem iterRedraw_succ (provider : ℤ → Option RowNode) (rc vc : ℕ)
    (sel : SelState) (top : ℤ) (k : ℕ) (s : List Slot × Option RowCache) :
    iterRedraw provider rc vc sel top (k+1) s =
      (redrawPass provider rc vc sel top s.1 s.2 >>=
        fun p => iterRedraw provider rc vc sel top k (p.1, some p.2)) :=
  rfl

/-- Iterated constructive `redraw_` passes for an out-of-window pinned
selection. -/
theorem iterRedraw_aux (provider : ℤ → Option RowNode)
    (rowCount visibleRowCount : ℕ) (sr er : RowNode) (topRowIndex : ℤ)
    (hV : 1 ≤ visibleRowCount)
    (hsrlt : sr.rowIndex < topRowIndex)
    (herge : topRowIndex + (visibleRowCount : ℤ) ≤ er.rowIndex)
    (hprovWF : ∀ j n, provider j = some n → n.rowIndex = j)
    (hprovTot : ∀ k : ℕ, k < min visibleRowCount rowCount →
      (provider (topRowIndex + (k : ℤ))).isSome = true) :
    ∀ (k : ℕ) (X Y : List Slot) (copt : Option RowCache),
    (X ++ Slot.row sr :: (Y ++ [Slot.row er])).Nodup →
    (∀ c, copt = some c → cacheWF c) →
    ∃ mid cache2,
      iterRedraw provider rowCount visibleRowCount
        ⟨some sr, some er, true, false⟩ topRowIndex (k+1)
        (X ++ Slot.row sr :: (Y ++ [Slot.row er]), copt) =
        Except.ok (Slot.row sr :: Slot.topFold ::
          (mid ++ Slot.bottomFold :: [Slot.row er]), some cache2) ∧
      (Slot.row sr :: Slot.topFold ::
        (mid ++ Slot.bottomFold :: [Slot.row er])).Nodup ∧
      mid.map slotRowIndex =
        windowIndices topRowIndex (min visibleRowCount rowCount) ∧
      (∀ s ∈ mid, ∃ n, s = Slot.row n) ∧
      cacheWF cache2 := by
  intro k
  induction k with
  | zero =>
    intro X Y copt hnd hcwf
    obtain ⟨mid, cache2, hpass, hndc, hmap, hrows, hcwf2⟩ :=
      redrawPass_preserves provider rowCount visibleRowCount sr er
        topRowIndex X Y copt hV hsrlt herge hnd
        (fetchSource_wf copt provider hprovWF hcwf)
        (fun kk hk => fetchSource_total copt provider _ (hprovTot kk hk))
    refine ⟨mid, cache2, ?_, hndc, hmap, hrows, hcwf2⟩
    rw [iterRedraw_succ]
    rw [show (X ++ Slot.row sr :: (Y ++ [Slot.row er]), copt).1 =
      X ++ Slot.row sr :: (Y ++ [Slot.row er]) from rfl]
    rw [show (X ++ Slot.row sr :: (Y ++ [Slot.row er]), copt).2 =
      copt from rfl]
    rw [hpass]
    simp only [Bind.bind, Except.bind]
    rfl
  | succ k ih =>
    intro X Y copt hnd hcwf
    obtain ⟨mid1, cache1, hpass, hndc1, hmap1, hrows1, hcwf1⟩ :=
      redrawPass_preserves provider rowCount visibleRowCount sr er
        topRowIndex X Y copt hV hsrlt herge hnd
        (fetchSource_wf copt provider hprovWF hcwf)
        (fun kk hk => fetchSource_total copt provider _ (hprovTot kk hk))
    have hshape2 : Slot.row sr :: Slot.topFold ::
        (mid1 ++ Slot.bottomFold :: [Slot.row er]) =
        [] ++ Slot.row sr :: ((Slot.topFold :: mid1 ++ [Slot.bottomFold])
          ++ [Slot.row er]) := by
      simp
    obtain ⟨mid2, cache2, hiter, hndc2, hmap2, hrows2, hcwf2⟩ :=
      ih [] (Slot.topFold :: mid1 ++ [Slot.bottomFold]) (some cache1)
        (by rw [← hshape2]; exact hndc1)
        (by intro c hc
            obtain rfl : cache1 = c := by simpa using hc
            exact hcwf1)
    refine ⟨mid2, cache2, ?_, hndc2, hmap2, hrows2, hcwf2⟩
    rw [iterRedraw_succ]
    rw [show (X ++ Slot.row sr :: (Y ++ [Slot.row er]), copt).1 =
      X ++ Slot.row sr :: (Y ++ [Slot.row er]) from rfl]
    rw [show (X ++ Slot.row sr :: (Y ++ [Slot.row er]), copt).2 =
      copt from rfl]
    rw [hpass]
    simp only [Bind.bind, Except.bind]
    rw [hshape2]
    exact hiter

/-- C2: with the synced selection pinned to a start row above the visible
window and an end row below it, any number of consecutive `redraw_` passes
completes with the start row kept as a live slot immediately before the
top fold and the end row as a live slot immediately after the bottom
fold; neither is ever removed or re-created, and only non-selection row
slots appear (or are replaced) between the folds.  Instantiated by the
witness at start row index 2, end row index 2000 and visible window
rows 500 to 524. -/
theorem iterRedraw_preserves_selection (provider : ℤ → Option RowNode)
    (rowCount visibleRowCount : ℕ) (sr er : RowNode) (topRowIndex : ℤ)
    (X Y : List Slot) (k : ℕ)
    (hV : 1 ≤ visibleRowCount)
    (hsrlt : sr.rowIndex < topRowIndex)
    (herge : topRowIndex + (visibleRowCount : ℤ) ≤ er.rowIndex)
    (hnd : (X ++ Slot.row sr :: (Y ++ [Slot.row er])).Nodup)
    (hprovWF : ∀ j n, provider j = some n → n.rowIndex = j)
    (hprovTot : ∀ kk : ℕ, kk < min visibleRowCount rowCount →
      (provider (topRowIndex + (kk : ℤ))).isSome = true) :
    ∃ mid cache2,
      iterRedraw provider rowCount visibleRowCount
        ⟨some sr, some er, true, false⟩ topRowIndex (k+1)
        (X ++ Slot.row sr :: (Y ++ [Slot.row er]), none) =
        Except.ok (Slot.row sr :: Slot.topFold ::
          (mid ++ Slot.bottomFold :: [Slot.row er]), some cache2) ∧
      (∀ s ∈ mid, ∃ n, s = Slot.row n) ∧
      Slot.row sr ∉ mid ∧ Slot.row er ∉ mid ∧
      mid.map slotRowIndex =
        windowIndices topRowIndex (min visibleRowCount rowCount) := by
  obtain ⟨mid, cache2, hiter, hndc, hmap, hrows, hcwf2⟩ :=
    iterRedraw_aux provider rowCount visibleRowCount sr er topRowIndex
      hV hsrlt herge hprovWF hprovTot k X Y none hnd
      (by intro c hc; exact absurd hc (by simp))
  refine ⟨mid, cache2, hiter, hrows, ?_, ?_, hmap⟩
  · intro hmem
    have h1 : Slot.row sr ∉ Slot.topFold ::
        (mid ++ Slot.bottomFold :: [Slot.row er]) :=
      (List.nodup_cons.mp hndc).1
    exact h1 (List.mem_cons_of_mem _ (List.mem_append_left _ hmem))
  · intro hmem
    have hform : Slot.row sr :: Slot.topFold ::
        (mid ++ Slot.bottomFold :: [Slot.row er]) =
        (Slot.row sr :: Slot.topFold :: mid ++ [Slot.bottomFold]) ++
          Slot.row er :: [] := by
      simp
    have h1 := nodup_middle_not_mem (Slot.row er)
      (Slot.row sr :: Slot.topFold :: mid ++ [Slot.bottomFold]) []
      (by rw [← hform]; exact hndc)
    exact h1.1 (List.mem_append_left _
      (List.mem_cons_of_mem _ (List.mem_cons_of_mem _ hmem)))

/-- Witness for C2: selection pinned to rows 2 and 2000, window rows
500 to 524, two consecutive passes. -/
theorem iterRedraw_preserves_selection_witness :
    ∃ mid cache2,
      iterRedraw
        (fun j => if 500 ≤ j ∧ j < 525 then
          some ⟨j.toNat, j⟩ else none)
        2001 25 ⟨some ⟨1, 2⟩, some ⟨2, 2000⟩, true, false⟩ 500 (1+1)
        ([] ++ Slot.row ⟨1, 2⟩ ::
          ([Slot.topFold, Slot.bottomFold] ++ [Slot.row ⟨2, 2000⟩]), none) =
        Except.ok (Slot.row ⟨1, 2⟩ :: Slot.topFold ::
          (mid ++ Slot.bottomFold :: [Slot.row ⟨2, 2000⟩]), some cache2) ∧
      (∀ s ∈ mid, ∃ n, s = Slot.row n) ∧
      Slot.row ⟨1, 2⟩ ∉ mid ∧ Slot.row ⟨2, 2000⟩ ∉ mid ∧
      mid.map slotRowIndex = windowIndices 500 (min 25 2001) :=
  iterRedraw_preserves_selection
    (fun j => if 500 ≤ j ∧ j < 525 then some ⟨j.toNat, j⟩ else none)
    2001 25 ⟨1, 2⟩ ⟨2, 2000⟩ 500 [] [Slot.topFold, Slot.bottomFold] 1
    (by decide) (by decide) (by decide) (by decide)
    (by
      intro j n hj
      simp only [] at hj
      by_cases hin : 500 ≤ j ∧ j < 525
      · rw [if_pos hin] at hj
        obtain rfl : (⟨j.toNat, j⟩ : RowNode) = n := by simpa using hj
        rfl
      · rw [if_neg hin] at hj
        simp at hj)
    (by
      intro kk hk
      have hk25 : kk < 25 := by
        have h2 : min 25 2001 = 25 := by decide
        omega
      simp only []
      rw [if_pos (by constructor <;> omega)]
      simp)

/-- C4: behaviour of a window-fill pass when the row provider returns
nothing for a required index (here index 1, with indices 0..2 requested).
On the `redraw_` path the current cache generation is active, so
`fetchRowNode_` passes the undefined result to `cacheRowNode_`, which
reads `.rowIndex` off it and THROWS a TypeError before the `!node` guard
of `drawVisibleRows_` can run: the pass is not completed gracefully,
contradicting the claimed non-fatal truncation.  Only on the
`invalidate()` path (no cache generation active) does the loop reach its
`break` and truncate gracefully, leaving the shorter but structurally
valid window `[topFold, row 0, bottomFold]`. -/
theorem missing_row_throws_in_redraw :
    redrawPass (fun j => if j = 0 then some ⟨20, 0⟩ else none) 3 3
      ⟨none, none, false, true⟩ 0 [Slot.topFold, Slot.bottomFold] none =
      Except.error
        "TypeError: cacheRowNode_ reads rowIndex of an undefined node" ∧
    invalidatePass (fun j => if j = 0 then some ⟨20, 0⟩ else none) 3 3
      ⟨none, none, false, true⟩ 0 [Slot.topFold, Slot.bottomFold] =
      Except.ok [Slot.topFold, Slot.row ⟨20, 0⟩, Slot.bottomFold] := by
  constructor
  · rfl
  · unfold invalidatePass
    rw [show nextSibling Slot.topFold [Slot.topFold, Slot.bottomFold] =
      some Slot.bottomFold from rfl]
    rw [show clearBetweenFolds (some Slot.bottomFold)
        [Slot.topFold, Slot.bottomFold] =
        Except.ok [Slot.topFold, Slot.bottomFold] from by
      rw [clearBetweenFolds.eq_def]
      rfl]
    simp only [Bind.bind, Except.bind]
    rfl

end Hterm
